import Mathlib

/-!
# BitmapLibrary: a shallow embedding of `BitmapLibrary.h` / `BitmapLibrary.cpp`

Bytes and machine integers are natural numbers.  Every `uint32_t` operation of the
source is followed by an explicit reduction modulo `2^32` (`u32`).  The host is
little-endian (the library is a Windows DLL), so a `uint16_t` / `uint32_t` read through a
reinterpreted `char*` combines the bytes least significant first.

C++ exceptions become `Except.error`.  Behaviour that C++ leaves undefined because a
store lands outside `bmpData` is the separate outcome `Error.MemoryFault`.
-/

namespace BitmapLibrary

/-! ## Failure kinds -/

/-- Failure kinds.  The source throws `std::runtime_error` with a message; each message
is one kind of the specification:
* `IoError`: "Unable to open the input file."
* `UnrecognizedFormat`: "Unrecognized file format." (both throw sites of the decoder)
* `UnsupportedFormat`: "Unexpected color mask format! ..." and
  "Unexpected color space type! ..."
* `UnsupportedOrientation`: "The program can treat only BMP images with the origin in
  the bottom left corner!"
* `InvalidDimensions`: "The image width and height must be positive numbers."
* `OutOfBounds`: "The region does not fit in the image!"
* `MemoryFault`: not an exception: a store outside the pixel buffer (undefined
  behaviour in C++).
* `Diverged`: not an exception: the loop of `make_stride_aligned` ran out of fuel. -/
inductive Error where
  | IoError
  | UnrecognizedFormat
  | UnsupportedFormat
  | UnsupportedOrientation
  | InvalidDimensions
  | OutOfBounds
  | MemoryFault
  | Diverged
  deriving DecidableEq, Repr

deriving instance DecidableEq for Except

/-! ## Machine arithmetic -/

/-- Reduction of a natural number to `uint32_t`. -/
def u32 (n : Nat) : Nat := n % 4294967296

/-- Conversion of an `int32_t` (or of the wrapped result of `int32_t` arithmetic) to
`uint32_t`. -/
def u32OfInt (i : Int) : Nat := (i % 4294967296).toNat

/-- Constant `BMPT` of the header file: the signature BM. -/
def BMPT : Nat := 0x4d42

/-- Constant `BMPFileHeaderSize`. -/
def BMPFileHeaderSize : Nat := 14

/-- Constant `BMPInfoHeaderSize`. -/
def BMPInfoHeaderSize : Nat := 40

/-- Value of `sizeof(BitmapColorHeader)`: 5 + 16 members of type `uint32_t`. -/
def sizeofBitmapColorHeader : Nat := 84

/-! ## Header structures (defaults are the in-class initialisers) -/

/-- Structure `BitmapFileHeader`. -/
structure BitmapFileHeader where
  bfType : Nat := 0
  bfSize : Nat := 0
  bfReserved1 : Nat := 0
  bfReserved2 : Nat := 0
  bfOffBits : Nat := 0
  deriving DecidableEq, Repr

/-- Structure `BitmapInfoHeader`; `biBitCount` is the `ColorResolution` enumeration,
whose underlying type is `uint16_t` (default `CR_256Colors = 8`). -/
structure BitmapInfoHeader where
  biSize : Nat := 0
  biWidth : Nat := 0
  biHeight : Nat := 0
  biPlanes : Nat := 1
  biBitCount : Nat := 8
  biCompression : Nat := 0
  biSizeImage : Nat := 0
  biXPelsPerMeter : Nat := 0
  biYPelsPerMeter : Nat := 0
  biClrUsed : Nat := 0
  biClrImportant : Nat := 0
  deriving DecidableEq, Repr

/-- Structure `BitmapColorHeader`. -/
structure BitmapColorHeader where
  red_mask : Nat := 0x00ff0000
  green_mask : Nat := 0x0000ff00
  blue_mask : Nat := 0x000000ff
  alpha_mask : Nat := 0xff000000
  color_space_type : Nat := 0x73524742
  unused : List Nat := List.replicate 16 0
  deriving DecidableEq, Repr

/-- Structure `BitmapFile`: the three headers, the pixel buffer `bmpData` and the
private member `row_stride`. -/
structure BitmapFile where
  bmpFileHeader : BitmapFileHeader := {}
  bmpInfoHeader : BitmapInfoHeader := {}
  bmpColorHeader : BitmapColorHeader := {}
  bmpData : List Nat := []
  row_stride : Nat := 0
  deriving DecidableEq, Repr

/-! ## Raw byte buffers -/

/-- Byte `i` of a raw buffer. -/
def rd8 (raw : List Nat) (i : Nat) : Nat := raw.getD i 0

/-- Read `*(uint16_t*)(raw + off)` on a little-endian host. -/
def rd16 (raw : List Nat) (off : Nat) : Nat := rd8 raw off + 256 * rd8 raw (off + 1)

/-- Read `*(uint32_t*)(raw + off)` on a little-endian host. -/
def rd32 (raw : List Nat) (off : Nat) : Nat :=
  rd8 raw off + 256 * rd8 raw (off + 1) + 65536 * rd8 raw (off + 2)
    + 16777216 * rd8 raw (off + 3)

/-- Store `*(uint16_t*)(raw + off) = v` on a little-endian host. -/
def wr16 (raw : List Nat) (off v : Nat) : List Nat :=
  (raw.set off (v % 256)).set (off + 1) (v / 256 % 256)

/-- Store `*(uint32_t*)(raw + off) = v` on a little-endian host. -/
def wr32 (raw : List Nat) (off v : Nat) : List Nat :=
  (((raw.set off (v % 256)).set (off + 1) (v / 256 % 256)).set (off + 2)
    (v / 65536 % 256)).set (off + 3) (v / 16777216 % 256)

/-- Copy the bytes `got` into `buf` starting at `off` (the caller checks the range). -/
def blit (buf : List Nat) (off : Nat) (got : List Nat) : List Nat :=
  buf.take off ++ got ++ buf.drop (off + got.length)

/-! ## Header codec -/

/-- Method `BitmapFileHeader::set(char*)`: all five members are overwritten. -/
def BitmapFileHeader.set (rawData : List Nat) : BitmapFileHeader :=
  { bfType := rd16 rawData 0
    bfSize := rd32 rawData 2
    bfReserved1 := rd16 rawData 6
    bfReserved2 := rd16 rawData 8
    bfOffBits := rd32 rawData 10 }

/-- Method `BitmapFileHeader::get()`.  `rawData0` is the content of the fresh
`new char[14]`.  The pointers are byte offsets into it: `p16 = rawData` and
`p32 = rawData + 2`; `p16[k]` is the byte offset `p16 + 2 * k` and `p32[k]` the byte
offset `p32 + 4 * k`. -/
def BitmapFileHeader.get (h : BitmapFileHeader) (rawData0 : List Nat) : List Nat :=
  let p16 := 0
  let p32 := 0 + 2
  let r1 := wr16 rawData0 (p16 + 2 * 0) h.bfType
  let r2 := wr32 r1 (p32 + 4 * 0) h.bfSize
  let r3 := wr16 r2 (p16 + 2 * 3) h.bfReserved1
  let r4 := wr16 r3 (p16 + 2 * 4) h.bfReserved2
  wr32 r4 (p32 + 4 * 2) h.bfOffBits

/-- Method `BitmapInfoHeader::set(char*)`: all eleven members are overwritten. -/
def BitmapInfoHeader.set (rawData : List Nat) : BitmapInfoHeader :=
  { biSize := rd32 rawData 0
    biWidth := rd32 rawData 4
    biHeight := rd32 rawData 8
    biPlanes := rd16 rawData 12
    biBitCount := rd16 rawData 14
    biCompression := rd32 rawData 16
    biSizeImage := rd32 rawData 20
    biXPelsPerMeter := rd32 rawData 24
    biYPelsPerMeter := rd32 rawData 28
    biClrUsed := rd32 rawData 32
    biClrImportant := rd32 rawData 36 }

/-- Method `BitmapInfoHeader::get()`.  `rawData0` is the content of the fresh
`new char[40]`.  The pointers are byte offsets into it: `p16 = rawData + 12` and
`p32 = rawData`; `p16[k]` is the byte offset `p16 + 2 * k` and `p32[k]` the byte offset
`p32 + 4 * k`. -/
def BitmapInfoHeader.get (h : BitmapInfoHeader) (rawData0 : List Nat) : List Nat :=
  let p16 := 0 + 12
  let r1 := wr16 rawData0 (p16 + 2 * 0) h.biPlanes
  let r2 := wr16 r1 (p16 + 2 * 1) h.biBitCount
  let p32 := 0
  let r3 := wr32 r2 (p32 + 4 * 0) h.biSize
  let r4 := wr32 r3 (p32 + 4 * 1) h.biWidth
  let r5 := wr32 r4 (p32 + 4 * 2) h.biHeight
  let r6 := wr32 r5 (p32 + 4 * 4) h.biCompression
  let r7 := wr32 r6 (p32 + 4 * 5) h.biSizeImage
  let r8 := wr32 r7 (p32 + 4 * 6) h.biXPelsPerMeter
  let r9 := wr32 r8 (p32 + 4 * 7) h.biYPelsPerMeter
  let r10 := wr32 r9 (p32 + 4 * 8) h.biClrUsed
  wr32 r10 (p32 + 4 * 9) h.biClrImportant

/-! ## Color header validator -/

/-- Method `BitmapColorHeader::check()`. -/
def BitmapColorHeader.check (h : BitmapColorHeader) : Except Error Unit :=
  let expected_color_header : BitmapColorHeader := {}
  if expected_color_header.red_mask ≠ h.red_mask ∨
      expected_color_header.blue_mask ≠ h.blue_mask ∨
      expected_color_header.green_mask ≠ h.green_mask ∨
      expected_color_header.alpha_mask ≠ h.alpha_mask then
    .error .UnsupportedFormat
  else if expected_color_header.color_space_type ≠ h.color_space_type then
    .error .UnsupportedFormat
  else
    .ok ()

/-! ## Stride alignment -/

/-- Loop of `make_stride_aligned`: `while (new_stride % align_stride != 0) new_stride++`
on a `uint32_t`.  `none` when the fuel is used up. -/
def make_stride_aligned_loop (align_stride : Nat) : Nat → Nat → Option Nat
  | 0, _ => none
  | fuel + 1, new_stride =>
    if new_stride % align_stride ≠ 0 then
      make_stride_aligned_loop align_stride fuel (u32 (new_stride + 1))
    else
      some new_stride

/-- Method `BitmapFile::make_stride_aligned(align_stride)` for a given `row_stride`.
A `uint32_t` takes `2^32` values, so `2^32 + 1` tests of the loop condition are enough
whenever the loop ends at all. -/
def make_stride_aligned (row_stride align_stride : Nat) : Option Nat :=
  make_stride_aligned_loop align_stride 4294967297 row_stride

/-! ## Input stream -/

/-- State of the `std::ifstream`: content of the file, read position, and whether
`failbit` is set.  A short `read` sets `eofbit` and `failbit` together, and exceptions
are not enabled on the stream, so one flag is enough: once it is set every later
`read` and `seekg` does nothing. -/
structure IStream where
  bytes : List Nat
  pos : Nat := 0
  failed : Bool := false
  deriving DecidableEq, Repr

/-- Call `fin.read(p, n)`: the bytes extracted and the new state. -/
def IStream.read (fin : IStream) (n : Nat) : List Nat × IStream :=
  if fin.failed then ([], fin)
  else
    let got := (fin.bytes.drop fin.pos).take n
    (got, { fin with pos := fin.pos + got.length, failed := decide (got.length < n) })

/-- Call `fin.seekg(off, fin.beg)`; positions past the end of the file are accepted. -/
def IStream.seekg (fin : IStream) (off : Nat) : IStream :=
  if fin.failed then fin else { fin with pos := off }

/-- Call `fin.read(buf.data() + off, n)` into a buffer: a fault when bytes are stored
past the end of `buf`. -/
def readInto (fin : IStream) (buf : List Nat) (off n : Nat) :
    Except Error (List Nat × IStream) :=
  let r := fin.read n
  if r.1.length = 0 then .ok (buf, r.2)
  else if off + r.1.length ≤ buf.length then .ok (blit buf off r.1, r.2)
  else .error .MemoryFault

/-! ## Decoder: `BitmapFile::BitmapFile(std::string FileName)` -/

/-- Lines 11-17: read the file header into the local array `bmpfh` (initial content
`bmpfh0`, indeterminate in C++) and test the signature. -/
def readFileHeader (bmpfh0 : List Nat) (fin : IStream) :
    Except Error (BitmapFileHeader × IStream) :=
  let r := fin.read BMPFileHeaderSize
  let bmpFileHeader := BitmapFileHeader.set (blit bmpfh0 0 r.1)
  if bmpFileHeader.bfType ≠ BMPT then .error .UnrecognizedFormat
  else .ok (bmpFileHeader, r.2)

/-- Lines 19-34: read the info header into the local array `bmpih` (initial content
`bmpih0`), and for a 32-bit image test `biSize` and run `check()` on the member
`bmpColorHeader`.  Nothing is read from the stream into `bmpColorHeader`. -/
def readInfoHeader (bmpColorHeader : BitmapColorHeader) (bmpih0 : List Nat)
    (fin : IStream) : Except Error (BitmapInfoHeader × IStream) :=
  let r := fin.read BMPInfoHeaderSize
  let bmpInfoHeader := BitmapInfoHeader.set (blit bmpih0 0 r.1)
  if bmpInfoHeader.biBitCount = 32 then
    if bmpInfoHeader.biSize ≥ BMPInfoHeaderSize + sizeofBitmapColorHeader then
      match bmpColorHeader.check with
      | .error e => .error e
      | .ok _ => .ok (bmpInfoHeader, r.2)
    else .error .UnrecognizedFormat
  else .ok (bmpInfoHeader, r.2)

/-- Lines 65-68: the row loop `for (uint32_t y = 0; y < biHeight; ++y)`, with `n` the
number of iterations still to run (`biHeight - y`): one row of `row_stride` bytes is
read to `bmpData.data() + row_stride * y`, then `pad` bytes into `padding_row`. -/
def readRows (row_stride pad : Nat) :
    Nat → Nat → List Nat → IStream → Except Error (List Nat × IStream)
  | 0, _, bmpData, fin => .ok (bmpData, fin)
  | n + 1, y, bmpData, fin =>
    match readInto fin bmpData (u32 (row_stride * y)) row_stride with
    | .error e => .error e
    | .ok (bmpData1, fin1) =>
      readRows row_stride pad n (u32 (y + 1)) bmpData1 (fin1.read pad).2

/-- Lines 36-70: seek, normalise the derived header fields, allocate and read the
pixel data. -/
def readPixels (bmpColorHeader : BitmapColorHeader) (fh : BitmapFileHeader)
    (ih : BitmapInfoHeader) (fin : IStream) : Except Error BitmapFile :=
  let fin3 := fin.seekg fh.bfOffBits
  let biSize :=
    if ih.biBitCount = 32 then BMPInfoHeaderSize + sizeofBitmapColorHeader
    else BMPInfoHeaderSize
  let bfOffBits :=
    if ih.biBitCount = 32 then
      BMPFileHeaderSize + BMPInfoHeaderSize + sizeofBitmapColorHeader
    else BMPFileHeaderSize + BMPInfoHeaderSize
  let bfSize := bfOffBits
  -- `biHeight` is a `uint32_t`: the comparison with 0 is on unsigned values
  if ih.biHeight < 0 then .error .UnsupportedOrientation
  else
    let size := u32 (u32 (ih.biWidth * ih.biHeight) * ih.biBitCount) / 8
    let bmpData0 := List.replicate size 0
    if ih.biWidth % 4 = 0 then
      match readInto fin3 bmpData0 0 size with
      | .error e => .error e
      | .ok (bmpData, _) =>
        .ok { bmpFileHeader := { fh with bfOffBits := bfOffBits, bfSize := u32 (bfSize + size) }
              bmpInfoHeader := { ih with biSize := biSize }
              bmpColorHeader := bmpColorHeader
              bmpData := bmpData
              row_stride := 0 }
    else
      let row_stride := u32 (ih.biWidth * ih.biBitCount) / 8
      match make_stride_aligned row_stride 4 with
      | none => .error .Diverged
      | some new_stride =>
        let pad := u32 (new_stride + 4294967296 - row_stride)
        match readRows row_stride pad ih.biHeight 0 bmpData0 fin3 with
        | .error e => .error e
        | .ok (bmpData, _) =>
          .ok { bmpFileHeader :=
                  { fh with bfOffBits := bfOffBits
                            bfSize := u32 (bfSize + size + ih.biHeight * pad) }
                bmpInfoHeader := { ih with biSize := biSize }
                bmpColorHeader := bmpColorHeader
                bmpData := bmpData
                row_stride := row_stride }

/-- The constructor body once the file is open, for a given initial value of the member
`bmpColorHeader` and given initial contents of the local arrays. -/
def BitmapFile.load (bmpColorHeader : BitmapColorHeader) (bmpfh0 bmpih0 : List Nat)
    (fin : IStream) : Except Error BitmapFile :=
  match readFileHeader bmpfh0 fin with
  | .error e => .error e
  | .ok (fh, fin1) =>
    match readInfoHeader bmpColorHeader bmpih0 fin1 with
    | .error e => .error e
    | .ok (ih, fin2) => readPixels bmpColorHeader fh ih fin2

/-- Constructor `BitmapFile::BitmapFile(std::string FileName)` (and `LoadBMP`): `file`
is the content of the named file, `none` when it cannot be opened.  The member
`bmpColorHeader` starts with its in-class initialisers. -/
def BitmapFile.ofFile (bmpfh0 bmpih0 : List Nat) (file : Option (List Nat)) :
    Except Error BitmapFile :=
  match file with
  | none => .error .IoError
  | some bytes => BitmapFile.load {} bmpfh0 bmpih0 { bytes := bytes }

/-! ## Reference decoder that always reads row by row -/

/-- Reference for the pixel stage, following the words of the specification (steps 5 to
10 of the decoder, and the note that implementers may always use the row-by-row path):
the buffer has `width * height * channels` bytes with `channels = bits-per-pixel / 8`,
`row_stride = width * channels`, `aligned_stride` is the smallest multiple of 4 that is
at least `row_stride`, every row is read and its `aligned_stride - row_stride` padding
bytes are skipped, and `bfSize` is the header bytes plus the data and padding bytes,
`bfOffBits + height * aligned_stride`. -/
def readPixelsRowByRow (bmpColorHeader : BitmapColorHeader) (fh : BitmapFileHeader)
    (ih : BitmapInfoHeader) (fin : IStream) : Except Error BitmapFile :=
  let fin3 := fin.seekg fh.bfOffBits
  let biSize :=
    if ih.biBitCount = 32 then BMPInfoHeaderSize + sizeofBitmapColorHeader
    else BMPInfoHeaderSize
  let bfOffBits :=
    if ih.biBitCount = 32 then
      BMPFileHeaderSize + BMPInfoHeaderSize + sizeofBitmapColorHeader
    else BMPFileHeaderSize + BMPInfoHeaderSize
  let channels := ih.biBitCount / 8
  let row_stride := ih.biWidth * channels
  let aligned_stride := (row_stride + 3) / 4 * 4
  let bmpData0 := List.replicate (ih.biWidth * ih.biHeight * channels) 0
  match readRows row_stride (aligned_stride - row_stride) ih.biHeight 0 bmpData0 fin3 with
  | .error e => .error e
  | .ok (bmpData, _) =>
    .ok { bmpFileHeader :=
            { fh with bfOffBits := bfOffBits
                      bfSize := bfOffBits + ih.biHeight * aligned_stride }
          bmpInfoHeader := { ih with biSize := biSize }
          bmpColorHeader := bmpColorHeader
          bmpData := bmpData
          row_stride := row_stride }

/-- The decoder with `readPixelsRowByRow` as its pixel stage. -/
def BitmapFile.ofFileRowByRow (bmpfh0 bmpih0 : List Nat) (file : Option (List Nat)) :
    Except Error BitmapFile :=
  match file with
  | none => .error .IoError
  | some bytes =>
    match readFileHeader bmpfh0 { bytes := bytes } with
    | .error e => .error e
    | .ok (fh, fin1) =>
      match readInfoHeader {} bmpih0 fin1 with
      | .error e => .error e
      | .ok (ih, fin2) => readPixelsRowByRow {} fh ih fin2

/-! ## Allocator: `BitmapFile::BitmapFile(int32_t, int32_t, bool)` -/

/-- Constructor `BitmapFile::BitmapFile(int32_t width, int32_t height, bool has_alpha)`
(and `CreateBMP`).  The `int32_t` products `width * 4` and `width * 3` are taken as
wrapping, so that their conversion to the `uint32_t` member `row_stride` is the product
modulo `2^32`. -/
def BitmapFile.blank (width height : Int) (has_alpha : Bool) : Except Error BitmapFile :=
  if width ≤ 0 ∨ height ≤ 0 then .error .InvalidDimensions
  else
    let biWidth := u32OfInt width
    let biHeight := u32OfInt height
    if has_alpha then
      let biSize := BMPInfoHeaderSize + sizeofBitmapColorHeader
      let bfOffBits := BMPFileHeaderSize + BMPInfoHeaderSize + sizeofBitmapColorHeader
      let row_stride := u32OfInt (width * 4)
      let size := u32 (row_stride * u32OfInt height)
      .ok { bmpFileHeader := { bfOffBits := bfOffBits, bfSize := u32 (bfOffBits + size) }
            bmpInfoHeader :=
              { biWidth := biWidth, biHeight := biHeight, biSize := biSize
                biBitCount := 32, biCompression := 3 }
            bmpData := List.replicate size 0
            row_stride := row_stride }
    else
      let biSize := BMPInfoHeaderSize
      let bfOffBits := BMPFileHeaderSize + BMPInfoHeaderSize
      let row_stride := u32OfInt (width * 3)
      let size := u32 (row_stride * u32OfInt height)
      match make_stride_aligned row_stride 4 with
      | none => .error .Diverged
      | some new_stride =>
        .ok { bmpFileHeader :=
                { bfOffBits := bfOffBits
                  bfSize := u32 (bfOffBits + size
                    + biHeight * u32 (new_stride + 4294967296 - row_stride)) }
              bmpInfoHeader :=
                { biWidth := biWidth, biHeight := biHeight, biSize := biSize
                  biBitCount := 24, biCompression := 0 }
              bmpData := List.replicate size 0
              row_stride := row_stride }

/-! ## Region fill: `BitmapFile::fillRegion` -/

/-- Store `bmpData[i] = v`; an index outside the vector is a fault. -/
def storeByte (bmpData : List Nat) (i v : Nat) : Except Error (List Nat) :=
  if i < bmpData.length then .ok (bmpData.set i v) else .error .MemoryFault

/-- Index expression `channels * (y * biWidth + x) + c` in `uint32_t` arithmetic. -/
def pixelIndex (channels biWidth y x c : Nat) : Nat :=
  u32 (u32 (channels * u32 (u32 (y * biWidth) + x)) + c)

/-- Lines 119-124: the body of the inner loop. -/
def fillPixel (channels biWidth B G R A y x : Nat) (bmpData : List Nat) :
    Except Error (List Nat) :=
  match storeByte bmpData (pixelIndex channels biWidth y x 0) B with
  | .error e => .error e
  | .ok d0 =>
    match storeByte d0 (pixelIndex channels biWidth y x 1) G with
    | .error e => .error e
    | .ok d1 =>
      match storeByte d1 (pixelIndex channels biWidth y x 2) R with
      | .error e => .error e
      | .ok d2 =>
        if channels = 4 then storeByte d2 (pixelIndex channels biWidth y x 3) A
        else .ok d2

/-- Line 118: the inner loop `for (uint32_t x = x0; x < x0 + w; ++x)`, with `n` the
number of iterations still to run. -/
def fillRow (channels biWidth B G R A y : Nat) : Nat → Nat → List Nat → Except Error (List Nat)
  | 0, _, bmpData => .ok bmpData
  | n + 1, x, bmpData =>
    match fillPixel channels biWidth B G R A y x bmpData with
    | .error e => .error e
    | .ok d => fillRow channels biWidth B G R A y n (u32 (x + 1)) d

/-- Line 117: the outer loop `for (uint32_t y = y0; y < y0 + h; ++y)`, with `m` the
number of iterations still to run; each runs the inner loop from `x0` for `n` columns. -/
def fillRows (channels biWidth B G R A x0 n : Nat) :
    Nat → Nat → List Nat → Except Error (List Nat)
  | 0, _, bmpData => .ok bmpData
  | m + 1, y, bmpData =>
    match fillRow channels biWidth B G R A y n x0 bmpData with
    | .error e => .error e
    | .ok d => fillRows channels biWidth B G R A x0 n m (u32 (y + 1)) d

/-- Method `BitmapFile::fillRegion`.  The sums `x0 + w` and `y0 + h` are `uint32_t`;
a loop from `a` while the variable is below `b` runs `b - a` times (none when
`b ≤ a`). -/
def BitmapFile.fillRegion (img : BitmapFile) (x0 y0 w h B G R A : Nat) :
    Except Error BitmapFile :=
  if u32 (x0 + w) > img.bmpInfoHeader.biWidth ∨ u32 (y0 + h) > img.bmpInfoHeader.biHeight then
    .error .OutOfBounds
  else
    let channels := img.bmpInfoHeader.biBitCount / 8
    match fillRows channels img.bmpInfoHeader.biWidth B G R A x0 (u32 (x0 + w) - x0)
        (u32 (y0 + h) - y0) y0 img.bmpData with
    | .error e => .error e
    | .ok d => .ok { img with bmpData := d }

/-! ## Relations used in the statements: streams that coincide, header values in range -/

/-- Two stream states that are at the same position with the same failure flag, over
contents that coincide from byte `k` on, both past byte `k` unless failed. -/
def IStream.agreeFrom (k : Nat) (a b : IStream) : Prop :=
  a.failed = b.failed ∧ a.pos = b.pos ∧ a.bytes.drop k = b.bytes.drop k ∧
    (a.failed = true ∨ k ≤ a.pos)

/-- The members of a file header hold values of their C++ types (`uint16_t` and
`uint32_t`). -/
def BitmapFileHeader.fits (h : BitmapFileHeader) : Prop :=
  h.bfType < 65536 ∧ h.bfSize < 4294967296 ∧ h.bfReserved1 < 65536 ∧
    h.bfReserved2 < 65536 ∧ h.bfOffBits < 4294967296

instance (h : BitmapFileHeader) : Decidable h.fits := by
  unfold BitmapFileHeader.fits
  infer_instance

/-- The members of an info header hold values of their C++ types; `biBitCount` may be
any 16-bit value. -/
def BitmapInfoHeader.fits (h : BitmapInfoHeader) : Prop :=
  h.biSize < 4294967296 ∧ h.biWidth < 4294967296 ∧ h.biHeight < 4294967296 ∧
    h.biPlanes < 65536 ∧ h.biBitCount < 65536 ∧ h.biCompression < 4294967296 ∧
    h.biSizeImage < 4294967296 ∧ h.biXPelsPerMeter < 4294967296 ∧
    h.biYPelsPerMeter < 4294967296 ∧ h.biClrUsed < 4294967296 ∧
    h.biClrImportant < 4294967296

instance (h : BitmapInfoHeader) : Decidable h.fits := by
  unfold BitmapInfoHeader.fits
  infer_instance

/-! ## Concrete inputs used by the witnesses and counterexamples -/

/-- A 5 x 5 image with 3 channels and a zero buffer of 75 bytes. -/
def img5x5 : BitmapFile :=
  { bmpInfoHeader := { biSize := 40, biWidth := 5, biHeight := 5, biBitCount := 24 }
    bmpFileHeader := { bfOffBits := 54, bfSize := 134 }
    bmpData := List.replicate 75 0
    row_stride := 15 }

/-- The image that `BitmapFile.blank 3 2 true` builds: 3 x 2 pixels, 4 channels. -/
def img3x2 : BitmapFile :=
  { bmpFileHeader := { bfOffBits := 138, bfSize := 162 }
    bmpInfoHeader :=
      { biSize := 124, biWidth := 3, biHeight := 2, biBitCount := 32, biCompression := 3 }
    bmpData := List.replicate 24 0
    row_stride := 12 }

/-- An image of `2^30 + 1` pixels in one row with 4 channels, over the buffer `d`. -/
def wideImage (d : List Nat) : BitmapFile :=
  { bmpFileHeader := { bfOffBits := 138 }
    bmpInfoHeader :=
      { biSize := 124, biWidth := 1073741825, biHeight := 1, biBitCount := 32
        biCompression := 3 }
    bmpData := d
    row_stride := 4 }

/-- A 24-bit file of 2 x 2 pixels: rows of 6 bytes, each followed by 2 padding bytes. -/
def smallStream : List Nat :=
  [0x42, 0x4D, 70, 0, 0, 0, 0, 0, 0, 0, 54, 0, 0, 0,
   40, 0, 0, 0, 2, 0, 0, 0, 2, 0, 0, 0, 1, 0, 24, 0, 0, 0, 0, 0, 16, 0, 0, 0,
   0, 0, 0, 0, 0, 0, 0, 0, 0, 0, 0, 0, 0, 0, 0, 0,
   1, 2, 3, 4, 5, 6, 0, 0, 7, 8, 9, 10, 11, 12, 0, 0]

/-- A 32-bit file of 1 x 1 pixel with `biSize = 124` whose color header (bytes 54..137)
has the alpha mask 0 at bytes 66..69; the pixel data is `[1, 2, 3, 4]`. -/
def maskedStream : List Nat :=
  [0x42, 0x4D, 142, 0, 0, 0, 0, 0, 0, 0, 138, 0, 0, 0,
   124, 0, 0, 0, 1, 0, 0, 0, 1, 0, 0, 0, 1, 0, 32, 0, 3, 0, 0, 0, 4, 0, 0, 0,
   0, 0, 0, 0, 0, 0, 0, 0, 0, 0, 0, 0, 0, 0, 0, 0,
   0, 0, 0xFF, 0, 0, 0xFF, 0, 0, 0xFF, 0, 0, 0, 0, 0, 0, 0, 0x42, 0x47, 0x52, 0x73]
  ++ List.replicate 64 0 ++ [1, 2, 3, 4]

/-- A 24-bit file of 54 bytes whose height field (bytes 22..25) is `0xFFFFFFFF`, that
is -1 as a signed integer; the width is 0, so there is no pixel data. -/
def topDownStream : List Nat :=
  [0x42, 0x4D, 54, 0, 0, 0, 0, 0, 0, 0, 54, 0, 0, 0,
   40, 0, 0, 0, 0, 0, 0, 0, 0xFF, 0xFF, 0xFF, 0xFF, 1, 0, 24, 0, 0, 0, 0, 0, 0, 0, 0, 0,
   0, 0, 0, 0, 0, 0, 0, 0, 0, 0, 0, 0, 0, 0, 0, 0]

/-- The 138 header bytes of a 32-bit file of `2^27` x 1 pixels with the supported color
header: `bfSize = 138 + 2^29`, `bfOffBits = 138`, `biSize = 124`, `biWidth = 2^27`. -/
def wideHeader : List Nat :=
  [0x42, 0x4D, 0x8A, 0, 0, 0x20, 0, 0, 0, 0, 138, 0, 0, 0,
   124, 0, 0, 0, 0, 0, 0, 0x08, 1, 0, 0, 0, 1, 0, 32, 0, 3, 0, 0, 0, 0, 0, 0, 0x20,
   0, 0, 0, 0, 0, 0, 0, 0, 0, 0, 0, 0, 0, 0, 0, 0,
   0, 0, 0xFF, 0, 0, 0xFF, 0, 0, 0xFF, 0, 0, 0, 0, 0, 0, 0xFF, 0x42, 0x47, 0x52, 0x73,
   0, 0, 0, 0, 0, 0, 0, 0, 0, 0, 0, 0, 0, 0, 0, 0,
   0, 0, 0, 0, 0, 0, 0, 0, 0, 0, 0, 0, 0, 0, 0, 0,
   0, 0, 0, 0, 0, 0, 0, 0, 0, 0, 0, 0, 0, 0, 0, 0,
   0, 0, 0, 0, 0, 0, 0, 0, 0, 0, 0, 0, 0, 0, 0, 0]

/-- The whole file of `wideHeader`: the headers and `2^29` bytes of pixel data. -/
def wideStream : List Nat := wideHeader ++ List.replicate 536870912 0

/-- The image that the decoder returns for `smallStream`. -/
def smallImage : BitmapFile :=
  { bmpFileHeader := { bfType := 0x4d42, bfSize := 70, bfOffBits := 54 }
    bmpInfoHeader :=
      { biSize := 40, biWidth := 2, biHeight := 2, biPlanes := 1, biBitCount := 24
        biSizeImage := 16 }
    bmpData := [1, 2, 3, 4, 5, 6, 7, 8, 9, 10, 11, 12]
    row_stride := 6 }

/-- The first 65 bytes of `smallStream`: the file ends after the third byte of the second
row, 5 bytes before the end of the pixel data. -/
def truncatedStream : List Nat := smallStream.take 65

/-- A file that declares 8 bits per pixel (a palette mode) and compression 1 (RLE8):
4 x 1 pixels, one palette entry at bytes 54..57, pixel data `[5, 6, 7, 8]` at byte 58. -/
def paletteStream : List Nat :=
  [0x42, 0x4D, 62, 0, 0, 0, 0, 0, 0, 0, 58, 0, 0, 0,
   40, 0, 0, 0, 4, 0, 0, 0, 1, 0, 0, 0, 1, 0, 8, 0, 1, 0, 0, 0, 4, 0, 0, 0,
   0, 0, 0, 0, 0, 0, 0, 0, 1, 0, 0, 0, 0, 0, 0, 0,
   0, 0, 0, 0, 5, 6, 7, 8]

/-- A 24-bit file of 2 x 1 pixels whose pixel-data offset `bfOffBits` is 0, so that the
pixel row is read from the first 6 bytes of the file; `n` is the low byte of the stored
`bfSize`. -/
def selfStream (n : Nat) : List Nat :=
  [0x42, 0x4D, n, 0, 0, 0, 0, 0, 0, 0, 0, 0, 0, 0,
   40, 0, 0, 0, 2, 0, 0, 0, 1, 0, 0, 0, 1, 0, 24, 0, 0, 0, 0, 0, 8, 0, 0, 0,
   0, 0, 0, 0, 0, 0, 0, 0, 0, 0, 0, 0, 0, 0, 0, 0,
   1, 2, 3, 4, 5, 6, 0, 0]

/-! ## Machine arithmetic and stride alignment -/

/-- A value below `2^32` is not changed by the reduction to `uint32_t`. -/
theorem u32_of_lt {n : Nat} (h : n < 4294967296) : u32 n = n := Nat.mod_eq_of_lt h

theorem u32_lt (n : Nat) : u32 n < 4294967296 := Nat.mod_lt _ (by decide)

theorem u32OfInt_natCast (n : Nat) : u32OfInt (n : Int) = u32 n := by
  unfold u32OfInt u32
  omega

theorem make_stride_aligned_loop_four (fuel rs : Nat) (h : rs + 3 < 4294967296) :
    make_stride_aligned_loop 4 (fuel + 4) rs = some ((rs + 3) / 4 * 4) := by
  simp only [make_stride_aligned_loop, u32]
  split_ifs <;> first | omega | (simp; omega)

/-- For the alignment 4 the loop of `make_stride_aligned` ends with the
smallest multiple of 4 that is at least `rs`, as long as that multiple fits in 32 bits. -/
theorem make_stride_aligned_four (rs : Nat) (h : rs + 3 < 4294967296) :
    make_stride_aligned rs 4 = some ((rs + 3) / 4 * 4) :=
  make_stride_aligned_loop_four 4294967293 rs h

theorem make_stride_aligned_loop_four_some (fuel rs : Nat) :
    ∃ r, make_stride_aligned_loop 4 (fuel + 4) rs = some r := by
  simp only [make_stride_aligned_loop, u32]
  split_ifs <;> first | omega | simp

/-- For the alignment 4 the loop of `make_stride_aligned` always ends. -/
theorem make_stride_aligned_four_some (rs : Nat) : ∃ r, make_stride_aligned rs 4 = some r :=
  make_stride_aligned_loop_four_some 4294967293 rs

/-! ## Raw buffers and the input stream -/

theorem rd8_blit_zero (buf got : List Nat) (i : Nat) (h : i < got.length) :
    rd8 (blit buf 0 got) i = rd8 got i := by
  simp [rd8, blit, List.getElem?_append_left, h]

theorem rd8_take_drop (s : List Nat) (k n i : Nat) (h : i < n) :
    rd8 ((s.drop k).take n) i = rd8 s (k + i) := by
  simp [rd8, List.getElem?_take_of_lt h, List.getElem?_drop]

theorem rd8_blit_read (buf s : List Nat) (k n i : Nat) (hi : i < n) (hs : k + i < s.length) :
    rd8 (blit buf 0 ((s.drop k).take n)) i = rd8 s (k + i) := by
  rw [rd8_blit_zero _ _ _ (by simp; omega), rd8_take_drop _ _ _ _ hi]

theorem rd16_blit_read (buf s : List Nat) (k n i : Nat) (hi : i + 1 < n)
    (hs : k + i + 1 < s.length) :
    rd16 (blit buf 0 ((s.drop k).take n)) i = rd16 s (k + i) := by
  simp only [rd16, rd8_blit_read buf s k n i (by omega) (by omega),
    rd8_blit_read buf s k n (i + 1) (by omega) (by omega), Nat.add_assoc]

theorem rd32_blit_read (buf s : List Nat) (k n i : Nat) (hi : i + 3 < n)
    (hs : k + i + 3 < s.length) :
    rd32 (blit buf 0 ((s.drop k).take n)) i = rd32 s (k + i) := by
  simp only [rd32, rd8_blit_read buf s k n i (by omega) (by omega),
    rd8_blit_read buf s k n (i + 1) (by omega) (by omega),
    rd8_blit_read buf s k n (i + 2) (by omega) (by omega),
    rd8_blit_read buf s k n (i + 3) (by omega) (by omega), Nat.add_assoc]

theorem rd16_magic (s : List Nat) (hlen : 2 ≤ s.length) (hbytes : ∀ b ∈ s, b < 256) :
    rd16 s 0 = BMPT ↔ s.take 2 = [0x42, 0x4D] := by
  match s, hlen with
  | a :: b :: rest, _ =>
    have ha : a < 256 := hbytes a (by simp)
    have hb : b < 256 := hbytes b (by simp)
    simp only [rd16, rd8, BMPT, List.getD_cons_zero, List.getD_cons_succ, List.take_succ_cons,
      List.take_zero, List.cons.injEq, and_true]
    omega

theorem rd16_of_take_two (s : List Nat) (x y : Nat) (h : s.take 2 = [x, y]) :
    rd16 s 0 = x + 256 * y := by
  match s, h with
  | a :: b :: rest, h =>
    simp only [List.take_succ_cons, List.take_zero, List.cons.injEq, and_true] at h
    simp [rd16, rd8, h.1, h.2]

theorem length_blit (buf got : List Nat) (off : Nat) (h : off + got.length ≤ buf.length) :
    (blit buf off got).length = buf.length := by
  simp [blit]; omega

/-- Content of a buffer after `blit`. -/
theorem get_blit (buf got : List Nat) (off j : Nat) (h : off + got.length ≤ buf.length) :
    (blit buf off got)[j]? =
      if off ≤ j ∧ j < off + got.length then got[j - off]? else buf[j]? := by
  unfold blit
  by_cases h1 : j < off
  · rw [if_neg (by omega), List.append_assoc, List.getElem?_append_left (by simp; omega),
      List.getElem?_take_of_lt h1]
  · by_cases h2 : j < off + got.length
    · rw [if_pos (by omega), List.append_assoc,
        List.getElem?_append_right (by simp; omega),
        List.getElem?_append_left (by simp; omega)]
      congr 1
      simp; omega
    · rw [if_neg (by omega), List.getElem?_append_right (by simp; omega), List.getElem?_drop]
      congr 1
      simp; omega

theorem read_start (s : List Nat) (n : Nat) (h : n ≤ s.length) :
    (IStream.read { bytes := s } n) =
      ((s.drop 0).take n, { bytes := s, pos := n, failed := false }) := by
  simp [IStream.read, List.length_take, Nat.min_eq_left h]

theorem read_after_header (s : List Nat) (n : Nat) :
    (IStream.read { bytes := s, pos := 14, failed := false } n).1 = (s.drop 14).take n := by
  simp [IStream.read]

theorem read_ok (s : List Nat) (p n : Nat) (h : p + n ≤ s.length) :
    IStream.read { bytes := s, pos := p, failed := false } n =
      ((s.drop p).take n, { bytes := s, pos := p + n, failed := false }) := by
  have hl : ((s.drop p).take n).length = n := by simp; omega
  simp only [IStream.read, hl]
  simp

theorem get_read (s : List Nat) (p n k : Nat) (hk : k < n) :
    ((s.drop p).take n)[k]? = s[p + k]? := by
  rw [List.getElem?_take_of_lt hk, List.getElem?_drop]

/-- A `read` of `n` bytes that the stream holds, into a range that fits the buffer. -/
theorem readInto_full (s : List Nat) (p n off : Nat) (buf : List Nat)
    (hs : p + n ≤ s.length) (hb : off + n ≤ buf.length) :
    ∃ d1, readInto { bytes := s, pos := p, failed := false } buf off n
        = .ok (d1, { bytes := s, pos := p + n, failed := false }) ∧
      d1.length = buf.length ∧
      ∀ j, d1[j]? = if off ≤ j ∧ j < off + n then s[p + (j - off)]? else buf[j]? := by
  have hl : ((s.drop p).take n).length = n := by simp; omega
  simp only [readInto, read_ok s p n hs, hl]
  by_cases hn : n = 0
  · subst hn
    refine ⟨buf, by simp, rfl, fun j => ?_⟩
    rw [if_neg (by omega)]
  · refine ⟨blit buf off ((s.drop p).take n), by simp [hn, hb], ?_, fun j => ?_⟩
    · exact length_blit _ _ _ (by rw [hl]; exact hb)
    · rw [get_blit _ _ _ _ (by rw [hl]; exact hb), hl]
      by_cases hj : off ≤ j ∧ j < off + n
      · rw [if_pos hj, if_pos hj, get_read _ _ _ _ (by omega)]
      · rw [if_neg hj, if_neg hj]

theorem readInto_error {fin : IStream} {buf : List Nat} {off n : Nat} {e : Error}
    (h : readInto fin buf off n = .error e) : e = .MemoryFault := by
  simp only [readInto] at h
  split_ifs at h
  simpa using h.symm

/-! ## Decoder stages -/

theorem readFileHeader_eq (bmpfh0 s : List Nat) (h : 14 ≤ s.length) :
    readFileHeader bmpfh0 { bytes := s } =
      if rd16 s 0 ≠ BMPT then .error .UnrecognizedFormat
      else .ok (BitmapFileHeader.set (blit bmpfh0 0 ((s.drop 0).take 14)),
        { bytes := s, pos := 14, failed := false }) := by
  have e0 := rd16_blit_read bmpfh0 s 0 14 0 (by omega) (by omega)
  simp only [readFileHeader, BMPFileHeaderSize, read_start s 14 h, BitmapFileHeader.set, e0]

theorem readFileHeader_error {bmpfh0 : List Nat} {fin : IStream} {e : Error}
    (h : readFileHeader bmpfh0 fin = .error e) : e = .UnrecognizedFormat := by
  simp only [readFileHeader] at h
  split_ifs at h
  simpa using h.symm

theorem readInfoHeader_result (ch : BitmapColorHeader) (bmpih0 s : List Nat)
    (hlen : 30 ≤ s.length) :
    readInfoHeader ch bmpih0 { bytes := s, pos := 14, failed := false } =
      if rd16 s 28 = 32 then
        if rd32 s 14 ≥ 124 then
          match ch.check with
          | .error e => .error e
          | .ok _ => .ok (BitmapInfoHeader.set (blit bmpih0 0 ((s.drop 14).take 40)),
              (IStream.read { bytes := s, pos := 14, failed := false } 40).2)
        else .error .UnrecognizedFormat
      else .ok (BitmapInfoHeader.set (blit bmpih0 0 ((s.drop 14).take 40)),
              (IStream.read { bytes := s, pos := 14, failed := false } 40).2) := by
  have e1 := rd16_blit_read bmpih0 s 14 40 14 (by omega) (by omega)
  have e2 := rd32_blit_read bmpih0 s 14 40 0 (by omega) (by omega)
  have e1' : (BitmapInfoHeader.set (blit bmpih0 0 ((s.drop 14).take 40))).biBitCount
      = rd16 s 28 := e1
  have e2' : (BitmapInfoHeader.set (blit bmpih0 0 ((s.drop 14).take 40))).biSize
      = rd32 s 14 := e2
  unfold readInfoHeader
  simp only [BMPInfoHeaderSize, sizeofBitmapColorHeader, read_after_header, e1', e2']

theorem readInfoHeader_default_error {bmpih0 : List Nat} {fin : IStream} {e : Error}
    (h : readInfoHeader {} bmpih0 fin = .error e) : e = .UnrecognizedFormat := by
  have hc : (({} : BitmapColorHeader).check) = .ok () := by decide
  simp only [readInfoHeader, hc] at h
  split_ifs at h
  simpa using h.symm

theorem load_eq (ch : BitmapColorHeader) (bmpfh0 bmpih0 s : List Nat) (hlen : 14 ≤ s.length)
    (hsig : rd16 s 0 = BMPT) :
    BitmapFile.load ch bmpfh0 bmpih0 { bytes := s } =
      match readInfoHeader ch bmpih0 { bytes := s, pos := 14, failed := false } with
      | .error e => .error e
      | .ok (ih, fin2) =>
        readPixels ch (BitmapFileHeader.set (blit bmpfh0 0 ((s.drop 0).take 14))) ih fin2 := by
  simp only [BitmapFile.load, readFileHeader_eq bmpfh0 s hlen, hsig, ne_eq, not_true, if_false]

theorem readRows_error (row_stride pad : Nat) :
    ∀ (n y : Nat) (d : List Nat) (fin : IStream) (e : Error),
      readRows row_stride pad n y d fin = .error e → e = .MemoryFault := by
  intro n
  induction n with
  | zero => intro y d fin e h; simp [readRows] at h
  | succ n ih =>
    intro y d fin e h
    simp only [readRows] at h
    split at h
    · next e1 he =>
      simp only [Except.error.injEq] at h
      subst h
      exact readInto_error he
    · exact ih _ _ _ _ h

theorem readPixels_error {ch : BitmapColorHeader} {fh : BitmapFileHeader}
    {ih : BitmapInfoHeader} {fin : IStream} {e : Error}
    (h : readPixels ch fh ih fin = .error e) : e = .MemoryFault := by
  unfold readPixels at h
  simp only [Nat.not_lt_zero, if_false] at h
  by_cases hw : ih.biWidth % 4 = 0
  · simp only [hw, if_true] at h
    split at h
    · next e1 he =>
      simp only [Except.error.injEq] at h
      subst h
      exact readInto_error he
    · simp at h
  · obtain ⟨r, hr⟩ := make_stride_aligned_four_some (u32 (ih.biWidth * ih.biBitCount) / 8)
    simp only [hw, if_false, hr] at h
    split at h
    · next e1 he =>
      simp only [Except.error.injEq] at h
      subst h
      exact readRows_error _ _ _ _ _ _ _ he
    · simp at h

/-- The only failures of the decoder are a file that cannot be opened, the two
`UnrecognizedFormat` sites and a memory fault. -/
theorem ofFile_error {bmpfh0 bmpih0 : List Nat} {file : Option (List Nat)} {e : Error}
    (h : BitmapFile.ofFile bmpfh0 bmpih0 file = .error e) :
    e = .IoError ∨ e = .UnrecognizedFormat ∨ e = .MemoryFault := by
  cases file with
  | none => left; simpa [BitmapFile.ofFile] using h.symm
  | some s =>
    simp only [BitmapFile.ofFile, BitmapFile.load] at h
    split at h
    · next e1 he =>
      simp only [Except.error.injEq] at h
      subst h
      exact Or.inr (Or.inl (readFileHeader_error he))
    · split at h
      · next e1 he =>
        simp only [Except.error.injEq] at h
        subst h
        exact Or.inr (Or.inl (readInfoHeader_default_error he))
      · exact Or.inr (Or.inr (readPixels_error h))

theorem decoded_fields (bmpfh0 bmpih0 s : List Nat) (hlen : 54 ≤ s.length) :
    (BitmapFileHeader.set (blit bmpfh0 0 ((s.drop 0).take 14))).bfOffBits = rd32 s 10 ∧
    (BitmapInfoHeader.set (blit bmpih0 0 ((s.drop 14).take 40))).biWidth = rd32 s 18 ∧
    (BitmapInfoHeader.set (blit bmpih0 0 ((s.drop 14).take 40))).biHeight = rd32 s 22 ∧
    (BitmapInfoHeader.set (blit bmpih0 0 ((s.drop 14).take 40))).biBitCount = rd16 s 28 :=
  ⟨(rd32_blit_read bmpfh0 s 0 14 10 (by omega) (by omega)).trans (by simp),
    rd32_blit_read bmpih0 s 14 40 4 (by omega) (by omega),
    rd32_blit_read bmpih0 s 14 40 8 (by omega) (by omega),
    rd16_blit_read bmpih0 s 14 40 14 (by omega) (by omega)⟩

theorem ofFile_eq_readPixels (bmpfh0 bmpih0 s : List Nat) (hlen : 54 ≤ s.length)
    (hsig : s.take 2 = [0x42, 0x4D])
    (hbpp : rd16 s 28 ≠ 32 ∨ 124 ≤ rd32 s 14) :
    BitmapFile.ofFile bmpfh0 bmpih0 (some s) =
      readPixels {} (BitmapFileHeader.set (blit bmpfh0 0 ((s.drop 0).take 14)))
        (BitmapInfoHeader.set (blit bmpih0 0 ((s.drop 14).take 40)))
        { bytes := s, pos := 54, failed := false } := by
  have hs : rd16 s 0 = BMPT := by rw [rd16_of_take_two s _ _ hsig]; rfl
  have hc : (({} : BitmapColorHeader).check) = .ok () := by decide
  have hr := read_ok s 14 40 (by omega)
  simp only [BitmapFile.ofFile, load_eq _ _ _ _ (by omega) hs,
    readInfoHeader_result _ _ _ (by omega : 30 ≤ s.length), hc, hr]
  rcases hbpp with h | h
  · simp only [h, if_false]
  · by_cases h32 : rd16 s 28 = 32
    · simp only [h32, if_true, ge_iff_le, h]
    · simp only [h32, if_false]

/-- The row loop, when the stream holds every row and the buffer every
destination: row `yy` of the buffer is the `rs` bytes of the stream at
`off + yy * (rs + pad)`. -/
theorem readRows_spec (rs pad off : Nat) (s : List Nat) :
    ∀ (n y : Nat) (d : List Nat),
      (y + n) * rs ≤ d.length → d.length < 4294967296 → y + n < 4294967296 →
      off + (y + n) * (rs + pad) ≤ s.length →
      ∃ d1 fin1, readRows rs pad n y d { bytes := s, pos := off + y * (rs + pad), failed := false }
          = .ok (d1, fin1) ∧
        d1.length = d.length ∧
        (∀ j, j < y * rs → d1[j]? = d[j]?) ∧
        (∀ yy i, y ≤ yy → yy < y + n → i < rs →
          d1[yy * rs + i]? = s[off + yy * (rs + pad) + i]?) := by
  intro n
  induction n with
  | zero =>
    intro y d _ _ _ _
    exact ⟨d, _, rfl, rfl, fun _ _ => rfl, fun yy i h1 h2 => by omega⟩
  | succ n ih =>
    intro y d hd hsz hy hs
    have a1 : (y + (n + 1)) * rs = y * rs + rs + n * rs := by ring
    have a2 : (y + (n + 1)) * (rs + pad) = y * (rs + pad) + (rs + pad) + n * (rs + pad) := by
      ring
    have a3 : (y + 1) * rs = y * rs + rs := by ring
    have a4 : (y + 1) * (rs + pad) = y * (rs + pad) + (rs + pad) := by ring
    have a5 : rs * y = y * rs := Nat.mul_comm _ _
    have hu : u32 (rs * y) = y * rs := by rw [a5]; exact u32_of_lt (by omega)
    have hy1 : u32 (y + 1) = y + 1 := u32_of_lt (by omega)
    obtain ⟨d1, hd1, hl1, hs1⟩ := readInto_full s (off + y * (rs + pad)) rs (y * rs) d
      (by omega) (by omega)
    have hpad := read_ok s (off + y * (rs + pad) + rs) pad (by omega)
    have hpos : off + y * (rs + pad) + rs + pad = off + (y + 1) * (rs + pad) := by omega
    have e3 : y + 1 + n = y + (n + 1) := by omega
    obtain ⟨d2, fin2, hd2, hl2, hp2, hs2⟩ := ih (y + 1) d1
      (by rw [hl1, e3]; exact hd) (by omega) (by omega) (by rw [e3]; exact hs)
    refine ⟨d2, fin2, ?_, by omega, ?_, ?_⟩
    · simp only [readRows, hu, hd1, hpad, hy1, hpos, hd2]
    · intro j hj
      rw [hp2 j (by omega), hs1 j, if_neg (by omega)]
    · intro yy i h1 h2 h3
      by_cases hyy : yy = y
      · subst hyy
        rw [hp2 _ (by omega), hs1 _, if_pos (by omega)]
        congr 1
        omega
      · exact hs2 yy i (by omega) (by omega) h3

/-- The pixel stage on a stream that holds all rows, when `biWidth * biHeight *
biBitCount` fits in 32 bits. -/
theorem readPixels_spec (ch : BitmapColorHeader) (fh : BitmapFileHeader)
    (ih : BitmapInfoHeader) (s : List Nat) (p : Nat)
    (hbpp : ih.biBitCount = 24 ∨ ih.biBitCount = 32)
    (hH : ih.biHeight < 2147483648)
    (hsz : ih.biWidth * ih.biHeight * ih.biBitCount < 4294967296)
    (hrows : fh.bfOffBits
      + ih.biHeight * ((ih.biWidth * (ih.biBitCount / 8) + 3) / 4 * 4) ≤ s.length) :
    ∃ img, readPixels ch fh ih { bytes := s, pos := p, failed := false } = .ok img ∧
      img.bmpData.length = ih.biWidth * ih.biHeight * (ih.biBitCount / 8) ∧
      ∀ y i, y < ih.biHeight → i < ih.biWidth * (ih.biBitCount / 8) →
        img.bmpData[y * (ih.biWidth * (ih.biBitCount / 8)) + i]? =
          s[fh.bfOffBits + y * ((ih.biWidth * (ih.biBitCount / 8) + 3) / 4 * 4) + i]? := by
  obtain ⟨biSize, W, H, planes, bpp, comp, szimg, xp, yp, cu, ci⟩ := ih
  obtain ⟨bfType, bfSize, r1, r2, off⟩ := fh
  simp only at hbpp hH hsz hrows ⊢
  have hseek : IStream.seekg { bytes := s, pos := p, failed := false } off
      = { bytes := s, pos := off, failed := false } := by
    simp [IStream.seekg]
  obtain ⟨chn, hchn, hb8⟩ : ∃ chn, (chn = 3 ∨ chn = 4) ∧ bpp = 8 * chn := by
    rcases hbpp with rfl | rfl
    · exact ⟨3, Or.inl rfl, rfl⟩
    · exact ⟨4, Or.inr rfl, rfl⟩
  have hc8 : bpp / 8 = chn := by omega
  rw [hc8] at hrows ⊢
  have m1 : W * H * bpp = 8 * (W * H * chn) := by rw [hb8]; ring
  have hsize : u32 (u32 (W * H) * bpp) / 8 = W * H * chn := by
    have g0 : W * H ≤ W * H * bpp := Nat.le_mul_of_pos_right _ (by omega)
    have g1 : u32 (W * H) = W * H := u32_of_lt (by omega)
    have g2 : u32 (8 * (W * H * chn)) = 8 * (W * H * chn) := u32_of_lt (by omega)
    rw [g1, m1, g2]
    omega
  have m2 : H * (W * chn) = W * H * chn := by ring
  have hidx : ∀ y i, y < H → i < W * chn → y * (W * chn) + i < W * H * chn := by
    intro y i hy hi
    have g1 : (y + 1) * (W * chn) ≤ H * (W * chn) := Nat.mul_le_mul_right _ hy
    have g2 : (y + 1) * (W * chn) = y * (W * chn) + W * chn := by ring
    omega
  unfold readPixels
  simp only [Nat.not_lt_zero, if_false, hseek, hsize]
  by_cases hw : W % 4 = 0
  · have hal : (W * chn + 3) / 4 * 4 = W * chn := by
      have : (W * chn) % 4 = 0 := by
        rw [Nat.mul_mod, hw]; simp
      omega
    rw [hal] at hrows ⊢
    obtain ⟨d1, hd1, hl1, hs1⟩ := readInto_full s off (W * H * chn) 0
      (List.replicate (W * H * chn) 0) (by omega) (by simp)
    simp only [hw, if_true, hd1]
    refine ⟨_, rfl, by simpa using hl1, ?_⟩
    intro y i hy hi
    have := hidx y i hy hi
    show d1[y * (W * chn) + i]? = _
    rw [hs1, if_pos (by omega)]
    congr 1
    omega
  · by_cases hH0 : H = 0
    · subst hH0
      obtain ⟨r, hr⟩ := make_stride_aligned_four_some (u32 (W * bpp) / 8)
      simp only [hw, if_false, hr, readRows]
      refine ⟨_, rfl, by simp, ?_⟩
      intro y i hy
      omega
    · have m3 : W ≤ W * H := Nat.le_mul_of_pos_right _ (by omega)
      have m4 : W * bpp = 8 * (W * chn) := by rw [hb8]; ring
      have hrs : u32 (W * bpp) / 8 = W * chn := by
        have g : W * chn ≤ W * H * chn := Nat.mul_le_mul_right _ m3
        have g2 : u32 (8 * (W * chn)) = 8 * (W * chn) := u32_of_lt (by omega)
        rw [m4, g2]
        omega
      have hns := make_stride_aligned_four (W * chn) (by
        have g : W * chn ≤ W * H * chn := Nat.mul_le_mul_right _ m3
        omega)
      have hpad : u32 ((W * chn + 3) / 4 * 4 + 4294967296 - W * chn)
          = (W * chn + 3) / 4 * 4 - W * chn := by
        unfold u32
        have g : W * chn ≤ W * H * chn := Nat.mul_le_mul_right _ m3
        omega
      have hsum : W * chn + ((W * chn + 3) / 4 * 4 - W * chn) = (W * chn + 3) / 4 * 4 := by
        omega
      obtain ⟨d1, fin1, hd1, hl1, _, hs1⟩ := readRows_spec (W * chn)
        ((W * chn + 3) / 4 * 4 - W * chn) off s H 0 (List.replicate (W * H * chn) 0)
        (by simp only [Nat.zero_add, List.length_replicate]; omega)
        (by simp only [List.length_replicate]; omega) (by omega)
        (by simp only [Nat.zero_add, hsum]; exact hrows)
      simp only [Nat.zero_mul, Nat.add_zero] at hd1
      simp only [hw, if_false, hrs, hns, hpad, hd1]
      refine ⟨_, rfl, by simpa using hl1, ?_⟩
      intro y i hy hi
      show d1[y * (W * chn) + i]? = _
      rw [hs1 y i (by omega) (by omega) hi, hsum]

theorem readPixels_contiguous_empty (ch : BitmapColorHeader) (fh : BitmapFileHeader)
    (ih : BitmapInfoHeader) (fin : IStream) (hw : ih.biWidth % 4 = 0)
    (hsize : u32 (u32 (ih.biWidth * ih.biHeight) * ih.biBitCount) / 8 = 0) :
    ∃ img, readPixels ch fh ih fin = .ok img ∧ img.bmpData = [] := by
  have hr : readInto (fin.seekg fh.bfOffBits) [] 0 0 = .ok ([], ((fin.seekg fh.bfOffBits).read 0).2) := by
    unfold readInto
    have : ((fin.seekg fh.bfOffBits).read 0).1.length = 0 := by
      unfold IStream.read
      split_ifs <;> simp
    simp only [this, if_true]
  unfold readPixels
  simp only [Nat.not_lt_zero, if_false, hw, if_true, hsize, List.replicate_zero, hr]
  exact ⟨_, rfl, rfl⟩

theorem wideHeader_fields (t : List Nat) :
    (wideHeader ++ t).take 2 = [0x42, 0x4D] ∧ rd16 (wideHeader ++ t) 28 = 32 ∧
      rd32 (wideHeader ++ t) 14 = 124 ∧ rd32 (wideHeader ++ t) 10 = 138 ∧
      rd32 (wideHeader ++ t) 18 = 134217728 ∧ rd32 (wideHeader ++ t) 22 = 1 ∧
      (wideHeader ++ t).length = 138 + t.length := by
  refine ⟨?_, ?_, ?_, ?_, ?_, ?_, ?_⟩
  · simp [wideHeader]
  · simp [rd16, rd8, wideHeader]
  · simp [rd32, rd8, wideHeader]
  · simp [rd32, rd8, wideHeader]
  · simp [rd32, rd8, wideHeader]
  · simp [rd32, rd8, wideHeader]
  · simp only [List.length_append, wideHeader, List.length_cons, List.length_nil]

theorem ofFile_wideHeader (bmpfh0 bmpih0 t : List Nat) :
    ∃ img, BitmapFile.ofFile bmpfh0 bmpih0 (some (wideHeader ++ t)) = .ok img ∧
      img.bmpData = [] := by
  have hlen : 54 ≤ (wideHeader ++ t).length := by
    simp only [List.length_append, wideHeader, List.length_cons, List.length_nil]; omega
  have hsig : (wideHeader ++ t).take 2 = [0x42, 0x4D] := by simp [wideHeader]
  have h14 : rd32 (wideHeader ++ t) 14 = 124 := by simp [rd32, rd8, wideHeader]
  have h18 : rd32 (wideHeader ++ t) 18 = 134217728 := by simp [rd32, rd8, wideHeader]
  have h22 : rd32 (wideHeader ++ t) 22 = 1 := by simp [rd32, rd8, wideHeader]
  have h28 : rd16 (wideHeader ++ t) 28 = 32 := by simp [rd16, rd8, wideHeader]
  obtain ⟨f1, f2, f3, f4⟩ := decoded_fields bmpfh0 bmpih0 (wideHeader ++ t) hlen
  rw [ofFile_eq_readPixels bmpfh0 bmpih0 _ hlen hsig (Or.inr (by rw [h14]))]
  exact readPixels_contiguous_empty _ _ _ _ (by rw [f2, h18]) (by rw [f2, f3, f4, h18, h22, h28]; decide)

/-! ## Allocator -/

theorem blank_alpha_fields (width height : Int) (img : BitmapFile)
    (h : BitmapFile.blank width height true = .ok img) :
    img.bmpInfoHeader.biWidth = u32OfInt width ∧ img.bmpInfoHeader.biHeight = u32OfInt height ∧
      img.bmpInfoHeader.biBitCount = 32 := by
  by_cases hd : width ≤ 0 ∨ height ≤ 0
  · simp [BitmapFile.blank, hd] at h
  · simp only [BitmapFile.blank, hd, if_false, if_true, Except.ok.injEq] at h
    subst h
    exact ⟨rfl, rfl, rfl⟩

/-! ## Region fill -/

theorem storeByte_ok (d : List Nat) (i v : Nat) (h : i < d.length) :
    storeByte d i v = .ok (d.set i v) := by
  simp [storeByte, h]

theorem storeByte_error {d : List Nat} {i v : Nat} {e : Error}
    (h : storeByte d i v = .error e) : e = .MemoryFault := by
  simp only [storeByte] at h
  split_ifs at h
  simpa using h.symm

theorem fillPixel_error {channels biWidth B G R A y x : Nat} {d : List Nat} {e : Error}
    (h : fillPixel channels biWidth B G R A y x d = .error e) : e = .MemoryFault := by
  simp only [fillPixel] at h
  split at h
  · next e1 he => simp only [Except.error.injEq] at h; subst h; exact storeByte_error he
  · split at h
    · next e1 he => simp only [Except.error.injEq] at h; subst h; exact storeByte_error he
    · split at h
      · next e1 he => simp only [Except.error.injEq] at h; subst h; exact storeByte_error he
      · split_ifs at h
        exact storeByte_error h

theorem fillRow_error (channels biWidth B G R A y : Nat) :
    ∀ (n x : Nat) (d : List Nat) (e : Error),
      fillRow channels biWidth B G R A y n x d = .error e → e = .MemoryFault := by
  intro n
  induction n with
  | zero => intro x d e h; simp [fillRow] at h
  | succ n ih =>
    intro x d e h
    simp only [fillRow] at h
    split at h
    · next e1 he => simp only [Except.error.injEq] at h; subst h; exact fillPixel_error he
    · exact ih _ _ _ h

theorem fillRows_error (channels biWidth B G R A x0 n : Nat) :
    ∀ (m y : Nat) (d : List Nat) (e : Error),
      fillRows channels biWidth B G R A x0 n m y d = .error e → e = .MemoryFault := by
  intro m
  induction m with
  | zero => intro y d e h; simp [fillRows] at h
  | succ m ih =>
    intro y d e h
    simp only [fillRows] at h
    split at h
    · next e1 he =>
      simp only [Except.error.injEq] at h; subst h; exact fillRow_error _ _ _ _ _ _ _ _ _ _ _ he
    · exact ih _ _ _ h

/-- The bounds check of `fillRegion` is on the sums modulo `2^32`, and it is the only
source of `OutOfBounds`. -/
theorem fillRegion_outOfBounds_iff_u32 (img : BitmapFile) (x0 y0 w h B G R A : Nat) :
    img.fillRegion x0 y0 w h B G R A = .error .OutOfBounds ↔
      (u32 (x0 + w) > img.bmpInfoHeader.biWidth ∨ u32 (y0 + h) > img.bmpInfoHeader.biHeight) := by
  constructor
  · intro hf
    by_contra hc
    simp only [BitmapFile.fillRegion, hc, if_false] at hf
    split at hf
    · next e1 he =>
      have := fillRows_error _ _ _ _ _ _ _ _ _ _ _ _ he
      simp only [Except.error.injEq] at hf
      subst hf
      simp at this
    · simp at hf
  · intro hc
    simp only [BitmapFile.fillRegion, hc, if_true]

theorem pixelIndex_eq (channels biWidth y x c : Nat)
    (hch : channels = 3 ∨ channels = 4)
    (h : channels * (y * biWidth + x) + c < 4294967296) :
    pixelIndex channels biWidth y x c = channels * (y * biWidth + x) + c := by
  unfold pixelIndex u32
  rcases hch with rfl | rfl <;> omega

theorem chan_three (B G R A j p : Nat) (h1 : 3 * p ≤ j) (h2 : j < 3 * (p + 1)) :
    [B, G, R, A][j % 3]? =
      if j = 3 * p then some B else if j = 3 * p + 1 then some G else some R := by
  have : j = 3 * p ∨ j = 3 * p + 1 ∨ j = 3 * p + 2 := by omega
  rcases this with rfl | rfl | rfl
  · have : 3 * p % 3 = 0 := by omega
    simp [this]
  · have : (3 * p + 1) % 3 = 1 := by omega
    simp [this]
  · have : (3 * p + 2) % 3 = 2 := by omega
    simp [this]

theorem chan_four (B G R A j p : Nat) (h1 : 4 * p ≤ j) (h2 : j < 4 * (p + 1)) :
    [B, G, R, A][j % 4]? =
      if j = 4 * p then some B else if j = 4 * p + 1 then some G
      else if j = 4 * p + 2 then some R else some A := by
  have : j = 4 * p ∨ j = 4 * p + 1 ∨ j = 4 * p + 2 ∨ j = 4 * p + 3 := by omega
  rcases this with rfl | rfl | rfl | rfl
  · have : 4 * p % 4 = 0 := by omega
    simp [this]
  · have : (4 * p + 1) % 4 = 1 := by omega
    simp [this]
  · have : (4 * p + 2) % 4 = 2 := by omega
    simp [this]
  · have : (4 * p + 3) % 4 = 3 := by omega
    simp [this]

/-- One run of the inner loop body writes the channels of exactly one pixel. -/
theorem fillPixel_spec (channels biWidth B G R A y x : Nat) (d : List Nat)
    (hch : channels = 3 ∨ channels = 4)
    (hlen : channels * (y * biWidth + x + 1) ≤ d.length) (hsz : d.length ≤ 4294967296) :
    ∃ d1, fillPixel channels biWidth B G R A y x d = .ok d1 ∧ d1.length = d.length ∧
      ∀ j, d1[j]? =
        if channels * (y * biWidth + x) ≤ j ∧ j < channels * (y * biWidth + x + 1) then
          [B, G, R, A][j % channels]?
        else d[j]? := by
  rcases hch with rfl | rfl
  · have i0 := pixelIndex_eq 3 biWidth y x 0 (Or.inl rfl) (by omega)
    have i1 := pixelIndex_eq 3 biWidth y x 1 (Or.inl rfl) (by omega)
    have i2 := pixelIndex_eq 3 biWidth y x 2 (Or.inl rfl) (by omega)
    refine ⟨((d.set (3 * (y * biWidth + x)) B).set (3 * (y * biWidth + x) + 1) G).set
      (3 * (y * biWidth + x) + 2) R, ?_, by simp, ?_⟩
    · simp only [fillPixel, i0, i1, i2, Nat.add_zero]
      rw [storeByte_ok _ _ _ (by omega)]
      simp only
      rw [storeByte_ok _ _ _ (by simp; omega)]
      simp only
      rw [storeByte_ok _ _ _ (by simp; omega)]
      simp
    · intro j
      by_cases hj : 3 * (y * biWidth + x) ≤ j ∧ j < 3 * (y * biWidth + x + 1)
      · rw [if_pos hj, chan_three B G R A j _ hj.1 hj.2]
        simp only [List.getElem?_set, List.length_set]
        split_ifs <;> first | rfl | omega
      · rw [if_neg hj]
        simp only [List.getElem?_set, List.length_set]
        split_ifs <;> first | rfl | omega
  · have i0 := pixelIndex_eq 4 biWidth y x 0 (Or.inr rfl) (by omega)
    have i1 := pixelIndex_eq 4 biWidth y x 1 (Or.inr rfl) (by omega)
    have i2 := pixelIndex_eq 4 biWidth y x 2 (Or.inr rfl) (by omega)
    have i3 := pixelIndex_eq 4 biWidth y x 3 (Or.inr rfl) (by omega)
    refine ⟨(((d.set (4 * (y * biWidth + x)) B).set (4 * (y * biWidth + x) + 1) G).set
      (4 * (y * biWidth + x) + 2) R).set (4 * (y * biWidth + x) + 3) A, ?_, by simp, ?_⟩
    · simp only [fillPixel, i0, i1, i2, i3, Nat.add_zero]
      rw [storeByte_ok _ _ _ (by omega)]
      simp only
      rw [storeByte_ok _ _ _ (by simp; omega)]
      simp only
      rw [storeByte_ok _ _ _ (by simp; omega)]
      simp only [if_true]
      rw [storeByte_ok _ _ _ (by simp; omega)]
    · intro j
      by_cases hj : 4 * (y * biWidth + x) ≤ j ∧ j < 4 * (y * biWidth + x + 1)
      · rw [if_pos hj, chan_four B G R A j _ hj.1 hj.2]
        simp only [List.getElem?_set, List.length_set]
        split_ifs <;> first | rfl | omega
      · rw [if_neg hj]
        simp only [List.getElem?_set, List.length_set]
        split_ifs <;> first | rfl | omega

/-- The inner loop writes the pixels `x .. x + n - 1` of row `y`. -/
theorem fillRow_spec (channels biWidth B G R A y : Nat) (hch : channels = 3 ∨ channels = 4) :
    ∀ (n x : Nat) (d : List Nat),
      channels * (y * biWidth + x + n) ≤ d.length → d.length ≤ 4294967296 →
      ∃ d1, fillRow channels biWidth B G R A y n x d = .ok d1 ∧ d1.length = d.length ∧
        ∀ j, d1[j]? =
          if channels * (y * biWidth + x) ≤ j ∧ j < channels * (y * biWidth + x + n) then
            [B, G, R, A][j % channels]?
          else d[j]? := by
  intro n
  induction n with
  | zero =>
    intro x d _ _
    refine ⟨d, rfl, rfl, fun j => ?_⟩
    rw [if_neg]
    rcases hch with rfl | rfl <;> omega
  | succ n ih =>
    intro x d hlen hsz
    obtain ⟨d1, hd1, hl1, hs1⟩ := fillPixel_spec channels biWidth B G R A y x d hch
      (by rcases hch with rfl | rfl <;> omega) hsz
    have hx : u32 (x + 1) = x + 1 := u32_of_lt (by rcases hch with rfl | rfl <;> omega)
    obtain ⟨d2, hd2, hl2, hs2⟩ := ih (x + 1) d1
      (by rw [hl1]; rcases hch with rfl | rfl <;> omega) (by omega)
    refine ⟨d2, ?_, by omega, fun j => ?_⟩
    · simp only [fillRow, hd1, hx, hd2]
    · rw [hs2 j, hs1 j]
      rcases hch with rfl | rfl <;> split_ifs <;> first | rfl | omega

theorem fillRows_zero_cols (channels biWidth B G R A x0 : Nat) :
    ∀ (m y : Nat) (d : List Nat),
      fillRows channels biWidth B G R A x0 0 m y d = .ok d := by
  intro m
  induction m with
  | zero => intro y d; rfl
  | succ m ih => intro y d; simp only [fillRows, fillRow, ih]

/-- The outer loop writes the columns `x0 .. x0 + n - 1` of the rows
`y .. y + m - 1` and nothing else. -/
theorem fillRows_spec (channels biWidth B G R A x0 n : Nat)
    (hch : channels = 3 ∨ channels = 4) (hn : 0 < n) (hW : x0 + n ≤ biWidth) :
    ∀ (m y : Nat) (d : List Nat),
      channels * ((y + m) * biWidth) ≤ d.length → d.length ≤ 4294967296 →
      ∃ d1, fillRows channels biWidth B G R A x0 n m y d = .ok d1 ∧ d1.length = d.length ∧
        ∀ j,
          (∀ yy, y ≤ yy → yy < y + m → channels * (yy * biWidth + x0) ≤ j →
            j < channels * (yy * biWidth + x0 + n) → d1[j]? = [B, G, R, A][j % channels]?) ∧
          ((∀ yy, y ≤ yy → yy < y + m →
              ¬ (channels * (yy * biWidth + x0) ≤ j ∧ j < channels * (yy * biWidth + x0 + n))) →
            d1[j]? = d[j]?) := by
  intro m
  induction m with
  | zero =>
    intro y d _ _
    refine ⟨d, rfl, rfl, fun j => ⟨?_, fun _ => rfl⟩⟩
    intro yy h1 h2
    omega
  | succ m ih =>
    intro y d hlen hsz
    have e1 : (y + (m + 1)) * biWidth = y * biWidth + m * biWidth + biWidth := by ring
    have e2 : y + (m + 1) ≤ (y + (m + 1)) * biWidth :=
      Nat.le_mul_of_pos_right _ (by omega)
    obtain ⟨d1, hd1, hl1, hs1⟩ := fillRow_spec channels biWidth B G R A y hch n x0 d
      (by rcases hch with rfl | rfl <;> omega) hsz
    have hy : u32 (y + 1) = y + 1 := u32_of_lt (by rcases hch with rfl | rfl <;> omega)
    have e3 : y + 1 + m = y + (m + 1) := by omega
    obtain ⟨d2, hd2, hl2, hs2⟩ := ih (y + 1) d1 (by rw [hl1, e3]; exact hlen) (by omega)
    refine ⟨d2, ?_, by omega, fun j => ⟨?_, ?_⟩⟩
    · simp only [fillRows, hd1, hy, hd2]
    · intro yy h1 h2 h3 h4
      by_cases hyy : yy = y
      · subst hyy
        have hout : ∀ y2, yy + 1 ≤ y2 → y2 < yy + 1 + m →
            ¬ (channels * (y2 * biWidth + x0) ≤ j ∧ j < channels * (y2 * biWidth + x0 + n)) := by
          intro y2 g1 _
          have g3 : (yy + 1) * biWidth ≤ y2 * biWidth := Nat.mul_le_mul_right _ g1
          have g4 : (yy + 1) * biWidth = yy * biWidth + biWidth := by ring
          rcases hch with rfl | rfl <;> omega
        rw [(hs2 j).2 hout, hs1 j, if_pos ⟨h3, h4⟩]
      · exact (hs2 j).1 yy (by omega) (by omega) h3 h4
    · intro hout
      rw [(hs2 j).2 (fun y2 g1 g2 => hout y2 (by omega) (by omega)), hs1 j,
        if_neg (hout y (by omega) (by omega))]

theorem fillPixel_alpha (channels biWidth B G R A A2 y x : Nat) (d : List Nat)
    (hch : channels ≠ 4) :
    fillPixel channels biWidth B G R A y x d = fillPixel channels biWidth B G R A2 y x d := by
  simp only [fillPixel, hch, if_false]

theorem fillRow_alpha (channels biWidth B G R A A2 y : Nat) (hch : channels ≠ 4) :
    ∀ (n x : Nat) (d : List Nat),
      fillRow channels biWidth B G R A y n x d = fillRow channels biWidth B G R A2 y n x d := by
  intro n
  induction n with
  | zero => intro x d; rfl
  | succ n ih =>
    intro x d
    simp only [fillRow, fillPixel_alpha channels biWidth B G R A A2 y x d hch, ih]

theorem fillRows_alpha (channels biWidth B G R A A2 x0 n : Nat) (hch : channels ≠ 4) :
    ∀ (m y : Nat) (d : List Nat),
      fillRows channels biWidth B G R A x0 n m y d
        = fillRows channels biWidth B G R A2 x0 n m y d := by
  intro m
  induction m with
  | zero => intro y d; rfl
  | succ m ih =>
    intro y d
    simp only [fillRows, fillRow_alpha channels biWidth B G R A A2 y hch n x0 d, ih]

/-- Reference behaviour of `fillRegion` on an image whose buffer has the length
`biWidth * biHeight * channels`, at most `2^32`. -/
theorem fillRegion_correct (img : BitmapFile) (x0 y0 w h B G R A : Nat)
    (hbpp : img.bmpInfoHeader.biBitCount = 24 ∨ img.bmpInfoHeader.biBitCount = 32)
    (hW : img.bmpInfoHeader.biWidth < 4294967296)
    (hH : img.bmpInfoHeader.biHeight < 4294967296)
    (hlen : img.bmpData.length =
      img.bmpInfoHeader.biWidth * img.bmpInfoHeader.biHeight * (img.bmpInfoHeader.biBitCount / 8))
    (hsz : img.bmpInfoHeader.biWidth * img.bmpInfoHeader.biHeight
      * (img.bmpInfoHeader.biBitCount / 8) ≤ 4294967296)
    (hx : x0 + w ≤ img.bmpInfoHeader.biWidth) (hy : y0 + h ≤ img.bmpInfoHeader.biHeight) :
    ∃ img2, img.fillRegion x0 y0 w h B G R A = .ok img2 ∧
      img2.bmpFileHeader = img.bmpFileHeader ∧ img2.bmpInfoHeader = img.bmpInfoHeader ∧
      img2.bmpColorHeader = img.bmpColorHeader ∧
      img2.bmpData.length = img.bmpData.length ∧
      (∀ x y c, x < img.bmpInfoHeader.biWidth → y < img.bmpInfoHeader.biHeight →
        c < img.bmpInfoHeader.biBitCount / 8 →
        img2.bmpData[img.bmpInfoHeader.biBitCount / 8 * (y * img.bmpInfoHeader.biWidth + x) + c]?
          = if x0 ≤ x ∧ x < x0 + w ∧ y0 ≤ y ∧ y < y0 + h then [B, G, R, A][c]?
            else img.bmpData[img.bmpInfoHeader.biBitCount / 8
              * (y * img.bmpInfoHeader.biWidth + x) + c]?) ∧
      (img.bmpInfoHeader.biBitCount = 24 → ∀ A2,
        img.fillRegion x0 y0 w h B G R A2 = img.fillRegion x0 y0 w h B G R A) := by
  obtain ⟨fh, ih, chdr, d, rs⟩ := img
  obtain ⟨biSize, W, H, planes, bpp, comp, szimg, xp, yp, cu, ci⟩ := ih
  simp only at hbpp hW hH hlen hsz hx hy ⊢
  have hch : bpp / 8 = 3 ∨ bpp / 8 = 4 := by rcases hbpp with rfl | rfl <;> simp
  generalize hc : bpp / 8 = ch at hch hlen hsz ⊢
  have hxw : u32 (x0 + w) = x0 + w := u32_of_lt (by omega)
  have hyh : u32 (y0 + h) = y0 + h := u32_of_lt (by omega)
  have hnb : ¬ (x0 + w > W ∨ y0 + h > H) := by omega
  have hn : x0 + w - x0 = w := by omega
  have hm : y0 + h - y0 = h := by omega
  have halpha : bpp = 24 → ∀ A2,
      BitmapFile.fillRegion ⟨fh, ⟨biSize, W, H, planes, bpp, comp, szimg, xp, yp, cu, ci⟩,
          chdr, d, rs⟩ x0 y0 w h B G R A2 =
        BitmapFile.fillRegion ⟨fh, ⟨biSize, W, H, planes, bpp, comp, szimg, xp, yp, cu, ci⟩,
          chdr, d, rs⟩ x0 y0 w h B G R A := by
    intro h24 A2
    have hne : bpp / 8 ≠ 4 := by subst h24; decide
    simp only [BitmapFile.fillRegion, fillRows_alpha (bpp / 8) W B G R A2 A x0 _ hne]
  simp only [BitmapFile.fillRegion, hxw, hyh, hnb, if_false, hn, hm, hc]
  by_cases hw0 : w = 0
  · subst hw0
    simp only [fillRows_zero_cols]
    refine ⟨_, rfl, rfl, rfl, rfl, rfl, ?_, ?_⟩
    · intro x y c _ _ _
      rw [if_neg (by omega)]
    · intro h24 A2
      have := halpha h24 A2
      simp only [BitmapFile.fillRegion, hxw, hyh, hnb, if_false, hn, hm, hc,
        fillRows_zero_cols] at this
      simp only [fillRows_zero_cols]
  · have e1 : (y0 + h) * W ≤ H * W := Nat.mul_le_mul_right _ hy
    have e2 : W * H * ch = ch * (H * W) := by ring
    obtain ⟨d1, hd1, hl1, hs1⟩ := fillRows_spec ch W B G R A x0 w hch (by omega) hx h y0 d
      (by rw [hlen, e2]; exact Nat.mul_le_mul_left _ e1) (by omega)
    simp only [hd1]
    refine ⟨_, rfl, rfl, rfl, rfl, hl1, ?_, ?_⟩
    · intro x y c hxW hyH hcc
      have hj : (ch * (y * W + x) + c) % ch = c := by
        rw [Nat.mul_add_mod]; exact Nat.mod_eq_of_lt hcc
      by_cases hin : x0 ≤ x ∧ x < x0 + w ∧ y0 ≤ y ∧ y < y0 + h
      · rw [if_pos hin, (hs1 _).1 y hin.2.2.1 hin.2.2.2
          (by rcases hch with rfl | rfl <;> omega) (by rcases hch with rfl | rfl <;> omega), hj]
      · rw [if_neg hin]
        apply (hs1 _).2
        intro yy g1 g2
        rcases Nat.lt_trichotomy yy y with hlt | heq | hgt
        · have g3 : (yy + 1) * W ≤ y * W := Nat.mul_le_mul_right _ hlt
          have g4 : (yy + 1) * W = yy * W + W := by ring
          rcases hch with rfl | rfl <;> omega
        · subst heq
          rcases hch with rfl | rfl <;> omega
        · have g3 : (y + 1) * W ≤ yy * W := Nat.mul_le_mul_right _ hgt
          have g4 : (y + 1) * W = y * W + W := by ring
          rcases hch with rfl | rfl <;> omega
    · intro h24 A2
      have := halpha h24 A2
      simp only [BitmapFile.fillRegion, hxw, hyh, hnb, if_false, hn, hm, hc, hd1] at this
      exact this

theorem fresh_fill (img img2 : BitmapFile) (x0 y0 w h B G R A : Nat)
    (hx : x0 + w ≤ img.bmpInfoHeader.biWidth) (hy : y0 + h ≤ img.bmpInfoHeader.biHeight)
    (hfill : ∀ x y c, x < img.bmpInfoHeader.biWidth → y < img.bmpInfoHeader.biHeight →
        c < img.bmpInfoHeader.biBitCount / 8 →
        img2.bmpData[img.bmpInfoHeader.biBitCount / 8 * (y * img.bmpInfoHeader.biWidth + x) + c]?
          = if x0 ≤ x ∧ x < x0 + w ∧ y0 ≤ y ∧ y < y0 + h then [B, G, R, A][c]?
            else img.bmpData[img.bmpInfoHeader.biBitCount / 8
              * (y * img.bmpInfoHeader.biWidth + x) + c]?) :
    ∀ wd ht : Nat, BitmapFile.blank (wd : Int) (ht : Int) true = .ok img →
      x0 = 0 → y0 = 0 → w = wd → h = ht →
      ∀ x y c, x < wd → y < ht → c < 4 →
        img2.bmpData[4 * (y * wd + x) + c]? = [B, G, R, A][c]? := by
  intro wd ht hb hx0 hy0 hw hh x y c hxw hyh hc
  obtain ⟨f1, f2, f3⟩ := blank_alpha_fields _ _ _ hb
  rw [u32OfInt_natCast] at f1 f2
  subst hx0 hy0 hw hh
  have e1 : img.bmpInfoHeader.biWidth = w := by
    rw [f1] at hx ⊢; unfold u32 at hx ⊢; omega
  have e2 : img.bmpInfoHeader.biHeight = h := by
    rw [f2] at hy ⊢; unfold u32 at hy ⊢; omega
  have := hfill x y c (by omega) (by omega) (by rw [f3]; exact hc)
  rw [f3, e1, if_pos (by omega)] at this
  exact this

theorem fillRows_wrapped (d : List Nat) (hd : 4 ≤ d.length) :
    fillRows 4 1073741825 1 2 3 4 1073741824 1 1 0 d
      = .ok ((((d.set 0 1).set 1 2).set 2 3).set 3 4) := by
  have i0 : pixelIndex 4 1073741825 0 1073741824 0 = 0 := by decide
  have i1 : pixelIndex 4 1073741825 0 1073741824 1 = 1 := by decide
  have i2 : pixelIndex 4 1073741825 0 1073741824 2 = 2 := by decide
  have i3 : pixelIndex 4 1073741825 0 1073741824 3 = 3 := by decide
  simp only [fillRows, fillRow, fillPixel, i0, i1, i2, i3]
  rw [storeByte_ok _ _ _ (by omega)]
  simp only
  rw [storeByte_ok _ _ _ (by simp; omega)]
  simp only
  rw [storeByte_ok _ _ _ (by simp; omega)]
  simp only [if_true]
  rw [storeByte_ok _ _ _ (by simp; omega)]

theorem fillRegion_wrapped (d : List Nat) (hd : 4 ≤ d.length) :
    (wideImage d).fillRegion 1073741824 0 1 1 1 2 3 4
      = .ok (wideImage ((((d.set 0 1).set 1 2).set 2 3).set 3 4)) := by
  have hc : ¬ (u32 (1073741824 + 1) > 1073741825 ∨ u32 (0 + 1) > 1) := by decide
  have hn : u32 (1073741824 + 1) - 1073741824 = 1 := by decide
  have hm : u32 (0 + 1) - 0 = 1 := by decide
  have h8 : 32 / 8 = 4 := by decide
  simp only [BitmapFile.fillRegion, wideImage, hc, if_false, hn, hm, h8, fillRows_wrapped d hd]

/-! ## Stride alignment for every alignment -/

theorem make_stride_aligned_loop_reach (a : Nat) :
    ∀ (d ns fuel : Nat), (ns + d) % a = 0 → (∀ j, j < d → (ns + j) % a ≠ 0) →
      ns + d < 4294967296 → d < fuel →
      make_stride_aligned_loop a fuel ns = some (ns + d) := by
  intro d
  induction d with
  | zero =>
    intro ns fuel h0 _ _ hf
    obtain ⟨f, rfl⟩ : ∃ f, fuel = f + 1 := ⟨fuel - 1, by omega⟩
    simp only [make_stride_aligned_loop, Nat.add_zero] at h0 ⊢
    simp [h0]
  | succ d ih =>
    intro ns fuel h0 hne hlt hf
    obtain ⟨f, rfl⟩ : ∃ f, fuel = f + 1 := ⟨fuel - 1, by omega⟩
    have h1 : ns % a ≠ 0 := by simpa using hne 0 (by omega)
    have h2 : u32 (ns + 1) = ns + 1 := u32_of_lt (by omega)
    simp only [make_stride_aligned_loop, h1, ne_eq, not_false_eq_true, if_true, h2]
    rw [ih (ns + 1) f (by rw [← h0]; congr 1; omega)
      (fun j hj => by have := hne (j + 1) (by omega); rwa [show ns + 1 + j = ns + (j + 1) by omega])
      (by omega) (by omega)]
    congr 1
    omega

theorem make_stride_aligned_loop_wrap (a : Nat) :
    ∀ (k ns fuel : Nat), ns + k = 4294967296 → 0 < k →
      (∀ j, j < k → (ns + j) % a ≠ 0) → k < fuel →
      make_stride_aligned_loop a fuel ns = some 0 := by
  intro k
  induction k with
  | zero => intro ns fuel _ hk; omega
  | succ k ih =>
    intro ns fuel hsum _ hne hf
    obtain ⟨f, rfl⟩ : ∃ f, fuel = f + 1 := ⟨fuel - 1, by omega⟩
    have h1 : ns % a ≠ 0 := by simpa using hne 0 (by omega)
    simp only [make_stride_aligned_loop, h1, ne_eq, not_false_eq_true, if_true]
    by_cases hk : k = 0
    · subst hk
      have h2 : u32 (ns + 1) = 0 := by unfold u32; omega
      obtain ⟨g, rfl⟩ : ∃ g, f = g + 1 := ⟨f - 1, by omega⟩
      simp [h2, make_stride_aligned_loop]
    · have h2 : u32 (ns + 1) = ns + 1 := u32_of_lt (by omega)
      rw [h2]
      exact ih (ns + 1) f (by omega) (by omega)
        (fun j hj => by have := hne (j + 1) (by omega); rwa [show ns + 1 + j = ns + (j + 1) by omega])
        (by omega)

/-- Distance from `rs` to the next multiple of `a`. -/
theorem next_multiple (a rs : Nat) (ha : 1 ≤ a) :
    (rs + (a - rs % a) % a) % a = 0 ∧ (a - rs % a) % a < a ∧
      ∀ j, j < (a - rs % a) % a → (rs + j) % a ≠ 0 := by
  have hq : rs % a < a := Nat.mod_lt _ (by omega)
  by_cases h0 : rs % a = 0
  · simp [h0]
    omega
  · have hd : (a - rs % a) % a = a - rs % a := Nat.mod_eq_of_lt (by omega)
    rw [hd]
    refine ⟨?_, by omega, ?_⟩
    · have e : rs + (a - rs % a) = a * (rs / a) + a := by
        have := Nat.div_add_mod rs a
        omega
      rw [e]
      simp
    · intro j hj
      have e : rs + j = a * (rs / a) + (rs % a + j) := by
        have := Nat.div_add_mod rs a
        omega
      rw [e, Nat.mul_add_mod, Nat.mod_eq_of_lt (by omega)]
      omega

/-! ## Header codec: encoded bytes and round trips -/

theorem fileHeader_get_eq (h : BitmapFileHeader) (rawData0 : List Nat)
    (hlen : rawData0.length = 14) :
    h.get rawData0 =
      [h.bfType % 256, h.bfType / 256 % 256,
       h.bfSize % 256, h.bfSize / 256 % 256, h.bfSize / 65536 % 256, h.bfSize / 16777216 % 256,
       h.bfReserved1 % 256, h.bfReserved1 / 256 % 256,
       h.bfReserved2 % 256, h.bfReserved2 / 256 % 256,
       h.bfOffBits % 256, h.bfOffBits / 256 % 256, h.bfOffBits / 65536 % 256,
       h.bfOffBits / 16777216 % 256] := by
  iterate 14 (rcases rawData0 with _ | ⟨_, rawData0⟩; (exact absurd hlen (by simp)))
  rcases rawData0 with _ | ⟨_, rawData0⟩
  · simp [BitmapFileHeader.get, wr16, wr32, List.set]
  · simp at hlen

theorem fileHeader_set_get (h : BitmapFileHeader) (rawData0 : List Nat)
    (hlen : rawData0.length = 14)
    (h1 : h.bfType < 65536) (h2 : h.bfSize < 4294967296) (h3 : h.bfReserved1 < 65536)
    (h4 : h.bfReserved2 < 65536) (h5 : h.bfOffBits < 4294967296) :
    BitmapFileHeader.set (h.get rawData0) = h := by
  rw [fileHeader_get_eq h rawData0 hlen]
  obtain ⟨a, b, c, d, e⟩ := h
  simp only [BitmapFileHeader.set, rd16, rd32, rd8, List.getD_cons_zero, List.getD_cons_succ,
    BitmapFileHeader.mk.injEq] at *
  refine ⟨?_, ?_, ?_, ?_, ?_⟩ <;> omega

theorem fileHeader_get_set (b rawData0 : List Nat) (hb : b.length = 14)
    (hbytes : ∀ x ∈ b, x < 256) (hlen : rawData0.length = 14) :
    (BitmapFileHeader.set b).get rawData0 = b := by
  rw [fileHeader_get_eq _ rawData0 hlen]
  iterate 14 (rcases b with _ | ⟨_, b⟩; (exact absurd hb (by simp)))
  rcases b with _ | ⟨_, b⟩
  · simp only [List.mem_cons, List.mem_singleton, forall_eq_or_imp, forall_eq,
      List.not_mem_nil, false_implies, implies_true, and_true] at hbytes
    simp only [BitmapFileHeader.set, rd16, rd32, rd8, List.getD_cons_zero, List.getD_cons_succ,
      List.cons.injEq, and_true]
    refine ⟨?_, ?_, ?_, ?_, ?_, ?_, ?_, ?_, ?_, ?_, ?_, ?_, ?_, ?_⟩ <;> omega
  · simp at hb

theorem infoHeader_get_eq (h : BitmapInfoHeader) (rawData0 : List Nat)
    (hlen : rawData0.length = 40) :
    h.get rawData0 =
      [h.biSize % 256, h.biSize / 256 % 256,
       h.biSize / 65536 % 256, h.biSize / 16777216 % 256,
       h.biWidth % 256, h.biWidth / 256 % 256,
       h.biWidth / 65536 % 256, h.biWidth / 16777216 % 256,
       h.biHeight % 256, h.biHeight / 256 % 256,
       h.biHeight / 65536 % 256, h.biHeight / 16777216 % 256,
       h.biPlanes % 256, h.biPlanes / 256 % 256,
       h.biBitCount % 256, h.biBitCount / 256 % 256,
       h.biCompression % 256, h.biCompression / 256 % 256,
       h.biCompression / 65536 % 256, h.biCompression / 16777216 % 256,
       h.biSizeImage % 256, h.biSizeImage / 256 % 256,
       h.biSizeImage / 65536 % 256, h.biSizeImage / 16777216 % 256,
       h.biXPelsPerMeter % 256, h.biXPelsPerMeter / 256 % 256,
       h.biXPelsPerMeter / 65536 % 256, h.biXPelsPerMeter / 16777216 % 256,
       h.biYPelsPerMeter % 256, h.biYPelsPerMeter / 256 % 256,
       h.biYPelsPerMeter / 65536 % 256, h.biYPelsPerMeter / 16777216 % 256,
       h.biClrUsed % 256, h.biClrUsed / 256 % 256,
       h.biClrUsed / 65536 % 256, h.biClrUsed / 16777216 % 256,
       h.biClrImportant % 256, h.biClrImportant / 256 % 256,
       h.biClrImportant / 65536 % 256, h.biClrImportant / 16777216 % 256] := by
  have hl : (h.get rawData0).length = 40 := by
    simp only [BitmapInfoHeader.get, wr16, wr32, List.length_set, hlen]
  apply List.ext_getElem?
  intro i
  by_cases hi : i < 40
  · interval_cases i <;>
      simp [BitmapInfoHeader.get, wr16, wr32, List.getElem?_set, hlen]
  · rw [List.getElem?_eq_none (by omega), List.getElem?_eq_none (by simp; omega)]

theorem infoHeader_set_get (h : BitmapInfoHeader) (rawData0 : List Nat)
    (hlen : rawData0.length = 40)
    (h1 : h.biSize < 4294967296) (h2 : h.biWidth < 4294967296) (h3 : h.biHeight < 4294967296)
    (h4 : h.biPlanes < 65536) (h5 : h.biBitCount < 65536)
    (h6 : h.biCompression < 4294967296) (h7 : h.biSizeImage < 4294967296)
    (h8 : h.biXPelsPerMeter < 4294967296) (h9 : h.biYPelsPerMeter < 4294967296)
    (h10 : h.biClrUsed < 4294967296) (h11 : h.biClrImportant < 4294967296) :
    BitmapInfoHeader.set (h.get rawData0) = h := by
  rw [infoHeader_get_eq h rawData0 hlen]
  obtain ⟨a1, a2, a3, a4, a5, a6, a7, a8, a9, a10, a11⟩ := h
  simp only [BitmapInfoHeader.set, rd16, rd32, rd8, List.getD_cons_zero, List.getD_cons_succ,
    BitmapInfoHeader.mk.injEq] at *
  refine ⟨?_, ?_, ?_, ?_, ?_, ?_, ?_, ?_, ?_, ?_, ?_⟩ <;> omega

theorem infoHeader_get_set (b rawData0 : List Nat) (hb : b.length = 40)
    (hbytes : ∀ x ∈ b, x < 256) (hlen : rawData0.length = 40) :
    (BitmapInfoHeader.set b).get rawData0 = b := by
  rw [infoHeader_get_eq _ rawData0 hlen]
  iterate 40 (rcases b with _ | ⟨_, b⟩; (exact absurd hb (by simp)))
  rcases b with _ | ⟨_, b⟩
  · simp only [List.mem_cons, List.mem_singleton, forall_eq_or_imp, forall_eq,
      List.not_mem_nil, false_implies, implies_true, and_true] at hbytes
    simp only [BitmapInfoHeader.set, rd16, rd32, rd8, List.getD_cons_zero, List.getD_cons_succ,
      List.cons.injEq, and_true]
    refine ⟨?_, ?_, ?_, ?_, ?_, ?_, ?_, ?_, ?_, ?_,
      ?_, ?_, ?_, ?_, ?_, ?_, ?_, ?_, ?_, ?_,
      ?_, ?_, ?_, ?_, ?_, ?_, ?_, ?_, ?_, ?_,
      ?_, ?_, ?_, ?_, ?_, ?_, ?_, ?_, ?_, ?_⟩ <;> omega
  · simp only [List.length_cons] at hb
    omega

/-! ## Streams that end early -/

theorem read_failed (fin : IStream) (n : Nat) (hf : fin.failed = true) :
    fin.read n = ([], fin) := by
  simp [IStream.read, hf]

theorem read_live (fin : IStream) (n : Nat) (hf : fin.failed = false) :
    (fin.read n).1 = (fin.bytes.drop fin.pos).take n ∧
    (fin.read n).1.length = min n (fin.bytes.length - fin.pos) ∧
    (fin.read n).2.bytes = fin.bytes ∧
    (fin.read n).2.pos = fin.pos + min n (fin.bytes.length - fin.pos) ∧
    ((fin.read n).2.failed = true ↔ fin.bytes.length - fin.pos < n) := by
  simp only [IStream.read, hf, Bool.false_eq_true, if_false, List.length_take, List.length_drop,
    decide_eq_true_eq, true_and]
  omega

theorem get_some_getD (s : List Nat) (i : Nat) (h : i < s.length) :
    s[i]? = some (s.getD i 0) := by
  simp [List.getD_eq_getElem?_getD, List.getElem?_eq_getElem h]

theorem getD_beyond (s : List Nat) (i : Nat) (h : s.length ≤ i) : s.getD i 0 = 0 := by
  simp [List.getD_eq_getElem?_getD, List.getElem?_eq_none h]

/-- A `read` into a range that fits the buffer never faults, whatever the state of the
stream: the bytes that were extracted are stored, the rest of the buffer is kept. -/
theorem readInto_gen (fin : IStream) (d : List Nat) (off n : Nat)
    (hb : off + n ≤ d.length) :
    ∃ d1, readInto fin d off n = .ok (d1, (fin.read n).2) ∧ d1.length = d.length ∧
      ∀ j, d1[j]? =
        if off ≤ j ∧ j < off + (fin.read n).1.length then (fin.read n).1[j - off]? else d[j]? := by
  have hle : (fin.read n).1.length ≤ n := by
    cases hf : fin.failed
    · rw [(read_live fin n hf).2.1]; omega
    · rw [read_failed fin n hf]; simp
  by_cases h0 : (fin.read n).1.length = 0
  · refine ⟨d, by simp [readInto, h0], rfl, fun j => ?_⟩
    rw [if_neg (by omega)]
  · refine ⟨blit d off (fin.read n).1, ?_, length_blit _ _ _ (by omega), fun j => ?_⟩
    · simp only [readInto, h0, if_false]
      rw [if_pos (by omega)]
    · exact get_blit _ _ _ _ (by omega)

/-- One iteration of the row loop on any stream.  `P` is the position the row starts at
in the file; the stream is either live at `P` or has failed with the file ending at or
before `P`. -/
theorem readRow_gen (rs pad P : Nat) (s : List Nat) (fin : IStream) (d : List Nat) (o : Nat)
    (hs : fin.bytes = s)
    (hlive : fin.failed = false → fin.pos = P)
    (hdead : fin.failed = true → s.length ≤ P)
    (hb : o + rs ≤ d.length)
    (hz : ∀ j, o ≤ j → j < d.length → d[j]? = some 0) :
    ∃ d1, readInto fin d o rs = .ok (d1, (fin.read rs).2) ∧ d1.length = d.length ∧
      (∀ j, j < o → d1[j]? = d[j]?) ∧
      (∀ j, o + rs ≤ j → d1[j]? = d[j]?) ∧
      (∀ i, i < rs → d1[o + i]? = some (s.getD (P + i) 0)) ∧
      (((fin.read rs).2.read pad).2.bytes = s) ∧
      (((fin.read rs).2.read pad).2.failed = false →
        ((fin.read rs).2.read pad).2.pos = P + (rs + pad)) ∧
      (((fin.read rs).2.read pad).2.failed = true → s.length ≤ P + (rs + pad)) := by
  obtain ⟨d1, hd1, hl1, hs1⟩ := readInto_gen fin d o rs hb
  refine ⟨d1, hd1, hl1, fun j hj => by rw [hs1 j, if_neg (by omega)], ?_, ?_, ?_⟩
  · intro j hj
    rw [hs1 j, if_neg]
    intro hc
    have hle : (fin.read rs).1.length ≤ rs := by
      cases hf : fin.failed
      · rw [(read_live fin rs hf).2.1]; omega
      · rw [read_failed fin rs hf]; simp
    omega
  · intro i hi
    rw [hs1 (o + i)]
    cases hf : fin.failed
    · obtain ⟨g1, g2, _, _, _⟩ := read_live fin rs hf
      have hp := hlive hf
      rw [hs, hp] at g1 g2
      by_cases hi2 : i < (fin.read rs).1.length
      · rw [if_pos (by omega), g1, show o + i - o = i by omega, get_read _ _ _ _ hi,
          get_some_getD _ _ (by omega)]
      · rw [if_neg (by omega), hz _ (by omega) (by omega), getD_beyond _ _ (by omega)]
    · rw [read_failed fin rs hf]
      have := hdead hf
      rw [if_neg (by simp), hz _ (by omega) (by omega), getD_beyond _ _ (by omega)]
  · cases hf : fin.failed
    · obtain ⟨_, _, g3, g4, g5⟩ := read_live fin rs hf
      have hp := hlive hf
      rw [hs, hp] at g4 g5
      rw [hs] at g3
      cases hf1 : (fin.read rs).2.failed
      · obtain ⟨_, _, k3, k4, k5⟩ := read_live (fin.read rs).2 pad hf1
        rw [g3, g4] at k4 k5
        rw [g3] at k3
        have hnot : ¬ (s.length - P < rs) := by
          intro hc
          rw [g5.mpr hc] at hf1
          exact absurd hf1 (by simp)
        refine ⟨k3, ?_, ?_⟩
        · intro hf2
          have hnot2 : ¬ (s.length - (P + min rs (s.length - P)) < pad) := by
            intro hc
            rw [k5.mpr hc] at hf2
            exact absurd hf2 (by simp)
          rw [k4]
          omega
        · intro hf2
          have := k5.mp hf2
          omega
      · rw [read_failed _ pad hf1]
        refine ⟨g3, fun hc => by rw [hf1] at hc; exact absurd hc (by simp), fun _ => ?_⟩
        have := g5.mp hf1
        omega
    · rw [read_failed fin rs hf, read_failed fin pad hf]
      refine ⟨hs, fun hc => by rw [hf] at hc; exact absurd hc (by simp), fun _ => ?_⟩
      have := hdead hf
      omega

/-- The row loop on any stream, also a truncated one: it never faults when the rows fit
the buffer, and over a zero buffer row `yy` becomes the file bytes at
`off + yy * (rs + pad)`, with 0 where the file has no byte. -/
theorem readRows_gen (rs pad off : Nat) (s : List Nat) :
    ∀ (n y : Nat) (d : List Nat) (fin : IStream),
      fin.bytes = s →
      (fin.failed = false → fin.pos = off + y * (rs + pad)) →
      (fin.failed = true → s.length ≤ off + y * (rs + pad)) →
      (y + n) * rs ≤ d.length → d.length < 4294967296 → y + n < 4294967296 →
      (∀ j, y * rs ≤ j → j < d.length → d[j]? = some 0) →
      ∃ d1 fin1, readRows rs pad n y d fin = .ok (d1, fin1) ∧ d1.length = d.length ∧
        (∀ j, j < y * rs → d1[j]? = d[j]?) ∧
        (∀ yy i, y ≤ yy → yy < y + n → i < rs →
          d1[yy * rs + i]? = some (s.getD (off + yy * (rs + pad) + i) 0)) := by
  intro n
  induction n with
  | zero =>
    intro y d fin _ _ _ _ _ _ _
    exact ⟨d, fin, rfl, rfl, fun _ _ => rfl, fun yy i h1 h2 => by omega⟩
  | succ n ih =>
    intro y d fin hs hlive hdead hd hsz hy hz
    have a1 : (y + (n + 1)) * rs = y * rs + rs + n * rs := by ring
    have a3 : (y + 1) * rs = y * rs + rs := by ring
    have a4 : (y + 1) * (rs + pad) = y * (rs + pad) + (rs + pad) := by ring
    have a5 : rs * y = y * rs := Nat.mul_comm _ _
    have hu : u32 (rs * y) = y * rs := by rw [a5]; exact u32_of_lt (by omega)
    have hy1 : u32 (y + 1) = y + 1 := u32_of_lt (by omega)
    obtain ⟨d1, hd1, hl1, hlo, hhi, hrow, k1, k2, k3⟩ :=
      readRow_gen rs pad (off + y * (rs + pad)) s fin d (y * rs) hs hlive hdead (by omega) hz
    have e3 : y + 1 + n = y + (n + 1) := by omega
    obtain ⟨d2, fin2, hd2, hl2, hp2, hs2⟩ := ih (y + 1) d1 ((fin.read rs).2.read pad).2 k1
      (fun hf => by rw [k2 hf, a4]; omega) (fun hf => by have := k3 hf; rw [a4]; omega)
      (by rw [hl1, e3]; exact hd) (by omega) (by omega)
      (fun j h1 h2 => by rw [hhi j (by omega)]; exact hz j (by omega) (by omega))
    refine ⟨d2, fin2, ?_, by omega, ?_, ?_⟩
    · simp only [readRows, hu, hd1, hy1, hd2]
    · intro j hj
      rw [hp2 j (by omega), hlo j hj]
    · intro yy i h1 h2 h3
      by_cases hyy : yy = y
      · subst hyy
        rw [hp2 _ (by omega), hrow i h3]
      · exact hs2 yy i (by omega) (by omega) h3

/-- Arithmetic of the two 24- and 32-bit modes when `W * H * bpp` fits in 32 bits. -/
theorem no_overflow_sizes (W H bpp chn : Nat) (hchn : chn = 3 ∨ chn = 4) (hb8 : bpp = 8 * chn)
    (hsz : W * H * bpp < 4294967296) :
    u32 (u32 (W * H) * bpp) / 8 = W * H * chn ∧ W * H * chn < 536870912 ∧
      (0 < H → u32 (W * bpp) / 8 = W * chn ∧ W * chn ≤ W * H * chn) := by
  have m1 : W * H * bpp = 8 * (W * H * chn) := by rw [hb8]; ring
  have g0 : W * H ≤ W * H * bpp := Nat.le_mul_of_pos_right _ (by omega)
  have g1 : u32 (W * H) = W * H := u32_of_lt (by omega)
  have g2 : u32 (8 * (W * H * chn)) = 8 * (W * H * chn) := u32_of_lt (by omega)
  refine ⟨by rw [g1, m1, g2]; omega, by omega, fun hH => ?_⟩
  have m3 : W ≤ W * H := Nat.le_mul_of_pos_right _ hH
  have m4 : W * bpp = 8 * (W * chn) := by rw [hb8]; ring
  have g : W * chn ≤ W * H * chn := Nat.mul_le_mul_right _ m3
  have g3 : u32 (8 * (W * chn)) = 8 * (W * chn) := u32_of_lt (by omega)
  exact ⟨by rw [m4, g3]; omega, g⟩

theorem replicate_zero_get (n j : Nat) (h : j < (List.replicate n 0).length) :
    (List.replicate n 0)[j]? = some 0 := by
  rw [List.length_replicate] at h
  rw [List.getElem?_replicate, if_pos h]

/-- The pixel stage on any stream that has not failed, when `W * H * bpp` fits in 32 bits:
it succeeds, the derived header fields have their normalised values, the buffer has
`W * H * channels` bytes, and byte `y * row_stride + i` is the file byte at
`bfOffBits + y * aligned_stride + i`, or 0 when the file ends before. -/
theorem readPixels_gen (ch : BitmapColorHeader) (fh : BitmapFileHeader)
    (ih : BitmapInfoHeader) (s : List Nat) (p : Nat)
    (hbpp : ih.biBitCount = 24 ∨ ih.biBitCount = 32)
    (hsz : ih.biWidth * ih.biHeight * ih.biBitCount < 4294967296) :
    ∃ img, readPixels ch fh ih { bytes := s, pos := p, failed := false } = .ok img ∧
      img.bmpFileHeader.bfSize = (if ih.biBitCount = 32 then 138 else 54)
        + ih.biHeight * ((ih.biWidth * (ih.biBitCount / 8) + 3) / 4 * 4) ∧
      img.bmpData.length = ih.biWidth * ih.biHeight * (ih.biBitCount / 8) ∧
      ∀ y i, y < ih.biHeight → i < ih.biWidth * (ih.biBitCount / 8) →
        img.bmpData[y * (ih.biWidth * (ih.biBitCount / 8)) + i]? =
          some (s.getD (fh.bfOffBits
            + y * ((ih.biWidth * (ih.biBitCount / 8) + 3) / 4 * 4) + i) 0) := by
  obtain ⟨biSize, W, H, planes, bpp, comp, szimg, xp, yp, cu, ci⟩ := ih
  obtain ⟨bfType, bfSize, r1, r2, off⟩ := fh
  simp only at hbpp hsz ⊢
  have hseek : IStream.seekg { bytes := s, pos := p, failed := false } off
      = { bytes := s, pos := off, failed := false } := by
    simp [IStream.seekg]
  obtain ⟨chn, hchn, hb8⟩ : ∃ chn, (chn = 3 ∨ chn = 4) ∧ bpp = 8 * chn := by
    rcases hbpp with rfl | rfl
    · exact ⟨3, Or.inl rfl, rfl⟩
    · exact ⟨4, Or.inr rfl, rfl⟩
  have hc8 : bpp / 8 = chn := by omega
  rw [hc8]
  obtain ⟨hsize, hsmall, hrow⟩ := no_overflow_sizes W H bpp chn hchn hb8 hsz
  have m2 : H * (W * chn) = W * H * chn := by ring
  have hoffv : (if bpp = 32 then BMPFileHeaderSize + BMPInfoHeaderSize + sizeofBitmapColorHeader
      else BMPFileHeaderSize + BMPInfoHeaderSize) = if bpp = 32 then 138 else 54 := by
    split_ifs <;> rfl
  have hofflt : (if bpp = 32 then 138 else 54) ≤ 138 := by split_ifs <;> omega
  have hidx : ∀ y i, y < H → i < W * chn → y * (W * chn) + i < W * H * chn := by
    intro y i hy hi
    have g1 : (y + 1) * (W * chn) ≤ H * (W * chn) := Nat.mul_le_mul_right _ hy
    have g2 : (y + 1) * (W * chn) = y * (W * chn) + W * chn := by ring
    omega
  unfold readPixels
  simp only [Nat.not_lt_zero, if_false, hseek, hsize, hoffv]
  by_cases hw : W % 4 = 0
  · have hal : (W * chn + 3) / 4 * 4 = W * chn := by
      have : (W * chn) % 4 = 0 := by
        rw [Nat.mul_mod, hw]; simp
      omega
    rw [hal]
    obtain ⟨d1, hd1, hl1, hs1⟩ := readInto_gen { bytes := s, pos := off, failed := false }
      (List.replicate (W * H * chn) 0) 0 (W * H * chn) (by simp)
    simp only [hw, if_true, hd1]
    refine ⟨_, rfl, ?_, by simpa using hl1, ?_⟩
    · show u32 ((if bpp = 32 then 138 else 54) + W * H * chn) = _
      rw [u32_of_lt (by omega), m2]
    · intro y i hy hi
      have hj := hidx y i hy hi
      show d1[y * (W * chn) + i]? = _
      obtain ⟨g1, g2, _, _, _⟩ := read_live { bytes := s, pos := off, failed := false }
        (W * H * chn) rfl
      simp only at g1 g2
      rw [hs1]
      by_cases hin : y * (W * chn) + i < min (W * H * chn) (s.length - off)
      · rw [if_pos (by rw [g2]; omega), g1, Nat.sub_zero, get_read _ _ _ _ hj,
          get_some_getD _ _ (by omega)]
        congr 2
        omega
      · rw [if_neg (by rw [g2]; omega), replicate_zero_get _ _ (by simp; omega),
          getD_beyond _ _ (by omega)]
  · by_cases hH0 : H = 0
    · subst hH0
      obtain ⟨r, hr⟩ := make_stride_aligned_four_some (u32 (W * bpp) / 8)
      simp only [hw, if_false, hr, readRows]
      refine ⟨_, rfl, ?_, by simp, ?_⟩
      · show u32 ((if bpp = 32 then 138 else 54) + W * 0 * chn + 0 * _) = _
        rw [u32_of_lt (by omega)]
        omega
      · intro y i hy
        omega
    · obtain ⟨hrs, hrsle⟩ := hrow (by omega)
      have hns := make_stride_aligned_four (W * chn) (by omega)
      have hpad : u32 ((W * chn + 3) / 4 * 4 + 4294967296 - W * chn)
          = (W * chn + 3) / 4 * 4 - W * chn := by
        unfold u32
        omega
      have hsum : W * chn + ((W * chn + 3) / 4 * 4 - W * chn) = (W * chn + 3) / 4 * 4 := by
        omega
      have hHle : H ≤ W * H * chn := by
        have : 1 ≤ W * chn := by
          have : 0 < W := by omega
          rcases hchn with rfl | rfl <;> omega
        calc H = H * 1 := by omega
          _ ≤ H * (W * chn) := Nat.mul_le_mul_left _ this
          _ = W * H * chn := m2
      obtain ⟨d1, fin1, hd1, hl1, _, hs1⟩ := readRows_gen (W * chn)
        ((W * chn + 3) / 4 * 4 - W * chn) off s H 0 (List.replicate (W * H * chn) 0)
        { bytes := s, pos := off, failed := false } rfl (fun _ => by simp)
        (fun hc => by simp at hc)
        (by simp only [Nat.zero_add, List.length_replicate]; omega)
        (by simp only [List.length_replicate]; omega) (by omega)
        (fun j _ hj => replicate_zero_get _ _ hj)
      simp only [hw, if_false, hrs, hns, hpad, hd1]
      refine ⟨_, rfl, ?_, by simpa using hl1, ?_⟩
      · show u32 ((if bpp = 32 then 138 else 54) + W * H * chn
          + H * ((W * chn + 3) / 4 * 4 - W * chn)) = _
        have e1 : H * ((W * chn + 3) / 4 * 4) = W * H * chn
            + H * ((W * chn + 3) / 4 * 4 - W * chn) := by
          rw [← m2, ← Nat.mul_add, hsum]
        have e2 : H * ((W * chn + 3) / 4 * 4 - W * chn) ≤ H * 3 :=
          Nat.mul_le_mul_left _ (by omega)
        rw [u32_of_lt (by omega), e1]
        omega
      · intro y i hy hi
        show d1[y * (W * chn) + i]? = _
        rw [hs1 y i (by omega) (by omega) hi, hsum]

/-- Two buffers of `H` rows of `rs` bytes that agree on every byte of every row are
equal. -/
theorem buffer_ext (a b : List Nat) (rs H : Nat) (ha : a.length = H * rs)
    (hb : b.length = H * rs)
    (h : ∀ y i, y < H → i < rs → a[y * rs + i]? = b[y * rs + i]?) : a = b := by
  apply List.ext_getElem?
  intro j
  by_cases hj : j < H * rs
  · have hrs : 0 < rs := by
      rcases Nat.eq_zero_or_pos rs with h0 | h0
      · rw [h0] at hj; omega
      · exact h0
    have e : j / rs * rs + j % rs = j := Nat.div_add_mod' j rs
    have := h (j / rs) (j % rs) ((Nat.div_lt_iff_lt_mul hrs).mpr hj) (Nat.mod_lt _ hrs)
    rwa [e] at this
  · rw [List.getElem?_eq_none (by omega), List.getElem?_eq_none (by omega)]

/-- Header fields of every image that the pixel stage returns, on any stream. -/
theorem readPixels_headers (ch : BitmapColorHeader) (fh : BitmapFileHeader)
    (ih : BitmapInfoHeader) (fin : IStream) (img : BitmapFile)
    (h : readPixels ch fh ih fin = .ok img) :
    img.bmpInfoHeader = { ih with biSize := if ih.biBitCount = 32 then 124 else 40 } ∧
    img.bmpColorHeader = ch ∧
    img.bmpFileHeader.bfType = fh.bfType ∧
    img.bmpFileHeader.bfReserved1 = fh.bfReserved1 ∧
    img.bmpFileHeader.bfReserved2 = fh.bfReserved2 ∧
    img.bmpFileHeader.bfOffBits = (if ih.biBitCount = 32 then 138 else 54) ∧
    ∃ padding, img.bmpFileHeader.bfSize =
        u32 ((if ih.biBitCount = 32 then 138 else 54)
          + u32 (u32 (ih.biWidth * ih.biHeight) * ih.biBitCount) / 8
          + ih.biHeight * padding) ∧
      (ih.biWidth % 4 = 0 → padding = 0) ∧
      (ih.biWidth % 4 ≠ 0 → ∃ ns, make_stride_aligned (u32 (ih.biWidth * ih.biBitCount) / 8) 4
          = some ns ∧
        padding = u32 (ns + 4294967296 - u32 (ih.biWidth * ih.biBitCount) / 8)) := by
  have hoffv : (if ih.biBitCount = 32 then
      BMPFileHeaderSize + BMPInfoHeaderSize + sizeofBitmapColorHeader
      else BMPFileHeaderSize + BMPInfoHeaderSize) = if ih.biBitCount = 32 then 138 else 54 := by
    split_ifs <;> rfl
  have hszv : (if ih.biBitCount = 32 then BMPInfoHeaderSize + sizeofBitmapColorHeader
      else BMPInfoHeaderSize) = if ih.biBitCount = 32 then 124 else 40 := by
    split_ifs <;> rfl
  unfold readPixels at h
  simp only [Nat.not_lt_zero, if_false, hoffv, hszv] at h
  by_cases hw : ih.biWidth % 4 = 0
  · simp only [hw, if_true] at h
    split at h
    · simp at h
    · simp only [Except.ok.injEq] at h
      subst h
      exact ⟨rfl, rfl, rfl, rfl, rfl, rfl, 0, by simp, fun _ => rfl, fun hc => absurd hw hc⟩
  · obtain ⟨r, hr⟩ := make_stride_aligned_four_some (u32 (ih.biWidth * ih.biBitCount) / 8)
    simp only [hw, if_false, hr] at h
    split at h
    · simp at h
    · simp only [Except.ok.injEq] at h
      subst h
      exact ⟨rfl, rfl, rfl, rfl, rfl, rfl, _, rfl, fun hc => absurd hc hw,
        fun _ => ⟨r, hr, rfl⟩⟩

/-- Every image that the decoder returns is the result of the pixel stage on the decoded
headers. -/
theorem ofFile_ok_readPixels (bmpfh0 bmpih0 : List Nat) (file : Option (List Nat))
    (img : BitmapFile) (h : BitmapFile.ofFile bmpfh0 bmpih0 file = .ok img) :
    ∃ fh ih fin, readPixels {} fh ih fin = .ok img := by
  cases file with
  | none => simp [BitmapFile.ofFile] at h
  | some s =>
    simp only [BitmapFile.ofFile, BitmapFile.load] at h
    split at h
    · simp at h
    · split at h
      · simp at h
      · exact ⟨_, _, _, h⟩

/-- The `bfSize` of every image that the pixel stage returns, when `W * H * bpp` fits in
32 bits: it does not depend on the stream. -/
theorem readPixels_bfSize (ch : BitmapColorHeader) (fh : BitmapFileHeader)
    (ih : BitmapInfoHeader) (fin : IStream) (img : BitmapFile)
    (hbpp : ih.biBitCount = 24 ∨ ih.biBitCount = 32)
    (hsz : ih.biWidth * ih.biHeight * ih.biBitCount < 4294967296)
    (h : readPixels ch fh ih fin = .ok img) :
    img.bmpFileHeader.bfSize = (if ih.biBitCount = 32 then 138 else 54)
      + ih.biHeight * ((ih.biWidth * (ih.biBitCount / 8) + 3) / 4 * 4) := by
  obtain ⟨img2, h2, hsize2, _, _⟩ := readPixels_gen ch fh ih [] 0 hbpp hsz
  obtain ⟨_, _, _, _, _, _, pad, hp1, hp2, hp3⟩ := readPixels_headers ch fh ih fin img h
  obtain ⟨_, _, _, _, _, _, pad2, hq1, hq2, hq3⟩ := readPixels_headers ch fh ih _ img2 h2
  have : pad = pad2 := by
    by_cases hw : ih.biWidth % 4 = 0
    · rw [hp2 hw, hq2 hw]
    · obtain ⟨ns, e1, e2⟩ := hp3 hw
      obtain ⟨ns2, e3, e4⟩ := hq3 hw
      rw [e1] at e3
      simp only [Option.some.injEq] at e3
      rw [e2, e4, e3]
  rw [hp1, this, ← hq1, hsize2]

/-- The pixel stage on any stream that has not failed, for every bits-per-pixel value
from 1 up, when `W * H * bpp` fits in 32 bits: it succeeds and the buffer has
`W * H * bpp / 8` bytes. -/
theorem readPixels_total (ch : BitmapColorHeader) (fh : BitmapFileHeader)
    (ih : BitmapInfoHeader) (s : List Nat) (p : Nat) (hbpp : 1 ≤ ih.biBitCount)
    (hsz : ih.biWidth * ih.biHeight * ih.biBitCount < 4294967296) :
    ∃ img, readPixels ch fh ih { bytes := s, pos := p, failed := false } = .ok img ∧
      img.bmpData.length = ih.biWidth * ih.biHeight * ih.biBitCount / 8 := by
  obtain ⟨biSize, W, H, planes, bpp, comp, szimg, xp, yp, cu, ci⟩ := ih
  obtain ⟨bfType, bfSize, r1, r2, off⟩ := fh
  simp only at hbpp hsz ⊢
  have hseek : IStream.seekg { bytes := s, pos := p, failed := false } off
      = { bytes := s, pos := off, failed := false } := by
    simp [IStream.seekg]
  have g0 : W * H ≤ W * H * bpp := Nat.le_mul_of_pos_right _ (by omega)
  have hsize : u32 (u32 (W * H) * bpp) / 8 = W * H * bpp / 8 := by
    rw [u32_of_lt (by omega : W * H < 4294967296), u32_of_lt hsz]
  unfold readPixels
  simp only [Nat.not_lt_zero, if_false, hseek, hsize]
  by_cases hw : W % 4 = 0
  · obtain ⟨d1, hd1, hl1, _⟩ := readInto_gen { bytes := s, pos := off, failed := false }
      (List.replicate (W * H * bpp / 8) 0) 0 (W * H * bpp / 8) (by simp)
    simp only [hw, if_true, hd1]
    exact ⟨_, rfl, by simpa using hl1⟩
  · obtain ⟨r, hr⟩ := make_stride_aligned_four_some (u32 (W * bpp) / 8)
    by_cases hH0 : H = 0
    · subst hH0
      simp only [hw, if_false, hr, readRows]
      exact ⟨_, rfl, by simp⟩
    · have hW : 0 < W := by omega
      have m3 : W * bpp ≤ W * H * bpp := by
        have : W ≤ W * H := Nat.le_mul_of_pos_right _ (by omega)
        exact Nat.mul_le_mul_right _ this
      have hrs : u32 (W * bpp) / 8 = W * bpp / 8 := by rw [u32_of_lt (by omega)]
      rw [hrs] at hr
      have hrows : H * (W * bpp / 8) ≤ W * H * bpp / 8 := by
        rw [Nat.le_div_iff_mul_le (by omega)]
        have e : W * H * bpp = H * (W * bpp) := by ring
        have : W * bpp / 8 * 8 ≤ W * bpp := Nat.div_mul_le_self _ _
        calc H * (W * bpp / 8) * 8 = H * (W * bpp / 8 * 8) := by ring
          _ ≤ H * (W * bpp) := Nat.mul_le_mul_left _ this
          _ = W * H * bpp := e.symm
      have hHle : H ≤ W * H * bpp := by
        have : 1 ≤ W * bpp := Nat.mul_pos hW hbpp
        calc H = H * 1 := by omega
          _ ≤ H * (W * bpp) := Nat.mul_le_mul_left _ this
          _ = W * H * bpp := by ring
      obtain ⟨d1, fin1, hd1, hl1, _, _⟩ := readRows_gen (W * bpp / 8)
        (u32 (r + 4294967296 - W * bpp / 8)) off s H 0 (List.replicate (W * H * bpp / 8) 0)
        { bytes := s, pos := off, failed := false } rfl (fun _ => by simp)
        (fun hc => by simp at hc)
        (by simp only [Nat.zero_add, List.length_replicate]; exact hrows)
        (by simp only [List.length_replicate]; omega) (by omega)
        (fun j _ hj => replicate_zero_get _ _ hj)
      simp only [hw, if_false, hrs, hr, hd1]
      exact ⟨_, rfl, by simpa using hl1⟩

/-- The reference pixel stage on any stream that has not failed, when the buffer size
`W * H * channels` fits in 32 bits. -/
theorem readPixelsRowByRow_gen (ch : BitmapColorHeader) (fh : BitmapFileHeader)
    (ih : BitmapInfoHeader) (s : List Nat) (p : Nat)
    (hH : ih.biHeight < 4294967296)
    (hsz : ih.biWidth * ih.biHeight * (ih.biBitCount / 8) < 4294967296) :
    ∃ img, readPixelsRowByRow ch fh ih { bytes := s, pos := p, failed := false } = .ok img ∧
      img.bmpFileHeader.bfSize = (if ih.biBitCount = 32 then 138 else 54)
        + ih.biHeight * ((ih.biWidth * (ih.biBitCount / 8) + 3) / 4 * 4) ∧
      img.bmpData.length = ih.biWidth * ih.biHeight * (ih.biBitCount / 8) ∧
      ∀ y i, y < ih.biHeight → i < ih.biWidth * (ih.biBitCount / 8) →
        img.bmpData[y * (ih.biWidth * (ih.biBitCount / 8)) + i]? =
          some (s.getD (fh.bfOffBits
            + y * ((ih.biWidth * (ih.biBitCount / 8) + 3) / 4 * 4) + i) 0) := by
  obtain ⟨biSize, W, H, planes, bpp, comp, szimg, xp, yp, cu, ci⟩ := ih
  obtain ⟨bfType, bfSize, r1, r2, off⟩ := fh
  simp only at hH hsz ⊢
  have hseek : IStream.seekg { bytes := s, pos := p, failed := false } off
      = { bytes := s, pos := off, failed := false } := by
    simp [IStream.seekg]
  generalize hc8 : bpp / 8 = chn at hsz ⊢
  have m2 : H * (W * chn) = W * H * chn := by ring
  have hoffv : (if bpp = 32 then BMPFileHeaderSize + BMPInfoHeaderSize + sizeofBitmapColorHeader
      else BMPFileHeaderSize + BMPInfoHeaderSize) = if bpp = 32 then 138 else 54 := by
    split_ifs <;> rfl
  have hsum : W * chn + ((W * chn + 3) / 4 * 4 - W * chn) = (W * chn + 3) / 4 * 4 := by
    omega
  obtain ⟨d1, fin1, hd1, hl1, _, hs1⟩ := readRows_gen (W * chn)
    ((W * chn + 3) / 4 * 4 - W * chn) off s H 0 (List.replicate (W * H * chn) 0)
    { bytes := s, pos := off, failed := false } rfl (fun _ => by simp)
    (fun hc => by simp at hc)
    (by simp only [Nat.zero_add, List.length_replicate]; omega)
    (by simp only [List.length_replicate]; omega) (by omega)
    (fun j _ hj => replicate_zero_get _ _ hj)
  unfold readPixelsRowByRow
  simp only [hseek, hc8, hoffv, hd1]
  refine ⟨_, rfl, rfl, by simpa using hl1, ?_⟩
  intro y i hy hi
  show d1[y * (W * chn) + i]? = _
  rw [hs1 y i (by omega) (by omega) hi, hsum]

/-! ## Streams that coincide from a byte on -/

theorem drop_agree (k p : Nat) (s1 s2 : List Nat) (hd : s1.drop k = s2.drop k) (hk : k ≤ p) :
    s1.drop p = s2.drop p := by
  have e : p = k + (p - k) := by omega
  rw [e, ← List.drop_drop, ← List.drop_drop, hd]

theorem get_agree (k j : Nat) (s1 s2 : List Nat) (hd : s1.drop k = s2.drop k) (hk : k ≤ j) :
    s1[j]? = s2[j]? := by
  have e : j = k + (j - k) := by omega
  rw [e, ← List.getElem?_drop, ← List.getElem?_drop, hd]

/-- A `read` on two agreeing streams extracts the same bytes and leaves agreeing
streams. -/
theorem read_agree (k n : Nat) (a b : IStream) (h : a.agreeFrom k b) :
    (a.read n).1 = (b.read n).1 ∧ (a.read n).2.agreeFrom k (b.read n).2 := by
  obtain ⟨hf, hp, hd, hk⟩ := h
  obtain ⟨s1, p1, f1⟩ := a
  obtain ⟨s2, p2, f2⟩ := b
  simp only at hf hp hd hk
  subst hf hp
  cases f1 with
  | true =>
    refine ⟨rfl, ?_⟩
    unfold IStream.agreeFrom
    exact ⟨rfl, rfl, hd, Or.inl rfl⟩
  | false =>
    have hk2 : k ≤ p1 := by simpa using hk
    have hdrop := drop_agree k p1 s1 s2 hd hk2
    simp only [IStream.read, IStream.agreeFrom, Bool.false_eq_true, if_false, hdrop]
    refine ⟨trivial, trivial, trivial, hd, ?_⟩
    by_cases hlt : (List.take n (List.drop p1 s2)).length < n
    · left; simpa using hlt
    · right; show k ≤ p1 + _; omega

/-- A `read` that ends past byte `k`, on two streams of the same length that coincide
from byte `k` on. -/
theorem read_agree_across (k n : Nat) (a b : IStream) (hf : a.failed = b.failed)
    (hp : a.pos = b.pos) (hl : a.bytes.length = b.bytes.length)
    (hd : a.bytes.drop k = b.bytes.drop k) (hk : a.failed = true ∨ k ≤ a.pos + n) :
    (a.read n).1.length = (b.read n).1.length ∧
    (∀ i, k ≤ a.pos + i → (a.read n).1[i]? = (b.read n).1[i]?) ∧
    (a.read n).2.agreeFrom k (b.read n).2 := by
  obtain ⟨s1, p1, f1⟩ := a
  obtain ⟨s2, p2, f2⟩ := b
  simp only at hf hp hd hk hl
  subst hf hp
  cases f1 with
  | true =>
    refine ⟨rfl, fun _ _ => rfl, ?_⟩
    unfold IStream.agreeFrom
    exact ⟨rfl, rfl, hd, Or.inl rfl⟩
  | false =>
    have hk2 : k ≤ p1 + n := by simpa using hk
    have hlen : (List.take n (List.drop p1 s1)).length = (List.take n (List.drop p1 s2)).length := by
      simp only [List.length_take, List.length_drop, hl]
    simp only [IStream.read, IStream.agreeFrom, Bool.false_eq_true, if_false]
    refine ⟨hlen, ?_, ?_, ?_, hd, ?_⟩
    · intro i hi
      by_cases hin : i < n
      · rw [List.getElem?_take_of_lt hin, List.getElem?_take_of_lt hin, List.getElem?_drop,
          List.getElem?_drop]
        exact get_agree k _ s1 s2 hd hi
      · rw [List.getElem?_eq_none (by simp; omega), List.getElem?_eq_none (by simp; omega)]
    · show decide _ = decide _
      rw [hlen]
    · show p1 + _ = p1 + _
      rw [hlen]
    · by_cases hlt : (List.take n (List.drop p1 s1)).length < n
      · left; simpa using hlt
      · right; show k ≤ p1 + _; omega

theorem readInto_agree (k off n : Nat) (buf : List Nat) (a b : IStream)
    (h : a.agreeFrom k b) :
    (readInto a buf off n = .error .MemoryFault ∧ readInto b buf off n = .error .MemoryFault) ∨
    ∃ d a1 b1, readInto a buf off n = .ok (d, a1) ∧ readInto b buf off n = .ok (d, b1) ∧
      a1.agreeFrom k b1 := by
  obtain ⟨h1, h2⟩ := read_agree k n a b h
  unfold readInto
  simp only [← h1]
  by_cases hz : (a.read n).1.length = 0
  · right
    exact ⟨buf, (a.read n).2, (b.read n).2, by simp only [hz, if_true],
      by simp only [hz, if_true], h2⟩
  · by_cases hfit : off + (a.read n).1.length ≤ buf.length
    · right
      exact ⟨blit buf off (a.read n).1, (a.read n).2, (b.read n).2,
        by simp only [hz, if_false, hfit, if_true],
        by simp only [hz, if_false, hfit, if_true], h2⟩
    · left
      exact ⟨by simp only [hz, if_false, hfit], by simp only [hz, if_false, hfit]⟩

theorem readRows_agree (k rs pad : Nat) :
    ∀ (n y : Nat) (d : List Nat) (a b : IStream), a.agreeFrom k b →
      (∃ e, readRows rs pad n y d a = .error e ∧ readRows rs pad n y d b = .error e) ∨
      ∃ d1 a1 b1, readRows rs pad n y d a = .ok (d1, a1) ∧
        readRows rs pad n y d b = .ok (d1, b1) := by
  intro n
  induction n with
  | zero => intro y d a b _; exact Or.inr ⟨d, a, b, rfl, rfl⟩
  | succ n ih =>
    intro y d a b h
    rcases readInto_agree k (u32 (rs * y)) rs d a b h with ⟨e1, e2⟩ | ⟨d1, a1, b1, e1, e2, h1⟩
    · left
      exact ⟨.MemoryFault, by simp only [readRows, e1], by simp only [readRows, e2]⟩
    · have h2 := (read_agree k pad a1 b1 h1).2
      rcases ih (u32 (y + 1)) d1 _ _ h2 with ⟨e, g1, g2⟩ | ⟨d2, a2, b2, g1, g2⟩
      · left
        exact ⟨e, by simp only [readRows, e1, g1], by simp only [readRows, e2, g2]⟩
      · right
        exact ⟨d2, a2, b2, by simp only [readRows, e1, g1], by simp only [readRows, e2, g2]⟩

/-- The pixel stage gives the same result on two streams that coincide from byte `k` on
when the pixel data starts at or after byte `k`; the incoming `bfSize` and `biSize` have
no influence. -/
theorem readPixels_agree (k : Nat) (ch : BitmapColorHeader) (fh : BitmapFileHeader)
    (ih : BitmapInfoHeader) (x z : Nat) (a b : IStream) (hf : a.failed = b.failed)
    (hp : a.pos = b.pos) (hd : a.bytes.drop k = b.bytes.drop k)
    (hk : a.failed = true ∨ k ≤ fh.bfOffBits) :
    readPixels ch fh ih a = readPixels ch { fh with bfSize := x } { ih with biSize := z } b := by
  obtain ⟨biSize, W, H, planes, bpp, comp, szimg, xp, yp, cu, ci⟩ := ih
  obtain ⟨bfType, bfSize, r1, r2, off⟩ := fh
  simp only at hk
  have hseek : (a.seekg off).agreeFrom k (b.seekg off) := by
    obtain ⟨s1, p1, f1⟩ := a
    obtain ⟨s2, p2, f2⟩ := b
    simp only at hf hp hd hk
    subst hf hp
    cases f1 with
    | true => exact ⟨rfl, rfl, hd, Or.inl rfl⟩
    | false => exact ⟨rfl, rfl, hd, Or.inr (by simpa using hk)⟩
  unfold readPixels
  simp only [Nat.not_lt_zero, if_false]
  by_cases hw : W % 4 = 0
  · simp only [hw, if_true]
    rcases readInto_agree k 0 (u32 (u32 (W * H) * bpp) / 8) (List.replicate
      (u32 (u32 (W * H) * bpp) / 8) 0) _ _ hseek
      with ⟨e1, e2⟩ | ⟨d1, a1, b1, e1, e2, _⟩
    · simp only [e1, e2]
    · simp only [e1, e2]
  · obtain ⟨r, hr⟩ := make_stride_aligned_four_some (u32 (W * bpp) / 8)
    simp only [hw, if_false, hr]
    rcases readRows_agree k (u32 (W * bpp) / 8)
      (u32 (r + 4294967296 - u32 (W * bpp) / 8)) H 0
      (List.replicate (u32 (u32 (W * H) * bpp) / 8) 0) _ _ hseek
      with ⟨e, e1, e2⟩ | ⟨d1, a1, b1, e1, e2⟩
    · simp only [e1, e2]
    · simp only [e1, e2]

theorem rd8_blit_congr (j g1 g2 : List Nat) (i : Nat) (hl : g1.length = g2.length)
    (hg : g1[i]? = g2[i]?) : rd8 (blit j 0 g1) i = rd8 (blit j 0 g2) i := by
  have key : (blit j 0 g1)[i]? = (blit j 0 g2)[i]? := by
    unfold blit
    simp only [List.take_zero, List.nil_append, Nat.zero_add]
    by_cases hi : i < g1.length
    · rw [List.getElem?_append_left hi, List.getElem?_append_left (by omega), hg]
    · rw [List.getElem?_append_right (by omega), List.getElem?_append_right (by omega), hl]
  simp only [rd8, List.getD_eq_getElem?_getD, key]

theorem splice_drop (p v t : List Nat) : (p ++ v ++ t).drop (p.length + v.length) = t :=
  List.drop_left' (by simp)

theorem splice_get (p v1 v2 t : List Nat) (i : Nat) (hi : i < p.length) :
    (p ++ v1 ++ t)[i]? = (p ++ v2 ++ t)[i]? := by
  rw [List.append_assoc, List.append_assoc, List.getElem?_append_left hi,
    List.getElem?_append_left hi]

/-- The info-header and pixel stages on two agreeing streams, for file headers that
differ in `bfSize` only. -/
theorem load_tail_agree (k x : Nat) (bmpih0 : List Nat) (fh : BitmapFileHeader)
    (a b : IStream) (h : a.agreeFrom k b) (hk : a.failed = true ∨ k ≤ fh.bfOffBits) :
    (match readInfoHeader {} bmpih0 a with
      | .error e => (.error e : Except Error BitmapFile)
      | .ok (ih, fin2) => readPixels {} fh ih fin2) =
    (match readInfoHeader {} bmpih0 b with
      | .error e => .error e
      | .ok (ih, fin2) => readPixels {} { fh with bfSize := x } ih fin2) := by
  obtain ⟨e1, e2⟩ := read_agree k 40 a b h
  have hc : (({} : BitmapColorHeader).check) = .ok () := by decide
  have hf2 : (a.read 40).2.failed = true ∨ k ≤ fh.bfOffBits := by
    rcases hk with hk | hk
    · left
      simp only [IStream.read, hk, if_true]
    · exact Or.inr hk
  have key := fun ih => readPixels_agree k {} fh ih x ih.biSize (a.read 40).2 (b.read 40).2
    e2.1 e2.2.1 e2.2.2.1 hf2
  simp only [readInfoHeader, BMPInfoHeaderSize, hc, ← e1]
  split_ifs
  · exact key _
  · rfl
  · exact key _

theorem ofFile_bfSize_irrelevant (bmpfh0 bmpih0 p v1 v2 t : List Nat) (hp : p.length = 2)
    (h1 : v1.length = 4) (h2 : v2.length = 4)
    (hoff : (p ++ v1 ++ t).length < 14 ∨ 6 ≤ rd32 (p ++ v1 ++ t) 10) :
    BitmapFile.ofFile bmpfh0 bmpih0 (some (p ++ v1 ++ t)) =
      BitmapFile.ofFile bmpfh0 bmpih0 (some (p ++ v2 ++ t)) := by
  have hd : (p ++ v1 ++ t).drop 6 = (p ++ v2 ++ t).drop 6 := by
    have e1 := splice_drop p v1 t
    have e2 := splice_drop p v2 t
    rw [hp, h1] at e1
    rw [hp, h2] at e2
    rw [e1, e2]
  have hl : (p ++ v1 ++ t).length = (p ++ v2 ++ t).length := by
    simp only [List.length_append, h1, h2]
  have hlowS : ∀ i, i < 2 → (p ++ v1 ++ t)[i]? = (p ++ v2 ++ t)[i]? :=
    fun i hi => splice_get p v1 v2 t i (by omega)
  generalize p ++ v1 ++ t = s1 at hd hl hoff hlowS
  generalize p ++ v2 ++ t = s2 at hd hl hlowS
  obtain ⟨g1, g2, g3⟩ := read_agree_across 6 14 { bytes := s1 } { bytes := s2 } rfl rfl hl hd
    (Or.inr (by simp))
  have hdata1 : (IStream.read { bytes := s1 } 14).1 = (s1.drop 0).take 14 := by
    simp [IStream.read]
  have hdata2 : (IStream.read { bytes := s2 } 14).1 = (s2.drop 0).take 14 := by
    simp [IStream.read]
  have hb8 : ∀ i, i < 2 ∨ 6 ≤ i → rd8 (blit bmpfh0 0 (IStream.read { bytes := s1 } 14).1) i
      = rd8 (blit bmpfh0 0 (IStream.read { bytes := s2 } 14).1) i := by
    intro i hi
    apply rd8_blit_congr _ _ _ _ g1
    rcases hi with hi | hi
    · rw [hdata1, hdata2, get_read _ _ _ _ (by omega), get_read _ _ _ _ (by omega)]
      simpa using hlowS i hi
    · exact g2 i (by simpa using hi)
  have hfh : BitmapFileHeader.set (blit bmpfh0 0 (IStream.read { bytes := s2 } 14).1) =
      { BitmapFileHeader.set (blit bmpfh0 0 (IStream.read { bytes := s1 } 14).1) with
        bfSize := rd32 (blit bmpfh0 0 (IStream.read { bytes := s2 } 14).1) 2 } := by
    simp only [BitmapFileHeader.set, rd16, rd32, hb8 0 (by omega), hb8 (0 + 1) (by omega),
      hb8 6 (by omega), hb8 (6 + 1) (by omega), hb8 8 (by omega), hb8 (8 + 1) (by omega),
      hb8 10 (by omega), hb8 (10 + 1) (by omega), hb8 (10 + 2) (by omega),
      hb8 (10 + 3) (by omega)]
  have hk : (IStream.read { bytes := s1 } 14).2.failed = true ∨
      6 ≤ (BitmapFileHeader.set (blit bmpfh0 0 (IStream.read { bytes := s1 } 14).1)).bfOffBits := by
    rcases hoff with hoff | hoff
    · left
      simp [IStream.read]
      omega
    · by_cases hlen : 14 ≤ s1.length
      · right
        rw [hdata1]
        have := rd32_blit_read bmpfh0 s1 0 14 10 (by omega) (by omega)
        simp only [Nat.zero_add] at this
        show 6 ≤ rd32 _ 10
        rw [this]
        exact hoff
      · left
        simp [IStream.read]
        omega
  have key := load_tail_agree 6 (rd32 (blit bmpfh0 0 (IStream.read { bytes := s2 } 14).1) 2)
    bmpih0 _ _ _ g3 hk
  simp only [BitmapFile.ofFile, BitmapFile.load, readFileHeader, BMPFileHeaderSize]
  rw [hfh]
  by_cases hsig : (BitmapFileHeader.set (blit bmpfh0 0 (IStream.read { bytes := s1 } 14).1)).bfType
      = BMPT
  · simp only [hsig, ne_eq, not_true, if_false]
    simp only [hsig] at key
    exact key
  · simp only [hsig, ne_eq, not_false_eq_true, if_true]

theorem rd8_congr (s1 s2 : List Nat) (i : Nat) (h : s1[i]? = s2[i]?) : rd8 s1 i = rd8 s2 i := by
  simp only [rd8, List.getD_eq_getElem?_getD, h]

/-- A stream in which the four bytes of `biSize` (bytes 14 to 17) are replaced decodes to
the same image, when the decoded image does not have 32 bits per pixel and the pixel
data starts at or after byte 18 or the stream ends inside the headers. -/
theorem ofFile_biSize_irrelevant (bmpfh0 bmpih0 p v1 v2 t : List Nat) (hp : p.length = 14)
    (h1 : v1.length = 4) (h2 : v2.length = 4) (img : BitmapFile)
    (h : BitmapFile.ofFile bmpfh0 bmpih0 (some (p ++ v1 ++ t)) = .ok img)
    (hb : img.bmpInfoHeader.biBitCount ≠ 32)
    (hoff : (p ++ v1 ++ t).length < 54 ∨ 18 ≤ rd32 (p ++ v1 ++ t) 10) :
    BitmapFile.ofFile bmpfh0 bmpih0 (some (p ++ v2 ++ t)) = .ok img := by
  have hd : (p ++ v1 ++ t).drop 18 = (p ++ v2 ++ t).drop 18 := by
    have e1 := splice_drop p v1 t
    have e2 := splice_drop p v2 t
    rw [hp, h1] at e1
    rw [hp, h2] at e2
    rw [e1, e2]
  have hl : (p ++ v1 ++ t).length = (p ++ v2 ++ t).length := by
    simp only [List.length_append, h1, h2]
  have hlen : 14 ≤ (p ++ v1 ++ t).length := by
    simp only [List.length_append, hp]; omega
  have hlowS : ∀ i, i < 14 → (p ++ v1 ++ t)[i]? = (p ++ v2 ++ t)[i]? :=
    fun i hi => splice_get p v1 v2 t i (by omega)
  generalize p ++ v1 ++ t = s1 at hd hl hoff hlowS h hlen
  generalize p ++ v2 ++ t = s2 at hd hl hlowS
  have htake : (s2.drop 0).take 14 = (s1.drop 0).take 14 := by
    apply List.ext_getElem?
    intro i
    by_cases hi : i < 14
    · rw [get_read _ _ _ _ hi, get_read _ _ _ _ hi]
      simpa using (hlowS i hi).symm
    · rw [List.getElem?_eq_none (by simp; omega), List.getElem?_eq_none (by simp; omega)]
  have hsig2 : rd16 s2 0 = rd16 s1 0 := by
    simp only [rd16, rd8_congr s1 s2 0 (hlowS 0 (by omega)),
      rd8_congr s1 s2 (0 + 1) (hlowS (0 + 1) (by omega))]
  obtain ⟨g1, g2, g3⟩ := read_agree_across 18 40 { bytes := s1, pos := 14, failed := false }
    { bytes := s2, pos := 14, failed := false } rfl rfl hl hd (Or.inr (by simp))
  have hb8 : ∀ i, 4 ≤ i →
      rd8 (blit bmpih0 0 (IStream.read { bytes := s2, pos := 14, failed := false } 40).1) i
      = rd8 (blit bmpih0 0 (IStream.read { bytes := s1, pos := 14, failed := false } 40).1) i := by
    intro i hi
    exact (rd8_blit_congr _ _ _ _ g1 (g2 i (by simp only; omega))).symm
  have hih : BitmapInfoHeader.set
        (blit bmpih0 0 (IStream.read { bytes := s2, pos := 14, failed := false } 40).1) =
      { BitmapInfoHeader.set
          (blit bmpih0 0 (IStream.read { bytes := s1, pos := 14, failed := false } 40).1) with
        biSize := rd32
          (blit bmpih0 0 (IStream.read { bytes := s2, pos := 14, failed := false } 40).1) 0 } := by
    simp (disch := omega) only [BitmapInfoHeader.set, rd16, rd32, hb8]
  have hk : (IStream.read { bytes := s1, pos := 14, failed := false } 40).2.failed = true ∨
      18 ≤ (BitmapFileHeader.set (blit bmpfh0 0 ((s1.drop 0).take 14))).bfOffBits := by
    rcases hoff with hoff | hoff
    · left
      simp [IStream.read]
      omega
    · right
      have := rd32_blit_read bmpfh0 s1 0 14 10 (by omega) (by omega)
      simp only [Nat.zero_add] at this
      show 18 ≤ rd32 _ 10
      rw [this]
      exact hoff
  have hc : (({} : BitmapColorHeader).check) = .ok () := by decide
  have key := fun z => readPixels_agree 18 {}
    (BitmapFileHeader.set (blit bmpfh0 0 ((s1.drop 0).take 14)))
    (BitmapInfoHeader.set
      (blit bmpih0 0 (IStream.read { bytes := s1, pos := 14, failed := false } 40).1))
    (BitmapFileHeader.set (blit bmpfh0 0 ((s1.drop 0).take 14))).bfSize z
    _ _ g3.1 g3.2.1 g3.2.2.1 hk
  simp only [BitmapFile.ofFile, BitmapFile.load, readFileHeader_eq bmpfh0 s1 hlen] at h
  simp only [BitmapFile.ofFile, BitmapFile.load, readFileHeader_eq bmpfh0 s2 (by omega), hsig2,
    htake]
  by_cases hsig : rd16 s1 0 = BMPT
  · simp only [hsig, ne_eq, not_true, if_false, readInfoHeader, BMPInfoHeaderSize, hc] at h ⊢
    rw [hih]
    by_cases h32 : (BitmapInfoHeader.set
      (blit bmpih0 0 (IStream.read { bytes := s1, pos := 14, failed := false } 40).1)).biBitCount
        = 32
    · exfalso
      simp only [h32, if_true] at h
      split_ifs at h
      have := (readPixels_headers _ _ _ _ _ h).1
      rw [this] at hb
      exact hb h32
    · simp only [h32, if_false] at h ⊢
      rw [← h, key]
  · simp only [hsig, ne_eq, not_false_eq_true, if_true] at h
    simp at h

/-! ## The decoder as written and the reference decoder -/

/-- The first two stages of the decoder on a stream that holds both headers. -/
theorem decode_headers (bmpfh0 bmpih0 s : List Nat) (hlen : 54 ≤ s.length) :
    readFileHeader bmpfh0 { bytes := s } =
      (if rd16 s 0 ≠ BMPT then .error .UnrecognizedFormat
      else .ok (BitmapFileHeader.set (blit bmpfh0 0 ((s.drop 0).take 14)),
        { bytes := s, pos := 14, failed := false })) ∧
    readInfoHeader {} bmpih0 { bytes := s, pos := 14, failed := false } =
      (if rd16 s 28 = 32 ∧ rd32 s 14 < 124 then .error .UnrecognizedFormat
      else .ok (BitmapInfoHeader.set (blit bmpih0 0 ((s.drop 14).take 40)),
        { bytes := s, pos := 54, failed := false })) := by
  have hc : (({} : BitmapColorHeader).check) = .ok () := by decide
  have hr := read_ok s 14 40 (by omega)
  refine ⟨readFileHeader_eq bmpfh0 s (by omega), ?_⟩
  rw [readInfoHeader_result _ _ _ (by omega : 30 ≤ s.length)]
  simp only [hc, hr]
  by_cases h32 : rd16 s 28 = 32
  · by_cases hsz : rd32 s 14 < 124
    · simp only [h32, hsz, and_self, if_true, ge_iff_le, Nat.not_le.mpr hsz, if_false]
    · simp only [h32, hsz, and_false, if_false, if_true, ge_iff_le, Nat.not_lt.mp hsz]
  · simp only [h32, false_and, if_false]

/-- Both decoders on a stream that passes the header stages. -/
theorem decoders_eq_pixel_stage (bmpfh0 bmpih0 s : List Nat) (hlen : 54 ≤ s.length)
    (hs : rd16 s 0 = BMPT) (hok : ¬ (rd16 s 28 = 32 ∧ rd32 s 14 < 124)) :
    BitmapFile.ofFile bmpfh0 bmpih0 (some s) =
      readPixels {} (BitmapFileHeader.set (blit bmpfh0 0 ((s.drop 0).take 14)))
        (BitmapInfoHeader.set (blit bmpih0 0 ((s.drop 14).take 40)))
        { bytes := s, pos := 54, failed := false } ∧
    BitmapFile.ofFileRowByRow bmpfh0 bmpih0 (some s) =
      readPixelsRowByRow {} (BitmapFileHeader.set (blit bmpfh0 0 ((s.drop 0).take 14)))
        (BitmapInfoHeader.set (blit bmpih0 0 ((s.drop 14).take 40)))
        { bytes := s, pos := 54, failed := false } := by
  obtain ⟨hA, hB⟩ := decode_headers bmpfh0 bmpih0 s hlen
  simp only [BitmapFile.ofFile, BitmapFile.load, BitmapFile.ofFileRowByRow, hA, hB, hs, ne_eq,
    not_true, if_false, hok, and_self]

/-- Both decoders fail in the same way in the header stages. -/
theorem decoders_header_error (bmpfh0 bmpih0 s : List Nat) (hlen : 54 ≤ s.length)
    (h : ¬ (rd16 s 0 = BMPT ∧ ¬ (rd16 s 28 = 32 ∧ rd32 s 14 < 124))) :
    BitmapFile.ofFile bmpfh0 bmpih0 (some s) = .error .UnrecognizedFormat ∧
    BitmapFile.ofFileRowByRow bmpfh0 bmpih0 (some s) = .error .UnrecognizedFormat := by
  obtain ⟨hA, hB⟩ := decode_headers bmpfh0 bmpih0 s hlen
  by_cases hs : rd16 s 0 = BMPT
  · have hbad : rd16 s 28 = 32 ∧ rd32 s 14 < 124 := by
      by_contra hc
      exact h ⟨hs, hc⟩
    simp only [BitmapFile.ofFile, BitmapFile.load, BitmapFile.ofFileRowByRow, hA, hB, hs,
      ne_eq, not_true, if_false, hbad, and_self, if_true]
  · simp only [BitmapFile.ofFile, BitmapFile.load, BitmapFile.ofFileRowByRow, hA, hs,
      ne_eq, not_false_eq_true, if_true, and_self]

/-- The reference decoder on `wideHeader` followed by any bytes. -/
theorem ofFileRowByRow_wideHeader (bmpfh0 bmpih0 t : List Nat) :
    ∃ img, BitmapFile.ofFileRowByRow bmpfh0 bmpih0 (some (wideHeader ++ t)) = .ok img ∧
      img.bmpData.length = 536870912 ∧ img.bmpFileHeader.bfSize = 138 + 536870912 := by
  obtain ⟨g1, g2, g3, g4, g5, g6, g7⟩ := wideHeader_fields t
  have hlen : 54 ≤ (wideHeader ++ t).length := by omega
  have hs : rd16 (wideHeader ++ t) 0 = BMPT := by rw [rd16_of_take_two _ _ _ g1]; rfl
  obtain ⟨f1, f2, f3, f4⟩ := decoded_fields bmpfh0 bmpih0 (wideHeader ++ t) hlen
  rw [(decoders_eq_pixel_stage bmpfh0 bmpih0 _ hlen hs (by rw [g3]; omega)).2]
  obtain ⟨img, k1, k2, k3, _⟩ := readPixelsRowByRow_gen {}
    (BitmapFileHeader.set (blit bmpfh0 0 (((wideHeader ++ t).drop 0).take 14)))
    (BitmapInfoHeader.set (blit bmpih0 0 (((wideHeader ++ t).drop 14).take 40)))
    (wideHeader ++ t) 54 (by rw [f3, g6]; decide) (by rw [f2, f3, f4, g5, g6, g2]; decide)
  rw [f2, f3, f4, g5, g6, g2] at k2 k3
  exact ⟨img, k1, k3, k2⟩

/-- The decoder on `wideHeader` followed by any bytes: the buffer is empty and `bfSize`
is `bfOffBits`. -/
theorem ofFile_wideHeader_fields (bmpfh0 bmpih0 t : List Nat) :
    ∃ img, BitmapFile.ofFile bmpfh0 bmpih0 (some (wideHeader ++ t)) = .ok img ∧
      img.bmpData = [] ∧ img.bmpFileHeader.bfSize = 138 ∧ img.bmpFileHeader.bfOffBits = 138 ∧
      img.bmpInfoHeader.biBitCount = 32 ∧ img.bmpInfoHeader.biWidth = 134217728 ∧
      img.bmpInfoHeader.biHeight = 1 := by
  obtain ⟨g1, g2, g3, g4, g5, g6, g7⟩ := wideHeader_fields t
  have hlen : 54 ≤ (wideHeader ++ t).length := by omega
  obtain ⟨f1, f2, f3, f4⟩ := decoded_fields bmpfh0 bmpih0 (wideHeader ++ t) hlen
  obtain ⟨img, h1, h2⟩ := ofFile_wideHeader bmpfh0 bmpih0 t
  have h := h1
  rw [ofFile_eq_readPixels bmpfh0 bmpih0 _ hlen g1 (Or.inr (by rw [g3]))] at h
  obtain ⟨k1, _, _, _, _, k6, pad, k7, k8, _⟩ := readPixels_headers _ _ _ _ _ h
  rw [f2, f3, f4, g5, g6, g2] at k7
  rw [f4, g2] at k6
  rw [f2, g5] at k8
  rw [k8 (by decide)] at k7
  refine ⟨img, h1, h2, by rw [k7]; decide, by rw [k6]; rfl, ?_, ?_, ?_⟩
  · rw [k1]; exact f4.trans g2
  · rw [k1]; exact f2.trans g5
  · rw [k1]; exact f3.trans g6

/-- The derived header fields of every decoded image. -/
theorem ofFile_derived (bmpfh0 bmpih0 : List Nat) (file : Option (List Nat))
    (img : BitmapFile) (h : BitmapFile.ofFile bmpfh0 bmpih0 file = .ok img) :
    (img.bmpInfoHeader.biBitCount ≠ 32 →
      img.bmpInfoHeader.biSize = 40 ∧ img.bmpFileHeader.bfOffBits = 54) ∧
    (img.bmpInfoHeader.biBitCount = 32 →
      img.bmpInfoHeader.biSize = 124 ∧ img.bmpFileHeader.bfOffBits = 138) ∧
    (img.bmpInfoHeader.biBitCount = 24 ∨ img.bmpInfoHeader.biBitCount = 32 →
      img.bmpInfoHeader.biWidth * img.bmpInfoHeader.biHeight * img.bmpInfoHeader.biBitCount
        < 4294967296 →
      img.bmpFileHeader.bfSize = img.bmpFileHeader.bfOffBits + img.bmpInfoHeader.biHeight *
        ((img.bmpInfoHeader.biWidth * (img.bmpInfoHeader.biBitCount / 8) + 3) / 4 * 4)) := by
  obtain ⟨fh, ih, fin, hp⟩ := ofFile_ok_readPixels bmpfh0 bmpih0 file img h
  obtain ⟨k1, _, _, _, _, k6, _⟩ := readPixels_headers _ _ _ _ _ hp
  have eW : img.bmpInfoHeader.biWidth = ih.biWidth := by rw [k1]
  have eH : img.bmpInfoHeader.biHeight = ih.biHeight := by rw [k1]
  have eB : img.bmpInfoHeader.biBitCount = ih.biBitCount := by rw [k1]
  have eS : img.bmpInfoHeader.biSize = if ih.biBitCount = 32 then 124 else 40 := by rw [k1]
  rw [eW, eH, eB, eS, k6]
  refine ⟨fun hb => by simp only [hb, if_false, and_self],
    fun hb => by simp only [hb, if_true, and_self], fun hb hsz => ?_⟩
  exact readPixels_bfSize _ _ _ _ _ hb hsz hp

/-! ## Region fill: stores stay inside the buffer -/

theorem fillRows_zero_rows (channels biWidth B G R A x0 n y : Nat) (d : List Nat) :
    fillRows channels biWidth B G R A x0 n 0 y d = .ok d := rfl

/-- The fill after a passed bounds check: it succeeds, and the bytes that change are bytes
of pixels of the rectangle. -/
theorem fillRegion_changes_inside (img : BitmapFile) (x0 y0 w h B G R A : Nat)
    (hch : img.bmpInfoHeader.biBitCount / 8 = 3 ∨ img.bmpInfoHeader.biBitCount / 8 = 4)
    (hlen : img.bmpData.length =
      img.bmpInfoHeader.biWidth * img.bmpInfoHeader.biHeight * (img.bmpInfoHeader.biBitCount / 8))
    (hsz : img.bmpInfoHeader.biWidth * img.bmpInfoHeader.biHeight
      * (img.bmpInfoHeader.biBitCount / 8) < 4294967296)
    (hx0 : x0 < 4294967296) (hy0 : y0 < 4294967296) (hw : w < 4294967296)
    (hh : h < 4294967296)
    (hcheck : ¬ (u32 (x0 + w) > img.bmpInfoHeader.biWidth ∨
      u32 (y0 + h) > img.bmpInfoHeader.biHeight)) :
    ∃ img2, img.fillRegion x0 y0 w h B G R A = .ok img2 ∧
      img2.bmpData.length = img.bmpData.length ∧
      (∀ j, img2.bmpData[j]? ≠ img.bmpData[j]? →
        ∃ x y c, x0 ≤ x ∧ x < u32 (x0 + w) ∧ y0 ≤ y ∧ y < u32 (y0 + h) ∧
          x < img.bmpInfoHeader.biWidth ∧ y < img.bmpInfoHeader.biHeight ∧
          c < img.bmpInfoHeader.biBitCount / 8 ∧
          j = img.bmpInfoHeader.biBitCount / 8 * (y * img.bmpInfoHeader.biWidth + x) + c ∧
          j < img.bmpData.length) ∧
      ((4294967296 ≤ x0 + w ∨ 4294967296 ≤ y0 + h) → img2 = img) := by
  obtain ⟨fh, ih, chdr, d, rs⟩ := img
  obtain ⟨biSize, W, H, planes, bpp, comp, szimg, xp, yp, cu, ci⟩ := ih
  simp only at hch hlen hsz hcheck ⊢
  generalize hc : bpp / 8 = ch at hch hlen hsz ⊢
  by_cases hxw : 4294967296 ≤ x0 + w
  · have hn : u32 (x0 + w) - x0 = 0 := by unfold u32; omega
    simp only [BitmapFile.fillRegion, hcheck, if_false, hn, fillRows_zero_cols]
    exact ⟨_, rfl, rfl, fun j hj => absurd rfl hj, fun _ => rfl⟩
  · by_cases hyh : 4294967296 ≤ y0 + h
    · have hm : u32 (y0 + h) - y0 = 0 := by unfold u32; omega
      simp only [BitmapFile.fillRegion, hcheck, if_false, hm, fillRows_zero_rows]
      exact ⟨_, rfl, rfl, fun j hj => absurd rfl hj, fun _ => rfl⟩
    · have e1 : u32 (x0 + w) = x0 + w := u32_of_lt (by omega)
      have e2 : u32 (y0 + h) = y0 + h := u32_of_lt (by omega)
      have hn : x0 + w - x0 = w := by omega
      have hm : y0 + h - y0 = h := by omega
      have hcheck2 := hcheck
      rw [e1, e2] at hcheck2
      by_cases hw0 : w = 0
      · subst hw0
        simp only [BitmapFile.fillRegion, e1, e2, hcheck2, if_false, hn, hm, hc,
          fillRows_zero_cols]
        exact ⟨_, rfl, rfl, fun j hj => absurd rfl hj, fun hc => by omega⟩
      · have g1 : (y0 + h) * W ≤ H * W := Nat.mul_le_mul_right _ (by omega)
        have g2 : W * H * ch = ch * (H * W) := by ring
        obtain ⟨d1, hd1, hl1, hs1⟩ := fillRows_spec ch W B G R A x0 w hch (by omega)
          (by omega) h y0 d (by rw [hlen, g2]; exact Nat.mul_le_mul_left _ g1) (by omega)
        simp only [BitmapFile.fillRegion, e1, e2, hcheck2, if_false, hn, hm, hc, hd1]
        refine ⟨_, rfl, hl1, ?_, fun hc => by omega⟩
        intro j hj
        have hex : ∃ yy, y0 ≤ yy ∧ yy < y0 + h ∧
            ch * (yy * W + x0) ≤ j ∧ j < ch * (yy * W + x0 + w) := by
          by_contra hc
          push_neg at hc
          exact hj ((hs1 j).2 (fun yy a1 a2 a3 => absurd a3.2 (by
            have := hc yy a1 a2 a3.1
            omega)))
        obtain ⟨yy, a1, a2, a3, a4⟩ := hex
        have g3 : (yy + 1) * W ≤ H * W := Nat.mul_le_mul_right _ (by omega)
        have g4 : (yy + 1) * W = yy * W + W := by ring
        rcases hch with rfl | rfl
        · exact ⟨j / 3 - yy * W, yy, j % 3, by omega, by omega, a1, a2, by omega, by omega,
            by omega, by omega, by omega⟩
        · exact ⟨j / 4 - yy * W, yy, j % 4, by omega, by omega, a1, a2, by omega, by omega,
            by omega, by omega, by omega⟩

/-- Every pixel that the loops of `fillRegion` visit after a passed bounds check lies in
the image, and its byte indices are computed without wrap-around and lie in the buffer. -/
theorem fillRegion_indices (W H ch len x0 y0 w h : Nat) (hch : ch = 3 ∨ ch = 4)
    (hlen : len = W * H * ch) (hsz : W * H * ch < 4294967296)
    (hcheck : ¬ (u32 (x0 + w) > W ∨ u32 (y0 + h) > H)) :
    ∀ x y c, x < u32 (x0 + w) → y < u32 (y0 + h) → c < ch →
      x < W ∧ y < H ∧ pixelIndex ch W y x c = ch * (y * W + x) + c ∧
        ch * (y * W + x) + c < len := by
  intro x y c hx hy hc
  have hxW : x < W := by omega
  have hyH : y < H := by omega
  have g1 : (y + 1) * W ≤ H * W := Nat.mul_le_mul_right _ (by omega)
  have g2 : (y + 1) * W = y * W + W := by ring
  have g3 : W * H * ch = ch * (H * W) := by ring
  have g4 : ch * (y * W + x + 1) ≤ ch * (H * W) := Nat.mul_le_mul_left _ (by omega)
  have g5 : ch * (y * W + x + 1) = ch * (y * W + x) + ch := by ring
  have hlt : ch * (y * W + x) + c < len := by omega
  exact ⟨hxW, hyH, pixelIndex_eq ch W y x c hch (by omega), hlt⟩

/-! ## Claims -/

/-- Claim C1 (amended).  For an image with 24 or 32 bits per pixel whose width and
height are `uint32_t` values and whose buffer has the length
`biWidth * biHeight * channels`, at most `2^32`, and for `x0 + w ≤ biWidth`,
`y0 + h ≤ biHeight`: `fillRegion` succeeds, the three headers and the buffer length are
unchanged, and the byte at `channels * (y * biWidth + x) + c` is `(B, G, R, A)[c]` inside
the rectangle and its old value outside (`c < channels`, so `A` only with 4 channels).
With 24 bits per pixel the result does not depend on `A`.  When the image is the one that
`blank wd ht true` builds and the rectangle is `(0, 0, wd, ht)`, every pixel of the result
is `(B, G, R, A)`. -/
theorem BitmapFile.fillRegion_spec (img : BitmapFile) (x0 y0 w h B G R A : Nat)
    (hbpp : img.bmpInfoHeader.biBitCount = 24 ∨ img.bmpInfoHeader.biBitCount = 32)
    (hW : img.bmpInfoHeader.biWidth < 4294967296)
    (hH : img.bmpInfoHeader.biHeight < 4294967296)
    (hlen : img.bmpData.length =
      img.bmpInfoHeader.biWidth * img.bmpInfoHeader.biHeight * (img.bmpInfoHeader.biBitCount / 8))
    (hsz : img.bmpInfoHeader.biWidth * img.bmpInfoHeader.biHeight
      * (img.bmpInfoHeader.biBitCount / 8) ≤ 4294967296)
    (hx : x0 + w ≤ img.bmpInfoHeader.biWidth) (hy : y0 + h ≤ img.bmpInfoHeader.biHeight) :
    ∃ img2, img.fillRegion x0 y0 w h B G R A = .ok img2 ∧
      img2.bmpFileHeader = img.bmpFileHeader ∧ img2.bmpInfoHeader = img.bmpInfoHeader ∧
      img2.bmpColorHeader = img.bmpColorHeader ∧
      img2.bmpData.length = img.bmpData.length ∧
      (∀ x y c, x < img.bmpInfoHeader.biWidth → y < img.bmpInfoHeader.biHeight →
        c < img.bmpInfoHeader.biBitCount / 8 →
        img2.bmpData[img.bmpInfoHeader.biBitCount / 8 * (y * img.bmpInfoHeader.biWidth + x) + c]?
          = if x0 ≤ x ∧ x < x0 + w ∧ y0 ≤ y ∧ y < y0 + h then [B, G, R, A][c]?
            else img.bmpData[img.bmpInfoHeader.biBitCount / 8
              * (y * img.bmpInfoHeader.biWidth + x) + c]?) ∧
      (img.bmpInfoHeader.biBitCount = 24 → ∀ A2,
        img.fillRegion x0 y0 w h B G R A2 = img.fillRegion x0 y0 w h B G R A) ∧
      (∀ wd ht : Nat, BitmapFile.blank (wd : Int) (ht : Int) true = .ok img →
        x0 = 0 → y0 = 0 → w = wd → h = ht →
        ∀ x y c, x < wd → y < ht → c < 4 →
          img2.bmpData[4 * (y * wd + x) + c]? = [B, G, R, A][c]?) := by
  obtain ⟨img2, h1, h2, h3, h4, h5, h6, h7⟩ :=
    fillRegion_correct img x0 y0 w h B G R A hbpp hW hH hlen hsz hx hy
  exact ⟨img2, h1, h2, h3, h4, h5, h6, h7, fresh_fill img img2 x0 y0 w h B G R A hx hy h6⟩

/-- Witness of C1: the fresh 32-bit image of 3 x 2 pixels, filled over `(0, 0, 3, 2)` with
`(10, 20, 30, 255)`. -/
theorem BitmapFile.fillRegion_spec_witness :
    BitmapFile.blank 3 2 true = .ok img3x2 ∧
    ∃ img2, img3x2.fillRegion 0 0 3 2 10 20 30 255 = .ok img2 ∧
      img2.bmpInfoHeader = img3x2.bmpInfoHeader ∧
      img2.bmpData.length = 24 ∧
      (∀ x y c, x < 3 → y < 2 → c < 4 →
        img2.bmpData[4 * (y * 3 + x) + c]? = [10, 20, 30, 255][c]?) :=
  ⟨by decide,
    (BitmapFile.fillRegion_spec img3x2 0 0 3 2 10 20 30 255 (by decide) (by decide) (by decide)
      (by decide) (by decide) (by decide) (by decide)).imp fun _ hs =>
        ⟨hs.1, hs.2.2.1, hs.2.2.2.2.1,
          hs.2.2.2.2.2.2.2 3 2 (by decide) rfl rfl rfl rfl⟩⟩

/-- Counterexample to C1 as stated: a 32-bit image of `2^30 + 1` x 1 pixels whose buffer has
the length `biWidth * biHeight * 4 = 2^32 + 4`.  Filling the one pixel `(2^30, 0)` passes
the bounds check, but the index `4 * 2^30` wraps to 0 in `uint32_t`: byte `2^32` keeps
its old value 0 (the claim says `B = 1`) and byte 0, which belongs to pixel `(0, 0)`
outside the rectangle, becomes 1 (the claim says it keeps its old value 0). -/
theorem BitmapFile.fillRegion_index_wraps :
    (wideImage (List.replicate 4294967300 0)).bmpInfoHeader.biBitCount = 32 ∧
    (wideImage (List.replicate 4294967300 0)).bmpInfoHeader.biWidth = 1073741825 ∧
    (wideImage (List.replicate 4294967300 0)).bmpInfoHeader.biHeight = 1 ∧
    (wideImage (List.replicate 4294967300 0)).bmpData.length = 1073741825 * 1 * (32 / 8) ∧
    1073741824 + 1 ≤ 1073741825 ∧ 0 + 1 ≤ 1 ∧
    ∃ img2, (wideImage (List.replicate 4294967300 0)).fillRegion 1073741824 0 1 1 1 2 3 4
        = .ok img2 ∧
      img2.bmpData[4 * (0 * 1073741825 + 1073741824) + 0]? = some 0 ∧
      img2.bmpData[4 * (0 * 1073741825 + 0) + 0]? = some 1 ∧
      (wideImage (List.replicate 4294967300 0)).bmpData[4 * (0 * 1073741825 + 0) + 0]?
        = some 0 := by
  have hl : (List.replicate 4294967300 0).length = 4294967300 := List.length_replicate _ _
  refine ⟨rfl, rfl, rfl, ?_, by decide, by decide, ?_⟩
  · show (List.replicate 4294967300 0).length = 1073741825 * 1 * (32 / 8)
    rw [hl]
  · refine ⟨_, fillRegion_wrapped _ (by rw [hl]; omega), ?_, ?_, ?_⟩
    · show (((((List.replicate 4294967300 0).set 0 1).set 1 2).set 2 3).set 3 4)[
        4 * (0 * 1073741825 + 1073741824) + 0]? = some 0
      simp only [List.getElem?_set, List.length_set, hl, List.getElem?_replicate]
      decide
    · show (((((List.replicate 4294967300 0).set 0 1).set 1 2).set 2 3).set 3 4)[
        4 * (0 * 1073741825 + 0) + 0]? = some 1
      simp only [List.getElem?_set, List.length_set, hl, List.getElem?_replicate]
      decide
    · show (List.replicate 4294967300 0)[4 * (0 * 1073741825 + 0) + 0]? = some 0
      simp only [List.getElem?_replicate]
      decide

/-- Claim C2 (amended).  For every image and all `x0, y0, w, h` whose sums `x0 + w` and
`y0 + h` fit in 32 bits: `fillRegion` fails with `OutOfBounds` exactly when
`x0 + w > biWidth` or `y0 + h > biHeight`; a rectangle flush with the far edge is
accepted. -/
theorem BitmapFile.fillRegion_outOfBounds_iff (img : BitmapFile) (x0 y0 w h B G R A : Nat)
    (hx : x0 + w < 4294967296) (hy : y0 + h < 4294967296) :
    img.fillRegion x0 y0 w h B G R A = .error .OutOfBounds ↔
      (x0 + w > img.bmpInfoHeader.biWidth ∨ y0 + h > img.bmpInfoHeader.biHeight) := by
  rw [fillRegion_outOfBounds_iff_u32, u32_of_lt hx, u32_of_lt hy]

/-- Witness of C2 on the 5 x 5 image: `x0 + w = 6` is rejected, `x0 + w = 5` is not. -/
theorem BitmapFile.fillRegion_outOfBounds_iff_witness :
    (img5x5.fillRegion 3 0 3 1 10 20 30 255 = .error .OutOfBounds ↔
      (3 + 3 > img5x5.bmpInfoHeader.biWidth ∨ 0 + 1 > img5x5.bmpInfoHeader.biHeight)) ∧
    img5x5.fillRegion 3 0 3 1 10 20 30 255 = .error .OutOfBounds ∧
    img5x5.fillRegion 3 0 2 1 10 20 30 255 ≠ .error .OutOfBounds :=
  ⟨BitmapFile.fillRegion_outOfBounds_iff img5x5 3 0 3 1 10 20 30 255 (by decide) (by decide),
    by decide, by decide⟩

/-- Counterexample to C2 as stated: with `x0 = 2^32 - 1` and `w = 2` the rectangle extends
past the width 5, but the sum wraps to 1, the check passes and `fillRegion` returns the
image unchanged. -/
theorem BitmapFile.fillRegion_wraparound_accepted :
    4294967295 < 4294967296 ∧ 4294967295 + 2 > img5x5.bmpInfoHeader.biWidth ∧
      img5x5.fillRegion 4294967295 0 2 1 10 20 30 255 = .ok img5x5 := by
  decide

/-- Claim C3 (amended).  For positive `w` and `h` with `w * h * channels < 2^32`
(4 channels with alpha, 3 without) the blank-image constructor succeeds with a buffer of
exactly `w * h * channels` bytes, all zero, and 32 (with alpha) or 24 bits per pixel. -/
theorem BitmapFile.blank_buffer (w h : Nat) (has_alpha : Bool) (hw : 0 < w) (hh : 0 < h)
    (hb : w * h * (if has_alpha then 4 else 3) < 4294967296) :
    ∃ img, BitmapFile.blank (w : Int) (h : Int) has_alpha = .ok img ∧
      img.bmpData.length = w * h * (if has_alpha then 4 else 3) ∧
      img.bmpInfoHeader.biBitCount = (if has_alpha then 32 else 24) ∧
      ∀ b ∈ img.bmpData, b = 0 := by
  have hw' : ¬ ((w : Int) ≤ 0 ∨ (h : Int) ≤ 0) := by omega
  have hle : w ≤ w * h := Nat.le_mul_of_pos_right w hh
  have hle2 : h ≤ w * h := Nat.le_mul_of_pos_left h hw
  cases has_alpha with
  | true =>
    simp only [if_true] at hb ⊢
    have e1 : u32OfInt ((w : Int) * 4) = w * 4 := by
      have : ((w : Int) * 4) = ((w * 4 : Nat) : Int) := by push_cast; ring
      rw [this, u32OfInt_natCast, u32_of_lt (by omega)]
    have e2 : u32OfInt (h : Int) = h := by
      rw [u32OfInt_natCast, u32_of_lt (by omega)]
    have e3 : u32 (w * 4 * h) = w * h * 4 := by
      have : w * 4 * h = w * h * 4 := by ring
      rw [this, u32_of_lt hb]
    refine ⟨_, by simp only [BitmapFile.blank, hw', if_false, if_true]; rfl, ?_, rfl, ?_⟩
    · simp only [e1, e2, e3, List.length_replicate]
    · intro b hbm
      exact List.eq_of_mem_replicate hbm
  | false =>
    simp only [Bool.false_eq_true, if_false] at hb ⊢
    have e1 : u32OfInt ((w : Int) * 3) = w * 3 := by
      have : ((w : Int) * 3) = ((w * 3 : Nat) : Int) := by push_cast; ring
      rw [this, u32OfInt_natCast, u32_of_lt (by omega)]
    have e2 : u32OfInt (h : Int) = h := by
      rw [u32OfInt_natCast, u32_of_lt (by omega)]
    have e3 : u32 (w * 3 * h) = w * h * 3 := by
      have : w * 3 * h = w * h * 3 := by ring
      rw [this, u32_of_lt hb]
    obtain ⟨r, hr⟩ := make_stride_aligned_four_some (w * 3)
    refine ⟨_, by simp only [BitmapFile.blank, hw', if_false, Bool.false_eq_true, e1, hr]; rfl, ?_, rfl, ?_⟩
    · simp only [e2, e3, List.length_replicate]
    · intro b hbm
      exact List.eq_of_mem_replicate hbm

/-- Witness of C3: a 2 x 3 image without alpha. -/
theorem BitmapFile.blank_buffer_witness :
    ∃ img, BitmapFile.blank ((2 : Nat) : Int) ((3 : Nat) : Int) false = .ok img ∧
      img.bmpData.length = 2 * 3 * (if false then 4 else 3) ∧
      img.bmpInfoHeader.biBitCount = (if false then 32 else 24) ∧
      ∀ b ∈ img.bmpData, b = 0 :=
  BitmapFile.blank_buffer 2 3 false (by decide) (by decide) (by decide)

/-- Counterexample to C3 as stated: for `w = h = 65536` with alpha the size
`row_stride * height = 2^34` wraps to 0 in `uint32_t`, so the buffer is empty. -/
theorem BitmapFile.blank_buffer_overflow :
    ∃ img, BitmapFile.blank 65536 65536 true = .ok img ∧ img.bmpData.length = 0 ∧
      img.bmpData.length ≠ 65536 * 65536 * 4 :=
  ⟨_, rfl, by decide, by decide⟩

/-- Claim C4.  The blank-image constructor fails with `InvalidDimensions` if and only if
`width ≤ 0` or `height ≤ 0`, for either value of the alpha flag; every pair of positive
dimensions is accepted; `blank 0 5 true` and `blank (-1) 5 false` both fail. -/
theorem BitmapFile.blank_invalidDimensions_iff (width height : Int) (has_alpha : Bool) :
    (BitmapFile.blank width height has_alpha = .error .InvalidDimensions ↔
      (width ≤ 0 ∨ height ≤ 0)) ∧
    ((¬ (width ≤ 0 ∨ height ≤ 0)) → ∃ img, BitmapFile.blank width height has_alpha = .ok img) ∧
    BitmapFile.blank 0 5 true = .error .InvalidDimensions ∧
    BitmapFile.blank (-1) 5 false = .error .InvalidDimensions := by
  refine ⟨?_, ?_, by decide, by decide⟩
  · unfold BitmapFile.blank
    by_cases hd : width ≤ 0 ∨ height ≤ 0
    · simp [hd]
    · simp only [hd, if_false, iff_false]
      obtain ⟨r, hr⟩ := make_stride_aligned_four_some (u32OfInt (width * 3))
      cases has_alpha <;> simp [hr]
  · intro hd
    unfold BitmapFile.blank
    obtain ⟨r, hr⟩ := make_stride_aligned_four_some (u32OfInt (width * 3))
    cases has_alpha <;> simp [hd, hr]

/-- Claim C5.  For a byte stream of at least 14 bytes: when its first two bytes are not
`0x42, 0x4D` the decoder fails with `UnrecognizedFormat` whatever follows (and whatever
the local arrays held before); when they are, the signature stage (lines 11-17) does not
reject the stream. -/
theorem BitmapFile.ofFile_signature (bmpfh0 bmpih0 s : List Nat) (hlen : 14 ≤ s.length)
    (hbytes : ∀ b ∈ s, b < 256) :
    (s.take 2 ≠ [0x42, 0x4D] →
      BitmapFile.ofFile bmpfh0 bmpih0 (some s) = .error .UnrecognizedFormat) ∧
    (s.take 2 = [0x42, 0x4D] → ∃ r, readFileHeader bmpfh0 { bytes := s } = .ok r) := by
  have hm := rd16_magic s (by omega) hbytes
  constructor
  · intro hne
    have : rd16 s 0 ≠ BMPT := fun h => hne (hm.mp h)
    simp [BitmapFile.ofFile, BitmapFile.load, readFileHeader_eq bmpfh0 s hlen, this]
  · intro he
    have : rd16 s 0 = BMPT := hm.mpr he
    rw [readFileHeader_eq bmpfh0 s hlen, if_neg (not_not.mpr this)]
    exact ⟨_, rfl⟩

/-- Witness of C5: `smallStream` starts with the magic and passes the signature stage; with
its first byte replaced by 0 it is rejected. -/
theorem BitmapFile.ofFile_signature_witness :
    (smallStream.take 2 = [0x42, 0x4D] ∧ (0 :: smallStream.tail).take 2 ≠ [0x42, 0x4D]) ∧
    ((smallStream.take 2 ≠ [0x42, 0x4D] →
        BitmapFile.ofFile [] [] (some smallStream) = .error .UnrecognizedFormat) ∧
      (smallStream.take 2 = [0x42, 0x4D] → ∃ r, readFileHeader [] { bytes := smallStream } = .ok r)) ∧
    (((0 :: smallStream.tail).take 2 ≠ [0x42, 0x4D] →
        BitmapFile.ofFile [] [] (some (0 :: smallStream.tail)) = .error .UnrecognizedFormat) ∧
      ((0 :: smallStream.tail).take 2 = [0x42, 0x4D] →
        ∃ r, readFileHeader [] { bytes := 0 :: smallStream.tail } = .ok r)) :=
  ⟨by decide, BitmapFile.ofFile_signature [] [] smallStream (by decide) (by decide),
    BitmapFile.ofFile_signature [] [] (0 :: smallStream.tail) (by decide) (by decide)⟩

/-- Claim C6 (amended).  For a stream with both headers, a valid signature, 24 bits per
pixel or 32 with `biSize ≥ 124`, a height below `2^31`, `width * height * bits-per-pixel
< 2^32`, that holds `height` rows of `aligned_stride` bytes at the declared offset: the
decoder succeeds, the buffer has exactly `width * height * channels` bytes, and byte
`y * row_stride + i` of the buffer is the stream byte at
`bfOffBits + y * aligned_stride + i`, where `row_stride = width * channels` and
`aligned_stride = (row_stride + 3) / 4 * 4`.  The width may or may not be a multiple
of 4. -/
theorem BitmapFile.ofFile_pixels (bmpfh0 bmpih0 s : List Nat)
    (hlen : 54 ≤ s.length) (hsig : s.take 2 = [0x42, 0x4D])
    (hbpp : rd16 s 28 = 24 ∨ (rd16 s 28 = 32 ∧ 124 ≤ rd32 s 14))
    (hH : rd32 s 22 < 2147483648)
    (hsz : rd32 s 18 * rd32 s 22 * rd16 s 28 < 4294967296)
    (hrows : rd32 s 10 + rd32 s 22 * ((rd32 s 18 * (rd16 s 28 / 8) + 3) / 4 * 4) ≤ s.length) :
    ∃ img, BitmapFile.ofFile bmpfh0 bmpih0 (some s) = .ok img ∧
      img.bmpData.length = rd32 s 18 * rd32 s 22 * (rd16 s 28 / 8) ∧
      ∀ y i, y < rd32 s 22 → i < rd32 s 18 * (rd16 s 28 / 8) →
        img.bmpData[y * (rd32 s 18 * (rd16 s 28 / 8)) + i]? =
          s[rd32 s 10 + y * ((rd32 s 18 * (rd16 s 28 / 8) + 3) / 4 * 4) + i]? := by
  obtain ⟨f1, f2, f3, f4⟩ := decoded_fields bmpfh0 bmpih0 s hlen
  rw [ofFile_eq_readPixels bmpfh0 bmpih0 s hlen hsig (by
    rcases hbpp with h | h
    · left; rw [h]; decide
    · exact Or.inr h.2)]
  have := readPixels_spec {} (BitmapFileHeader.set (blit bmpfh0 0 ((s.drop 0).take 14)))
    (BitmapInfoHeader.set (blit bmpih0 0 ((s.drop 14).take 40))) s 54
    (by rw [f4]; rcases hbpp with h | h; exact Or.inl h; exact Or.inr h.1)
    (by rw [f3]; exact hH) (by rw [f2, f3, f4]; exact hsz)
    (by rw [f1, f2, f3, f4]; exact hrows)
  rw [f1, f2, f3, f4] at this
  exact this

/-- Witness of C6: a 24-bit file of 2 x 2 pixels, 2 padding bytes after each row. -/
theorem BitmapFile.ofFile_pixels_witness :
    ∃ img, BitmapFile.ofFile [] [] (some smallStream) = .ok img ∧
      img.bmpData.length = rd32 smallStream 18 * rd32 smallStream 22
        * (rd16 smallStream 28 / 8) ∧
      ∀ y i, y < rd32 smallStream 22 → i < rd32 smallStream 18 * (rd16 smallStream 28 / 8) →
        img.bmpData[y * (rd32 smallStream 18 * (rd16 smallStream 28 / 8)) + i]? =
          smallStream[rd32 smallStream 10
            + y * ((rd32 smallStream 18 * (rd16 smallStream 28 / 8) + 3) / 4 * 4) + i]? :=
  BitmapFile.ofFile_pixels [] [] smallStream (by decide) (by decide) (by decide) (by decide)
    (by decide) (by decide)

/-- Counterexample to C6 as stated: a 32-bit file of `2^27` x 1 pixels with all of its
`2^29` pixel bytes.  The size `biWidth * biHeight * biBitCount = 2^32` wraps to 0 before
the division by 8, so the decoded buffer is empty instead of `2^29` bytes long. -/
theorem BitmapFile.ofFile_size_overflow :
    (wideStream.take 2 = [0x42, 0x4D] ∧ rd16 wideStream 28 = 32 ∧ rd32 wideStream 14 = 124 ∧
      rd32 wideStream 10 = 138 ∧ rd32 wideStream 18 = 134217728 ∧ rd32 wideStream 22 = 1 ∧
      wideStream.length = 138 + 1 * ((134217728 * (32 / 8) + 3) / 4 * 4)) ∧
    ∃ img, BitmapFile.ofFile (List.replicate 14 0) (List.replicate 40 0) (some wideStream)
        = .ok img ∧ img.bmpData.length = 0 ∧ 134217728 * 1 * (32 / 8) ≠ 0 := by
  obtain ⟨g1, g2, g3, g4, g5, g6, g7⟩ := wideHeader_fields (List.replicate 536870912 0)
  rw [List.length_replicate] at g7
  refine ⟨⟨g1, g2, g3, g4, g5, g6, g7⟩, ?_⟩
  obtain ⟨img, h1, h2⟩ := ofFile_wideHeader (List.replicate 14 0) (List.replicate 40 0)
    (List.replicate 536870912 0)
  exact ⟨img, h1, by rw [h2]; rfl, by decide⟩

/-- Claim C7 fails on the code.  `maskedStream` is a 32-bit file with a valid signature and
`biSize = 124` whose color header has the alpha mask 0; the decoder returns an image
(pixel data `[1, 2, 3, 4]`, the member `bmpColorHeader` still at its initialisers).
For every input the decoder never fails with `UnsupportedFormat`: `check()` runs on the
member, into which nothing is read. -/
theorem BitmapFile.ofFile_colorMask_not_validated :
    (rd16 maskedStream 0 = BMPT ∧ rd16 maskedStream 28 = 32 ∧ 124 ≤ rd32 maskedStream 14 ∧
      rd32 maskedStream (54 + 12) ≠ 0xFF000000) ∧
    (∃ img, BitmapFile.ofFile (List.replicate 14 0) (List.replicate 40 0) (some maskedStream)
        = .ok img ∧ img.bmpData = [1, 2, 3, 4] ∧ img.bmpColorHeader.alpha_mask = 0xFF000000) ∧
    (∀ (bmpfh0 bmpih0 : List Nat) (file : Option (List Nat)),
      BitmapFile.ofFile bmpfh0 bmpih0 file ≠ .error .UnsupportedFormat) := by
  refine ⟨by decide, ⟨_, rfl, by decide, by decide⟩, ?_⟩
  intro a b f h
  have := ofFile_error h
  simp at this

/-- Claim C8 fails on the code.  `topDownStream` has a valid signature and the height field
`0xFFFFFFFF` (-1 as a signed integer); the decoder returns an image.  For every input
the decoder never fails with `UnsupportedOrientation`: `biHeight` is a `uint32_t`, so
the test `biHeight < 0` is never true. -/
theorem BitmapFile.ofFile_negative_height_accepted :
    (rd16 topDownStream 0 = BMPT ∧ rd32 topDownStream (14 + 8) = 0xFFFFFFFF) ∧
    (∃ img, BitmapFile.ofFile (List.replicate 14 0) (List.replicate 40 0) (some topDownStream)
        = .ok img ∧ img.bmpInfoHeader.biHeight = 0xFFFFFFFF ∧ img.bmpData = []) ∧
    (∀ (bmpfh0 bmpih0 : List Nat) (file : Option (List Nat)),
      BitmapFile.ofFile bmpfh0 bmpih0 file ≠ .error .UnsupportedOrientation) := by
  refine ⟨by decide, ⟨_, rfl, by decide, by decide⟩, ?_⟩
  intro a b f h
  have := ofFile_error h
  simp at this

/-- Claim C9.  For a stream with a valid signature that holds the fields up to
bits-per-pixel (30 bytes): with 32 bits per pixel the decoder fails with
`UnrecognizedFormat` when the declared `biSize` is below 124 and does not fail with
`UnrecognizedFormat` when it is at least 124; with any other value of bits-per-pixel
the decoder fails neither with `UnrecognizedFormat` nor with `UnsupportedFormat`,
whatever `biSize` is and whatever the member `bmpColorHeader` holds (so `check()` is not
consulted). -/
theorem BitmapFile.ofFile_infoHeaderSize (bmpfh0 bmpih0 s : List Nat) (hlen : 30 ≤ s.length)
    (hsig : s.take 2 = [0x42, 0x4D]) :
    (rd16 s 28 = 32 → rd32 s 14 < 124 →
      BitmapFile.ofFile bmpfh0 bmpih0 (some s) = .error .UnrecognizedFormat) ∧
    (rd16 s 28 = 32 → 124 ≤ rd32 s 14 →
      BitmapFile.ofFile bmpfh0 bmpih0 (some s) ≠ .error .UnrecognizedFormat) ∧
    (rd16 s 28 ≠ 32 → ∀ ch : BitmapColorHeader,
      BitmapFile.load ch bmpfh0 bmpih0 { bytes := s } ≠ .error .UnrecognizedFormat ∧
      BitmapFile.load ch bmpfh0 bmpih0 { bytes := s } ≠ .error .UnsupportedFormat) := by
  have hs : rd16 s 0 = BMPT := by rw [rd16_of_take_two s _ _ hsig]; rfl
  refine ⟨?_, ?_, ?_⟩
  · intro hb hsz
    simp only [BitmapFile.ofFile, load_eq _ _ _ _ (by omega) hs,
      readInfoHeader_result _ _ _ hlen, hb, if_true, ge_iff_le, Nat.not_le.mpr hsz, if_false]
  · intro hb hsz
    have hc : (({} : BitmapColorHeader).check) = .ok () := by decide
    simp only [BitmapFile.ofFile, load_eq _ _ _ _ (by omega) hs,
      readInfoHeader_result _ _ _ hlen, hb, if_true, ge_iff_le, hsz, hc]
    intro h
    have := readPixels_error h
    simp at this
  · intro hb ch
    simp only [load_eq _ _ _ _ (by omega) hs, readInfoHeader_result _ _ _ hlen, hb, if_false]
    constructor <;> intro h <;> have := readPixels_error h <;> simp at this

/-- Witness of C9: `maskedStream`, 32 bits per pixel with `biSize = 124`. -/
theorem BitmapFile.ofFile_infoHeaderSize_witness :
    (rd16 maskedStream 28 = 32 ∧ 124 ≤ rd32 maskedStream 14) ∧
    ((rd16 maskedStream 28 = 32 → rd32 maskedStream 14 < 124 →
        BitmapFile.ofFile [] [] (some maskedStream) = .error .UnrecognizedFormat) ∧
      (rd16 maskedStream 28 = 32 → 124 ≤ rd32 maskedStream 14 →
        BitmapFile.ofFile [] [] (some maskedStream) ≠ .error .UnrecognizedFormat) ∧
      (rd16 maskedStream 28 ≠ 32 → ∀ ch : BitmapColorHeader,
        BitmapFile.load ch [] [] { bytes := maskedStream } ≠ .error .UnrecognizedFormat ∧
        BitmapFile.load ch [] [] { bytes := maskedStream } ≠ .error .UnsupportedFormat)) :=
  ⟨by decide,
    BitmapFile.ofFile_infoHeaderSize [] [] maskedStream (by simp [maskedStream]) rfl⟩

/-- Claim C10.  `check()` succeeds if and only if the four masks and the color-space tag
have the supported values; otherwise it fails with `UnsupportedFormat`; the array
`unused` has no influence on the outcome. -/
theorem BitmapColorHeader.check_ok_iff (h : BitmapColorHeader) :
    (h.check = .ok () ↔
      h.red_mask = 0x00FF0000 ∧ h.green_mask = 0x0000FF00 ∧ h.blue_mask = 0x000000FF ∧
        h.alpha_mask = 0xFF000000 ∧ h.color_space_type = 0x73524742) ∧
    (h.check ≠ .ok () → h.check = .error .UnsupportedFormat) ∧
    (∀ u : List Nat, ({ h with unused := u } : BitmapColorHeader).check = h.check) := by
  refine ⟨?_, ?_, ?_⟩
  · simp only [BitmapColorHeader.check]
    split_ifs with h1 h2
    · simp only [false_iff, reduceCtorEq]
      rcases h1 with h1 | h1 | h1 | h1 <;> intro hh <;> simp_all
    · simp only [false_iff, reduceCtorEq]
      intro hh; simp_all
    · simp only [true_iff]
      simp only [not_or, not_not] at h1 h2
      simp_all
  · simp only [BitmapColorHeader.check]
    split_ifs <;> simp
  · intro u
    simp only [BitmapColorHeader.check]

/-- Claim C11 (amended).  For every image `img` that the decoder returns for a stream
`s`: `biSize = 40` and `bfOffBits = 54` when bits-per-pixel is not 32, `biSize = 124` and
`bfOffBits = 138` when it is 32; for 24 and 32 bits per pixel with `width * height *
bits-per-pixel < 2^32`, `bfSize = bfOffBits + height * aligned_stride`; the stream with
its stored `bfSize` (bytes 2..5) replaced by any four bytes decodes to the same image
when the pixel data starts at or after byte 6 (or the stream ends inside the file
header); and when bits-per-pixel is not 32, the stream with its stored `biSize` (bytes
14..17) replaced decodes to the same image when the pixel data starts at or after byte 18
(or the stream ends inside the headers). -/
theorem BitmapFile.ofFile_derived_fields (bmpfh0 bmpih0 s : List Nat) (img : BitmapFile)
    (h : BitmapFile.ofFile bmpfh0 bmpih0 (some s) = .ok img) :
    (img.bmpInfoHeader.biBitCount ≠ 32 →
      img.bmpInfoHeader.biSize = 40 ∧ img.bmpFileHeader.bfOffBits = 54) ∧
    (img.bmpInfoHeader.biBitCount = 32 →
      img.bmpInfoHeader.biSize = 124 ∧ img.bmpFileHeader.bfOffBits = 138) ∧
    (img.bmpInfoHeader.biBitCount = 24 ∨ img.bmpInfoHeader.biBitCount = 32 →
      img.bmpInfoHeader.biWidth * img.bmpInfoHeader.biHeight * img.bmpInfoHeader.biBitCount
        < 4294967296 →
      img.bmpFileHeader.bfSize = img.bmpFileHeader.bfOffBits + img.bmpInfoHeader.biHeight *
        ((img.bmpInfoHeader.biWidth * (img.bmpInfoHeader.biBitCount / 8) + 3) / 4 * 4)) ∧
    (∀ p v1 v2 t : List Nat, s = p ++ v1 ++ t → p.length = 2 → v1.length = 4 →
      v2.length = 4 → (s.length < 14 ∨ 6 ≤ rd32 s 10) →
      BitmapFile.ofFile bmpfh0 bmpih0 (some (p ++ v2 ++ t)) = .ok img) ∧
    (∀ p v1 v2 t : List Nat, s = p ++ v1 ++ t → p.length = 14 → v1.length = 4 →
      v2.length = 4 → img.bmpInfoHeader.biBitCount ≠ 32 → (s.length < 54 ∨ 18 ≤ rd32 s 10) →
      BitmapFile.ofFile bmpfh0 bmpih0 (some (p ++ v2 ++ t)) = .ok img) := by
  obtain ⟨a1, a2, a3⟩ := ofFile_derived bmpfh0 bmpih0 (some s) img h
  refine ⟨a1, a2, a3, ?_, ?_⟩
  · intro p v1 v2 t hs hp h1 h2 hoff
    subst hs
    rw [← ofFile_bfSize_irrelevant bmpfh0 bmpih0 p v1 v2 t hp h1 h2 hoff]
    exact h
  · intro p v1 v2 t hs hp h1 h2 hb hoff
    subst hs
    exact ofFile_biSize_irrelevant bmpfh0 bmpih0 p v1 v2 t hp h1 h2 img h hb hoff

/-- Witness of C11: `smallStream` decodes to `smallImage`, with `biSize = 40`,
`bfOffBits = 54` and `bfSize = 54 + 2 * 8`; with the stored `bfSize` replaced by
`[9, 9, 9, 9]`, or the stored `biSize` by `[7, 7, 7, 7]`, it decodes to the same image. -/
theorem BitmapFile.ofFile_derived_fields_witness :
    BitmapFile.ofFile [] [] (some smallStream) = .ok smallImage ∧
    (smallImage.bmpInfoHeader.biSize = 40 ∧ smallImage.bmpFileHeader.bfOffBits = 54) ∧
    smallImage.bmpFileHeader.bfSize = 54 + 2 * 8 ∧
    BitmapFile.ofFile [] [] (some (smallStream.take 2 ++ [9, 9, 9, 9] ++ smallStream.drop 6))
      = .ok smallImage ∧
    BitmapFile.ofFile [] [] (some (smallStream.take 14 ++ [7, 7, 7, 7] ++ smallStream.drop 18))
      = .ok smallImage :=
  have w := BitmapFile.ofFile_derived_fields [] [] smallStream smallImage (by decide)
  ⟨by decide, w.1 (by decide), (w.2.2.1 (by decide) (by decide)).trans (by decide),
    w.2.2.2.1 (smallStream.take 2) ((smallStream.drop 2).take 4) [9, 9, 9, 9]
      (smallStream.drop 6) (by decide) (by decide) (by decide) (by decide) (by decide),
    w.2.2.2.2 (smallStream.take 14) ((smallStream.drop 14).take 4) [7, 7, 7, 7]
      (smallStream.drop 18) (by decide) (by decide) (by decide) (by decide) (by decide)
      (by decide)⟩

/-- Counterexample to C11 as stated.  `wideStream` (32 bits per pixel, `2^27` x 1 pixels,
all pixel bytes present) is accepted, with `bfSize = 138` while `bfOffBits + height *
aligned_stride` is `138 + 2^29`: the size `width * height * bits-per-pixel = 2^32` wraps.
`selfStream 62` and `selfStream 63` are accepted 24-bit inputs that differ only in the
stored `bfSize` (byte 2), with `bfOffBits = 0`: the pixel row is read from bytes 0..5 of
the file, so the two decoded buffers differ. -/
theorem BitmapFile.ofFile_derived_fields_fail :
    (∃ img, BitmapFile.ofFile (List.replicate 14 0) (List.replicate 40 0) (some wideStream)
        = .ok img ∧ img.bmpInfoHeader.biBitCount = 32 ∧
      img.bmpFileHeader.bfSize = 138 ∧
      img.bmpFileHeader.bfOffBits + img.bmpInfoHeader.biHeight *
        ((img.bmpInfoHeader.biWidth * (img.bmpInfoHeader.biBitCount / 8) + 3) / 4 * 4)
        = 138 + 536870912) ∧
    ((selfStream 62).take 2 = (selfStream 63).take 2 ∧
      (selfStream 62).drop 6 = (selfStream 63).drop 6 ∧
      (selfStream 62).length = (selfStream 63).length) ∧
    ∃ img1 img2, BitmapFile.ofFile (List.replicate 14 0) (List.replicate 40 0)
        (some (selfStream 62)) = .ok img1 ∧
      BitmapFile.ofFile (List.replicate 14 0) (List.replicate 40 0)
        (some (selfStream 63)) = .ok img2 ∧
      img1.bmpInfoHeader.biBitCount = 24 ∧ img2.bmpInfoHeader.biBitCount = 24 ∧
      img1.bmpData = [0x42, 0x4D, 62, 0, 0, 0] ∧ img2.bmpData = [0x42, 0x4D, 63, 0, 0, 0] ∧
      img1 ≠ img2 := by
  refine ⟨?_, by decide, _, _, rfl, rfl, by decide, by decide, by decide, by decide, by decide⟩
  obtain ⟨img, h1, _, h3, h4, h5, h6, h7⟩ := ofFile_wideHeader_fields (List.replicate 14 0)
    (List.replicate 40 0) (List.replicate 536870912 0)
  exact ⟨img, h1, h5, h3, by rw [h4, h5, h6, h7]⟩

/-- Claim C12.  For positive `w` and `h` with `w * h * bits-per-pixel < 2^32` (32 bits with
alpha, 24 without; this is the largest product that the constructor and the decoder
form), the blank-image constructor succeeds and sets: with alpha, `biSize = 124`,
`bfOffBits = 138`, compression 3 and `bfSize = 138 + 4 * w * h`; without alpha,
`biSize = 40`, `bfOffBits = 54`, compression 0 and `bfSize = 54 + h * A` with `A` the
smallest multiple of 4 that is at least `3 * w`.  Every stream with both headers, a valid
signature and the same width, height and bits-per-pixel (and `biSize ≥ 124` for 32 bits)
is decoded to an image with this same `bfSize`. -/
theorem BitmapFile.blank_headers (w h : Nat) (has_alpha : Bool) (hw : 0 < w) (hh : 0 < h)
    (hsz : w * h * (if has_alpha then 32 else 24) < 4294967296) :
    ∃ img, BitmapFile.blank (w : Int) (h : Int) has_alpha = .ok img ∧
      (has_alpha = true →
        img.bmpInfoHeader.biSize = 124 ∧ img.bmpFileHeader.bfOffBits = 138 ∧
        img.bmpInfoHeader.biCompression = 3 ∧ img.bmpFileHeader.bfSize = 138 + 4 * w * h) ∧
      (has_alpha = false →
        img.bmpInfoHeader.biSize = 40 ∧ img.bmpFileHeader.bfOffBits = 54 ∧
        img.bmpInfoHeader.biCompression = 0 ∧
        ∃ A, img.bmpFileHeader.bfSize = 54 + h * A ∧ A % 4 = 0 ∧ 3 * w ≤ A ∧
          ∀ m, m % 4 = 0 → 3 * w ≤ m → A ≤ m) ∧
      ∀ bmpfh0 bmpih0 s : List Nat, 54 ≤ s.length → s.take 2 = [0x42, 0x4D] →
        rd32 s 18 = w → rd32 s 22 = h → rd16 s 28 = (if has_alpha then 32 else 24) →
        (has_alpha = true → 124 ≤ rd32 s 14) →
        ∃ img2, BitmapFile.ofFile bmpfh0 bmpih0 (some s) = .ok img2 ∧
          img2.bmpFileHeader.bfSize = img.bmpFileHeader.bfSize := by
  have hw' : ¬ ((w : Int) ≤ 0 ∨ (h : Int) ≤ 0) := by omega
  have hle : w ≤ w * h := Nat.le_mul_of_pos_right w hh
  have hle2 : h ≤ w * h := Nat.le_mul_of_pos_left h hw
  have hwh : w * h * 24 < 4294967296 := by
    cases has_alpha
    · simpa using hsz
    · simp only [if_true] at hsz
      omega
  have e2 : u32OfInt (h : Int) = h := by
    rw [u32OfInt_natCast, u32_of_lt (by omega)]
  have hdec : ∀ (bmpfh0 bmpih0 s : List Nat), 54 ≤ s.length → s.take 2 = [0x42, 0x4D] →
      rd32 s 18 = w → rd32 s 22 = h → rd16 s 28 = (if has_alpha then 32 else 24) →
      (has_alpha = true → 124 ≤ rd32 s 14) →
      ∃ img2, BitmapFile.ofFile bmpfh0 bmpih0 (some s) = .ok img2 ∧
        img2.bmpFileHeader.bfSize = (if has_alpha then 138 else 54)
          + h * ((w * (if has_alpha then 4 else 3) + 3) / 4 * 4) := by
    intro bmpfh0 bmpih0 s hlen hsig hW hH hB hS
    obtain ⟨f1, f2, f3, f4⟩ := decoded_fields bmpfh0 bmpih0 s hlen
    rw [ofFile_eq_readPixels bmpfh0 bmpih0 s hlen hsig (by
      cases has_alpha with
      | true => exact Or.inr (hS rfl)
      | false => left; rw [hB]; decide)]
    obtain ⟨img2, k1, k2, _⟩ := readPixels_gen {}
      (BitmapFileHeader.set (blit bmpfh0 0 ((s.drop 0).take 14)))
      (BitmapInfoHeader.set (blit bmpih0 0 ((s.drop 14).take 40))) s 54
      (by rw [f4, hB]; cases has_alpha <;> simp)
      (by rw [f2, f3, f4, hW, hH, hB]; exact hsz)
    refine ⟨img2, k1, ?_⟩
    rw [k2, f2, f3, f4, hW, hH, hB]
    cases has_alpha <;> simp
  cases has_alpha with
  | true =>
    simp only [if_true] at hsz hdec
    have e1 : u32OfInt ((w : Int) * 4) = w * 4 := by
      have : ((w : Int) * 4) = ((w * 4 : Nat) : Int) := by push_cast; ring
      rw [this, u32OfInt_natCast, u32_of_lt (by omega)]
    have e3 : u32 (w * 4 * h) = w * h * 4 := by
      have : w * 4 * h = w * h * 4 := by ring
      rw [this, u32_of_lt (by omega)]
    have e4 : u32 (BMPFileHeaderSize + BMPInfoHeaderSize + sizeofBitmapColorHeader + w * h * 4)
        = 138 + 4 * w * h := by
      rw [u32_of_lt (by
        simp only [BMPFileHeaderSize, BMPInfoHeaderSize, sizeofBitmapColorHeader]; omega)]
      simp only [BMPFileHeaderSize, BMPInfoHeaderSize, sizeofBitmapColorHeader]
      ring
    have hal : (w * 4 + 3) / 4 * 4 = w * 4 := by omega
    refine ⟨_, by simp only [BitmapFile.blank, hw', if_false, if_true]; rfl, ?_, ?_, ?_⟩
    · intro _
      refine ⟨rfl, rfl, rfl, ?_⟩
      simp only [e1, e2, e3, e4]
    · intro hc
      exact absurd hc (by decide)
    · intro bmpfh0 bmpih0 s hlen hsig hW hH hB hS
      obtain ⟨img2, k1, k2⟩ := hdec bmpfh0 bmpih0 s hlen hsig hW hH hB (fun _ => hS rfl)
      refine ⟨img2, k1, ?_⟩
      rw [k2, hal]
      simp only [e1, e2, e3, e4]
      ring
  | false =>
    simp only [Bool.false_eq_true, if_false] at hsz hdec
    have e1 : u32OfInt ((w : Int) * 3) = w * 3 := by
      have : ((w : Int) * 3) = ((w * 3 : Nat) : Int) := by push_cast; ring
      rw [this, u32OfInt_natCast, u32_of_lt (by omega)]
    have e3 : u32 (w * 3 * h) = w * h * 3 := by
      have : w * 3 * h = w * h * 3 := by ring
      rw [this, u32_of_lt (by omega)]
    have hr := make_stride_aligned_four (w * 3) (by omega)
    have hpad : u32 ((w * 3 + 3) / 4 * 4 + 4294967296 - w * 3) = (w * 3 + 3) / 4 * 4 - w * 3 := by
      unfold u32
      omega
    have hsum : h * ((w * 3 + 3) / 4 * 4) = w * h * 3 + h * ((w * 3 + 3) / 4 * 4 - w * 3) := by
      have : h * (w * 3) = w * h * 3 := by ring
      rw [← this, ← Nat.mul_add]
      congr 1
      omega
    have hpadle : h * ((w * 3 + 3) / 4 * 4 - w * 3) ≤ h * 3 := Nat.mul_le_mul_left _ (by omega)
    have e4 : u32 (BMPFileHeaderSize + BMPInfoHeaderSize + w * h * 3
        + h * ((w * 3 + 3) / 4 * 4 - w * 3)) = 54 + h * ((w * 3 + 3) / 4 * 4) := by
      simp only [BMPFileHeaderSize, BMPInfoHeaderSize]
      rw [u32_of_lt (by omega), hsum]
      omega
    refine ⟨_, by simp only [BitmapFile.blank, hw', if_false, Bool.false_eq_true, e1, hr]; rfl,
      ?_, ?_, ?_⟩
    · intro hc
      exact absurd hc (by decide)
    · intro _
      refine ⟨rfl, rfl, rfl, (w * 3 + 3) / 4 * 4, ?_, by omega, by omega, fun m h1 h2 => by omega⟩
      simp only [e2, e3, hpad, e4]
    · intro bmpfh0 bmpih0 s hlen hsig hW hH hB hS
      obtain ⟨img2, k1, k2⟩ := hdec bmpfh0 bmpih0 s hlen hsig hW hH hB (fun hf => hf.elim)
      refine ⟨img2, k1, ?_⟩
      rw [k2]
      simp only [e2, e3, hpad, e4]

/-- Witness of C12: a 2 x 2 image without alpha; `smallStream` is a file of that width,
height and mode. -/
theorem BitmapFile.blank_headers_witness :
    ∃ img, BitmapFile.blank ((2 : Nat) : Int) ((2 : Nat) : Int) false = .ok img ∧
      img.bmpFileHeader.bfSize = 54 + 2 * 8 ∧
      ∃ img2, BitmapFile.ofFile [] [] (some smallStream) = .ok img2 ∧
        img2.bmpFileHeader.bfSize = img.bmpFileHeader.bfSize := by
  obtain ⟨img, h1, _, h3, h4⟩ := BitmapFile.blank_headers 2 2 false (by decide) (by decide)
    (by decide)
  obtain ⟨_, _, _, A, hA, hm, hle, hmin⟩ := h3 rfl
  have : A = 8 := by
    have := hmin 8 (by decide) (by decide)
    omega
  subst this
  exact ⟨img, h1, hA, h4 [] [] smallStream (by decide) (by decide) (by decide) (by decide)
    (by decide) (by decide)⟩

/-- Claim C13.  For header values whose members fit their C++ types (bits-per-pixel any
16-bit value), byte buffers of the wire sizes 14 and 40, and any initial content of the
array that `get` allocates: `set (get h) = h` and `get (set b) = b` for the file header
and for the info header; the encoded buffer does not depend on the initial content of
the array (every byte is determined by a field); and two values with the same encoding
are equal (no field overwrites the bytes of another). -/
theorem header_codecs_inverse (h : BitmapFileHeader) (g : BitmapInfoHeader)
    (b c r14 r40 : List Nat) (hh : h.fits) (hg : g.fits)
    (hb : b.length = 14) (hbb : ∀ x ∈ b, x < 256)
    (hc : c.length = 40) (hcb : ∀ x ∈ c, x < 256)
    (hr14 : r14.length = 14) (hr40 : r40.length = 40) :
    BitmapFileHeader.set (h.get r14) = h ∧ (BitmapFileHeader.set b).get r14 = b ∧
    BitmapInfoHeader.set (g.get r40) = g ∧ (BitmapInfoHeader.set c).get r40 = c ∧
    (h.get r14).length = 14 ∧ (g.get r40).length = 40 ∧
    (∀ r : List Nat, r.length = 14 → h.get r = h.get r14) ∧
    (∀ r : List Nat, r.length = 40 → g.get r = g.get r40) ∧
    (∀ h2 : BitmapFileHeader, h2.fits → h2.get r14 = h.get r14 → h2 = h) ∧
    (∀ g2 : BitmapInfoHeader, g2.fits → g2.get r40 = g.get r40 → g2 = g) := by
  have sg : ∀ k : BitmapFileHeader, k.fits → BitmapFileHeader.set (k.get r14) = k :=
    fun k hk => fileHeader_set_get k r14 hr14 hk.1 hk.2.1 hk.2.2.1 hk.2.2.2.1 hk.2.2.2.2
  have sgi : ∀ k : BitmapInfoHeader, k.fits → BitmapInfoHeader.set (k.get r40) = k :=
    fun k hk => infoHeader_set_get k r40 hr40 hk.1 hk.2.1 hk.2.2.1 hk.2.2.2.1 hk.2.2.2.2.1
      hk.2.2.2.2.2.1 hk.2.2.2.2.2.2.1 hk.2.2.2.2.2.2.2.1 hk.2.2.2.2.2.2.2.2.1
      hk.2.2.2.2.2.2.2.2.2.1 hk.2.2.2.2.2.2.2.2.2.2
  refine ⟨sg h hh, fileHeader_get_set b r14 hb hbb hr14, sgi g hg,
    infoHeader_get_set c r40 hc hcb hr40, ?_, ?_, ?_, ?_, ?_, ?_⟩
  · rw [fileHeader_get_eq h r14 hr14]; rfl
  · rw [infoHeader_get_eq g r40 hr40]; rfl
  · intro r hr
    rw [fileHeader_get_eq h r hr, fileHeader_get_eq h r14 hr14]
  · intro r hr
    rw [infoHeader_get_eq g r hr, infoHeader_get_eq g r40 hr40]
  · intro h2 hh2 he
    rw [← sg h2 hh2, he, sg h hh]
  · intro g2 hg2 he
    rw [← sgi g2 hg2, he, sgi g hg]

/-- Witness of C13: the headers of `smallImage` and the 14 + 40 header bytes of
`smallStream`. -/
theorem header_codecs_inverse_witness :
    (smallImage.bmpFileHeader.fits ∧ smallImage.bmpInfoHeader.fits ∧
      (smallStream.take 14).length = 14 ∧ ((smallStream.drop 14).take 40).length = 40) ∧
    BitmapFileHeader.set (smallImage.bmpFileHeader.get (List.replicate 14 0))
      = smallImage.bmpFileHeader ∧
    (BitmapFileHeader.set (smallStream.take 14)).get (List.replicate 14 0)
      = smallStream.take 14 ∧
    BitmapInfoHeader.set (smallImage.bmpInfoHeader.get (List.replicate 40 0))
      = smallImage.bmpInfoHeader ∧
    (BitmapInfoHeader.set ((smallStream.drop 14).take 40)).get (List.replicate 40 0)
      = (smallStream.drop 14).take 40 :=
  have w := header_codecs_inverse smallImage.bmpFileHeader smallImage.bmpInfoHeader
    (smallStream.take 14) ((smallStream.drop 14).take 40) (List.replicate 14 0)
    (List.replicate 40 0) (by decide) (by decide) (by decide) (by decide) (by decide)
    (by decide) (by decide) (by decide)
  ⟨by decide, w.1, w.2.1, w.2.2.1, w.2.2.2.1⟩

/-- Claim C14.  `BitmapFileHeader.set` takes `bfType` from bytes 0-1, `bfSize` from 2-5,
the reserved fields from 6-7 and 8-9 and `bfOffBits` from 10-13; `BitmapInfoHeader.set`
takes `biSize` from bytes 0-3, `biWidth` from 4-7, `biHeight` from 8-11, `biPlanes` from
12-13, `biBitCount` from 14-15, `biCompression` from 16-19, `biSizeImage` from 20-23, the
resolutions from 24-27 and 28-31, `biClrUsed` from 32-35 and `biClrImportant` from 36-39,
all little-endian.  The `get` functions store byte `k` of each field (`field / 256 ^ k %
256`) at the same offset plus `k`, in buffers of 14 and 40 bytes. -/
theorem header_layout (h : BitmapFileHeader) (g : BitmapInfoHeader) (b c r14 r40 : List Nat)
    (hr14 : r14.length = 14) (hr40 : r40.length = 40) :
    BitmapFileHeader.set b =
      { bfType := b.getD 0 0 + 256 * b.getD 1 0
        bfSize := b.getD 2 0 + 256 * b.getD 3 0 + 65536 * b.getD 4 0 + 16777216 * b.getD 5 0
        bfReserved1 := b.getD 6 0 + 256 * b.getD 7 0
        bfReserved2 := b.getD 8 0 + 256 * b.getD 9 0
        bfOffBits :=
          b.getD 10 0 + 256 * b.getD 11 0 + 65536 * b.getD 12 0 + 16777216 * b.getD 13 0 } ∧
    BitmapInfoHeader.set c =
      { biSize := c.getD 0 0 + 256 * c.getD 1 0 + 65536 * c.getD 2 0 + 16777216 * c.getD 3 0
        biWidth := c.getD 4 0 + 256 * c.getD 5 0 + 65536 * c.getD 6 0 + 16777216 * c.getD 7 0
        biHeight :=
          c.getD 8 0 + 256 * c.getD 9 0 + 65536 * c.getD 10 0 + 16777216 * c.getD 11 0
        biPlanes := c.getD 12 0 + 256 * c.getD 13 0
        biBitCount := c.getD 14 0 + 256 * c.getD 15 0
        biCompression :=
          c.getD 16 0 + 256 * c.getD 17 0 + 65536 * c.getD 18 0 + 16777216 * c.getD 19 0
        biSizeImage :=
          c.getD 20 0 + 256 * c.getD 21 0 + 65536 * c.getD 22 0 + 16777216 * c.getD 23 0
        biXPelsPerMeter :=
          c.getD 24 0 + 256 * c.getD 25 0 + 65536 * c.getD 26 0 + 16777216 * c.getD 27 0
        biYPelsPerMeter :=
          c.getD 28 0 + 256 * c.getD 29 0 + 65536 * c.getD 30 0 + 16777216 * c.getD 31 0
        biClrUsed :=
          c.getD 32 0 + 256 * c.getD 33 0 + 65536 * c.getD 34 0 + 16777216 * c.getD 35 0
        biClrImportant :=
          c.getD 36 0 + 256 * c.getD 37 0 + 65536 * c.getD 38 0 + 16777216 * c.getD 39 0 } ∧
    ((h.get r14).length = 14 ∧
      (∀ k, k < 2 → (h.get r14)[0 + k]? = some (h.bfType / 256 ^ k % 256)) ∧
      (∀ k, k < 4 → (h.get r14)[2 + k]? = some (h.bfSize / 256 ^ k % 256)) ∧
      (∀ k, k < 2 → (h.get r14)[6 + k]? = some (h.bfReserved1 / 256 ^ k % 256)) ∧
      (∀ k, k < 2 → (h.get r14)[8 + k]? = some (h.bfReserved2 / 256 ^ k % 256)) ∧
      (∀ k, k < 4 → (h.get r14)[10 + k]? = some (h.bfOffBits / 256 ^ k % 256))) ∧
    ((g.get r40).length = 40 ∧
      (∀ k, k < 4 → (g.get r40)[0 + k]? = some (g.biSize / 256 ^ k % 256)) ∧
      (∀ k, k < 4 → (g.get r40)[4 + k]? = some (g.biWidth / 256 ^ k % 256)) ∧
      (∀ k, k < 4 → (g.get r40)[8 + k]? = some (g.biHeight / 256 ^ k % 256)) ∧
      (∀ k, k < 2 → (g.get r40)[12 + k]? = some (g.biPlanes / 256 ^ k % 256)) ∧
      (∀ k, k < 2 → (g.get r40)[14 + k]? = some (g.biBitCount / 256 ^ k % 256)) ∧
      (∀ k, k < 4 → (g.get r40)[16 + k]? = some (g.biCompression / 256 ^ k % 256)) ∧
      (∀ k, k < 4 → (g.get r40)[20 + k]? = some (g.biSizeImage / 256 ^ k % 256)) ∧
      (∀ k, k < 4 → (g.get r40)[24 + k]? = some (g.biXPelsPerMeter / 256 ^ k % 256)) ∧
      (∀ k, k < 4 → (g.get r40)[28 + k]? = some (g.biYPelsPerMeter / 256 ^ k % 256)) ∧
      (∀ k, k < 4 → (g.get r40)[32 + k]? = some (g.biClrUsed / 256 ^ k % 256)) ∧
      (∀ k, k < 4 → (g.get r40)[36 + k]? = some (g.biClrImportant / 256 ^ k % 256))) := by
  refine ⟨rfl, rfl, ?_, ?_⟩
  · rw [fileHeader_get_eq h r14 hr14]
    refine ⟨rfl, ?_, ?_, ?_, ?_, ?_⟩ <;> intro k hk <;> interval_cases k <;> simp
  · rw [infoHeader_get_eq g r40 hr40]
    refine ⟨rfl, ?_, ?_, ?_, ?_, ?_, ?_, ?_, ?_, ?_, ?_, ?_⟩ <;> intro k hk <;>
      interval_cases k <;> simp

/-- Witness of C14: the header bytes of `smallStream` and the headers of `smallImage`. -/
theorem header_layout_witness :
    ((List.replicate 14 0).length = 14 ∧ (List.replicate 40 0).length = 40) ∧
    (BitmapFileHeader.set (smallStream.take 14)).bfOffBits = 54 ∧
    (BitmapInfoHeader.set ((smallStream.drop 14).take 40)).biBitCount = 24 ∧
    (smallImage.bmpFileHeader.get (List.replicate 14 0))[10 + 0]? = some 54 ∧
    (smallImage.bmpInfoHeader.get (List.replicate 40 0))[14 + 0]? = some 24 :=
  have w := header_layout smallImage.bmpFileHeader smallImage.bmpInfoHeader
    (smallStream.take 14) ((smallStream.drop 14).take 40) (List.replicate 14 0)
    (List.replicate 40 0) (by decide) (by decide)
  ⟨by decide, by rw [w.1]; decide, by rw [w.2.1]; decide,
    (w.2.2.1.2.2.2.2.2 0 (by decide)).trans (by decide),
    (w.2.2.2.2.2.2.2.2.1 0 (by decide)).trans (by decide)⟩

/-- Claim C15 (amended).  For every stream with both headers and a valid signature,
whatever bits-per-pixel value from 1 up (1, 4 and 8 included) and whatever compression
value its info header declares: when `width * height * bits-per-pixel < 2^32` (and
`biSize ≥ 124` if bits-per-pixel is 32), the decoder does not reject the input; it returns
an image that keeps the declared bits-per-pixel and compression, with a buffer of
`width * height * bits-per-pixel / 8` bytes. -/
theorem BitmapFile.ofFile_mode_not_checked (bmpfh0 bmpih0 s : List Nat)
    (hlen : 54 ≤ s.length) (hsig : s.take 2 = [0x42, 0x4D])
    (hbpp : 1 ≤ rd16 s 28) (h32 : rd16 s 28 = 32 → 124 ≤ rd32 s 14)
    (hsz : rd32 s 18 * rd32 s 22 * rd16 s 28 < 4294967296) :
    ∃ img, BitmapFile.ofFile bmpfh0 bmpih0 (some s) = .ok img ∧
      img.bmpInfoHeader.biBitCount = rd16 s 28 ∧
      img.bmpInfoHeader.biCompression = rd32 s 30 ∧
      img.bmpData.length = rd32 s 18 * rd32 s 22 * rd16 s 28 / 8 := by
  obtain ⟨f1, f2, f3, f4⟩ := decoded_fields bmpfh0 bmpih0 s hlen
  have f5 : (BitmapInfoHeader.set (blit bmpih0 0 ((s.drop 14).take 40))).biCompression
      = rd32 s 30 := rd32_blit_read bmpih0 s 14 40 16 (by omega) (by omega)
  rw [ofFile_eq_readPixels bmpfh0 bmpih0 s hlen hsig (by
    by_cases h : rd16 s 28 = 32
    · exact Or.inr (h32 h)
    · exact Or.inl h)]
  obtain ⟨img, k1, k2⟩ := readPixels_total {}
    (BitmapFileHeader.set (blit bmpfh0 0 ((s.drop 0).take 14)))
    (BitmapInfoHeader.set (blit bmpih0 0 ((s.drop 14).take 40))) s 54
    (by rw [f4]; exact hbpp) (by rw [f2, f3, f4]; exact hsz)
  obtain ⟨k3, _⟩ := readPixels_headers _ _ _ _ _ k1
  refine ⟨img, k1, ?_, ?_, ?_⟩
  · rw [k3]; exact f4
  · rw [k3]; exact f5
  · rw [k2, f2, f3, f4]

/-- Witness of C15: `paletteStream` declares 8 bits per pixel and compression 1. -/
theorem BitmapFile.ofFile_mode_not_checked_witness :
    (rd16 paletteStream 28 = 8 ∧ rd32 paletteStream 30 = 1) ∧
    ∃ img, BitmapFile.ofFile [] [] (some paletteStream) = .ok img ∧
      img.bmpInfoHeader.biBitCount = rd16 paletteStream 28 ∧
      img.bmpInfoHeader.biCompression = rd32 paletteStream 30 ∧
      img.bmpData.length = rd32 paletteStream 18 * rd32 paletteStream 22
        * rd16 paletteStream 28 / 8 :=
  ⟨by decide, BitmapFile.ofFile_mode_not_checked [] [] paletteStream (by decide) (by decide)
    (by decide) (by decide) (by decide)⟩

/-- Counterexample to C15 as stated: `paletteStream` has a valid signature, declares the
palette mode of 8 bits per pixel and the compressed format 1 (RLE8), and is decoded to an
image whose buffer is the 4 bytes at the declared offset. -/
theorem BitmapFile.ofFile_palette_accepted :
    (paletteStream.take 2 = [0x42, 0x4D] ∧ rd16 paletteStream 28 = 8 ∧
      rd32 paletteStream 30 = 1) ∧
    ∃ img, BitmapFile.ofFile (List.replicate 14 0) (List.replicate 40 0) (some paletteStream)
        = .ok img ∧ img.bmpData = [5, 6, 7, 8] ∧ img.bmpInfoHeader.biBitCount = 8 ∧
      img.bmpInfoHeader.biCompression = 1 :=
  ⟨by decide, _, rfl, by decide, by decide, by decide⟩

/-- Claim C16 (amended).  For every stream with both headers, a valid signature, 24 bits
per pixel (or 32 with `biSize ≥ 124`) and `width * height * bits-per-pixel < 2^32`,
whether or not it holds all `height * aligned_stride` bytes of pixel data: the decoder
returns an image, with a buffer of `width * height * channels` bytes in which byte
`y * row_stride + i` is the stream byte at `bfOffBits + y * aligned_stride + i` when the
stream has that byte, and 0 when the stream ends before it. -/
theorem BitmapFile.ofFile_truncated (bmpfh0 bmpih0 s : List Nat)
    (hlen : 54 ≤ s.length) (hsig : s.take 2 = [0x42, 0x4D])
    (hbpp : rd16 s 28 = 24 ∨ (rd16 s 28 = 32 ∧ 124 ≤ rd32 s 14))
    (hsz : rd32 s 18 * rd32 s 22 * rd16 s 28 < 4294967296) :
    ∃ img, BitmapFile.ofFile bmpfh0 bmpih0 (some s) = .ok img ∧
      img.bmpData.length = rd32 s 18 * rd32 s 22 * (rd16 s 28 / 8) ∧
      ∀ y i, y < rd32 s 22 → i < rd32 s 18 * (rd16 s 28 / 8) →
        img.bmpData[y * (rd32 s 18 * (rd16 s 28 / 8)) + i]? =
          some (s.getD (rd32 s 10 + y * ((rd32 s 18 * (rd16 s 28 / 8) + 3) / 4 * 4) + i) 0) := by
  obtain ⟨f1, f2, f3, f4⟩ := decoded_fields bmpfh0 bmpih0 s hlen
  rw [ofFile_eq_readPixels bmpfh0 bmpih0 s hlen hsig (by
    rcases hbpp with h | h
    · left; rw [h]; decide
    · exact Or.inr h.2)]
  obtain ⟨img, k1, _, k3, k4⟩ := readPixels_gen {}
    (BitmapFileHeader.set (blit bmpfh0 0 ((s.drop 0).take 14)))
    (BitmapInfoHeader.set (blit bmpih0 0 ((s.drop 14).take 40))) s 54
    (by rw [f4]; rcases hbpp with h | h; exact Or.inl h; exact Or.inr h.1)
    (by rw [f2, f3, f4]; exact hsz)
  rw [f1, f2, f3, f4] at k4
  rw [f2, f3, f4] at k3
  exact ⟨img, k1, k3, k4⟩

/-- Witness of C16: `truncatedStream` ends 5 bytes before the end of its pixel data. -/
theorem BitmapFile.ofFile_truncated_witness :
    truncatedStream.length < rd32 truncatedStream 10 + rd32 truncatedStream 22
      * ((rd32 truncatedStream 18 * (rd16 truncatedStream 28 / 8) + 3) / 4 * 4) ∧
    ∃ img, BitmapFile.ofFile [] [] (some truncatedStream) = .ok img ∧
      img.bmpData.length = rd32 truncatedStream 18 * rd32 truncatedStream 22
        * (rd16 truncatedStream 28 / 8) ∧
      ∀ y i, y < rd32 truncatedStream 22 →
        i < rd32 truncatedStream 18 * (rd16 truncatedStream 28 / 8) →
        img.bmpData[y * (rd32 truncatedStream 18 * (rd16 truncatedStream 28 / 8)) + i]? =
          some (truncatedStream.getD (rd32 truncatedStream 10
            + y * ((rd32 truncatedStream 18 * (rd16 truncatedStream 28 / 8) + 3) / 4 * 4)
            + i) 0) :=
  ⟨by decide, BitmapFile.ofFile_truncated [] [] truncatedStream (by decide) (by decide)
    (by decide) (by decide)⟩

/-- Counterexample to C16 as stated: `truncatedStream` has a valid signature and 24-bit
headers of a 2 x 2 image, and ends after 11 of the 16 bytes of pixel data; the decoder
does not fail, it returns an image whose second row is partly filled. -/
theorem BitmapFile.ofFile_truncated_accepted :
    (truncatedStream.take 2 = [0x42, 0x4D] ∧ rd16 truncatedStream 28 = 24 ∧
      rd32 truncatedStream 18 = 2 ∧ rd32 truncatedStream 22 = 2 ∧
      rd32 truncatedStream 10 = 54 ∧ truncatedStream.length = 65 ∧ 65 < 54 + 2 * 8) ∧
    ∃ img, BitmapFile.ofFile (List.replicate 14 0) (List.replicate 40 0)
        (some truncatedStream) = .ok img ∧
      img.bmpData = [1, 2, 3, 4, 5, 6, 7, 8, 9, 0, 0, 0] :=
  ⟨by decide, _, rfl, by decide⟩

/-- Claim C17 fails on the code.  The blank-image constructor never assigns `bfType`:
in every image that it produces `bfType` is 0 (the in-class initialiser), not `0x4D42`;
the reserved fields are 0.  For `blank 3 2 true` the 14 bytes that `get` encodes from the
file header are rejected by the signature check of the decoder. -/
theorem BitmapFile.blank_signature_missing :
    (∀ (width height : Int) (has_alpha : Bool) (img : BitmapFile),
      BitmapFile.blank width height has_alpha = .ok img →
        img.bmpFileHeader.bfType = 0 ∧ img.bmpFileHeader.bfType ≠ BMPT ∧
        img.bmpFileHeader.bfReserved1 = 0 ∧ img.bmpFileHeader.bfReserved2 = 0) ∧
    BitmapFile.blank 3 2 true = .ok img3x2 ∧
    img3x2.bmpFileHeader.get (List.replicate 14 0)
      = [0, 0, 162, 0, 0, 0, 0, 0, 0, 0, 138, 0, 0, 0] ∧
    readFileHeader (List.replicate 14 0)
        { bytes := img3x2.bmpFileHeader.get (List.replicate 14 0) }
      = .error .UnrecognizedFormat := by
  refine ⟨?_, by decide, by decide, by decide⟩
  intro width height has_alpha img h
  unfold BitmapFile.blank at h
  by_cases hd : width ≤ 0 ∨ height ≤ 0
  · simp [hd] at h
  · simp only [hd, if_false] at h
    cases has_alpha with
    | true =>
      simp only [if_true, Except.ok.injEq] at h
      subst h
      exact ⟨rfl, (by decide : (0 : Nat) ≠ BMPT), rfl, rfl⟩
    | false =>
      obtain ⟨r, hr⟩ := make_stride_aligned_four_some (u32OfInt (width * 3))
      simp only [Bool.false_eq_true, if_false, hr, Except.ok.injEq] at h
      subst h
      exact ⟨rfl, (by decide : (0 : Nat) ≠ BMPT), rfl, rfl⟩

/-- Claim C18 (amended).  For every stream with both headers that declares 24 or 32
bits per pixel, a 32-bit height and `width * height * bits-per-pixel < 2^32`: when the
decoder as written returns an image, the reference decoder that always reads row by row
with `aligned_stride = (width * channels + 3) / 4 * 4` returns an image with the same
pixel buffer and the same `bfSize`; when the decoder as written fails, the reference
decoder fails in the same way.  For 3 channels the width is a multiple of 4 exactly when
the row length is, and for 4 channels the padding of a row is 0. -/
theorem BitmapFile.ofFile_rowByRow (bmpfh0 bmpih0 s : List Nat) (hlen : 54 ≤ s.length)
    (hbpp : rd16 s 28 = 24 ∨ rd16 s 28 = 32) (hH : rd32 s 22 < 4294967296)
    (hsz : rd32 s 18 * rd32 s 22 * rd16 s 28 < 4294967296) :
    (∀ img, BitmapFile.ofFile bmpfh0 bmpih0 (some s) = .ok img →
      ∃ img2, BitmapFile.ofFileRowByRow bmpfh0 bmpih0 (some s) = .ok img2 ∧
        img2.bmpData = img.bmpData ∧
        img2.bmpFileHeader.bfSize = img.bmpFileHeader.bfSize) ∧
    (∀ e, BitmapFile.ofFile bmpfh0 bmpih0 (some s) = .error e →
      BitmapFile.ofFileRowByRow bmpfh0 bmpih0 (some s) = .error e) ∧
    (rd32 s 18 % 4 = 0 ↔ (rd32 s 18 * 3) % 4 = 0) ∧
    (rd32 s 18 * 4 + 3) / 4 * 4 - rd32 s 18 * 4 = 0 := by
  refine ⟨?_, ?_, by omega, by omega⟩
  · intro img h
    by_cases hgood : rd16 s 0 = BMPT ∧ ¬ (rd16 s 28 = 32 ∧ rd32 s 14 < 124)
    · obtain ⟨e1, e2⟩ := decoders_eq_pixel_stage bmpfh0 bmpih0 s hlen hgood.1 hgood.2
      obtain ⟨f1, f2, f3, f4⟩ := decoded_fields bmpfh0 bmpih0 s hlen
      obtain ⟨i1, k1, k2, k3, k4⟩ := readPixels_gen {}
        (BitmapFileHeader.set (blit bmpfh0 0 ((s.drop 0).take 14)))
        (BitmapInfoHeader.set (blit bmpih0 0 ((s.drop 14).take 40))) s 54
        (by rw [f4]; exact hbpp) (by rw [f2, f3, f4]; exact hsz)
      obtain ⟨i2, j1, j2, j3, j4⟩ := readPixelsRowByRow_gen {}
        (BitmapFileHeader.set (blit bmpfh0 0 ((s.drop 0).take 14)))
        (BitmapInfoHeader.set (blit bmpih0 0 ((s.drop 14).take 40))) s 54
        (by rw [f3]; exact hH)
        (by
          rw [f2, f3, f4]
          have : rd32 s 18 * rd32 s 22 * (rd16 s 28 / 8)
              ≤ rd32 s 18 * rd32 s 22 * rd16 s 28 :=
            Nat.mul_le_mul_left _ (Nat.div_le_self _ _)
          omega)
      rw [e1, k1] at h
      simp only [Except.ok.injEq] at h
      subst h
      refine ⟨i2, by rw [e2, j1], ?_, by rw [j2, k2]⟩
      rw [f2, f3, f4] at j3 j4 k3 k4
      apply buffer_ext i2.bmpData i1.bmpData (rd32 s 18 * (rd16 s 28 / 8)) (rd32 s 22)
        (by rw [j3]; ring) (by rw [k3]; ring)
      intro y i hy hi
      rw [j4 y i hy hi, k4 y i hy hi]
    · rw [(decoders_header_error bmpfh0 bmpih0 s hlen hgood).1] at h
      simp at h
  · intro e h
    by_cases hgood : rd16 s 0 = BMPT ∧ ¬ (rd16 s 28 = 32 ∧ rd32 s 14 < 124)
    · obtain ⟨e1, _⟩ := decoders_eq_pixel_stage bmpfh0 bmpih0 s hlen hgood.1 hgood.2
      obtain ⟨f1, f2, f3, f4⟩ := decoded_fields bmpfh0 bmpih0 s hlen
      obtain ⟨i1, k1, _⟩ := readPixels_gen {}
        (BitmapFileHeader.set (blit bmpfh0 0 ((s.drop 0).take 14)))
        (BitmapInfoHeader.set (blit bmpih0 0 ((s.drop 14).take 40))) s 54
        (by rw [f4]; exact hbpp) (by rw [f2, f3, f4]; exact hsz)
      rw [e1, k1] at h
      simp at h
    · obtain ⟨h1, h2⟩ := decoders_header_error bmpfh0 bmpih0 s hlen hgood
      rw [h1] at h
      simp only [Except.error.injEq] at h
      rw [← h]
      exact h2

/-- Witness of C18: `smallStream` (width 2, read row by row) is accepted by both
decoders, with the same buffer and `bfSize`. -/
theorem BitmapFile.ofFile_rowByRow_witness :
    BitmapFile.ofFile [] [] (some smallStream) = .ok smallImage ∧
    ∃ img2, BitmapFile.ofFileRowByRow [] [] (some smallStream) = .ok img2 ∧
      img2.bmpData = smallImage.bmpData ∧
      img2.bmpFileHeader.bfSize = smallImage.bmpFileHeader.bfSize :=
  ⟨by decide, (BitmapFile.ofFile_rowByRow [] [] smallStream (by decide) (by decide) (by decide)
    (by decide)).1 smallImage (by decide)⟩

/-- Counterexample to C18 as stated: `wideStream` is a 32-bit input of `2^27` x 1 pixels
with all `2^29` pixel bytes.  The decoder as written accepts it with an empty buffer and
`bfSize = 138` (the size `width * height * bits-per-pixel = 2^32` wraps to 0); the decoder
that always reads row by row returns a buffer of `2^29` bytes and `bfSize = 138 + 2^29`. -/
theorem BitmapFile.ofFile_rowByRow_differs :
    (wideStream.take 2 = [0x42, 0x4D] ∧ rd16 wideStream 28 = 32 ∧ rd32 wideStream 14 = 124) ∧
    (∃ img, BitmapFile.ofFile (List.replicate 14 0) (List.replicate 40 0) (some wideStream)
        = .ok img ∧ img.bmpData.length = 0 ∧ img.bmpFileHeader.bfSize = 138) ∧
    ∃ img2, BitmapFile.ofFileRowByRow (List.replicate 14 0) (List.replicate 40 0)
        (some wideStream) = .ok img2 ∧ img2.bmpData.length = 536870912 ∧
      img2.bmpFileHeader.bfSize = 138 + 536870912 := by
  obtain ⟨g1, g2, g3, _⟩ := wideHeader_fields (List.replicate 536870912 0)
  obtain ⟨img, h1, h2, h3, _⟩ := ofFile_wideHeader_fields (List.replicate 14 0)
    (List.replicate 40 0) (List.replicate 536870912 0)
  exact ⟨⟨g1, g2, g3⟩, ⟨img, h1, by rw [h2]; rfl, h3⟩,
    ofFileRowByRow_wideHeader (List.replicate 14 0) (List.replicate 40 0)
      (List.replicate 536870912 0)⟩

/-- Claim C19.  For every alignment `a ≥ 1` and every 32-bit `row_stride`,
`make_stride_aligned` terminates with a value `r`: when `row_stride` is a multiple of `a`,
`r = row_stride`; when some multiple of `a` that is at least `row_stride` fits in 32 bits,
`r` is the smallest such multiple, so `r % a = 0` and `0 ≤ r - row_stride < a`; when none
fits, the counter wraps and `r = 0`; for `a = 4` and `row_stride + 3 < 2^32`,
`r = (row_stride + 3) / 4 * 4` and the padding `r - row_stride` is at most 3. -/
theorem make_stride_aligned_spec (a rs : Nat) (ha : 1 ≤ a) (hrs : rs < 4294967296) :
    ∃ r, make_stride_aligned rs a = some r ∧
      (rs % a = 0 → r = rs) ∧
      (∀ m, m % a = 0 → rs ≤ m → m < 4294967296 →
        r % a = 0 ∧ rs ≤ r ∧ r - rs < a ∧ r ≤ m) ∧
      ((∀ m, m % a = 0 → rs ≤ m → 4294967296 ≤ m) → r = 0) ∧
      (a = 4 → rs + 3 < 4294967296 → r = (rs + 3) / 4 * 4 ∧ r - rs ≤ 3) := by
  obtain ⟨h1, h2, h3⟩ := next_multiple a rs ha
  by_cases hfit : rs + (a - rs % a) % a < 4294967296
  · refine ⟨rs + (a - rs % a) % a, ?_, ?_, ?_, ?_, ?_⟩
    · exact make_stride_aligned_loop_reach a _ rs _ h1 h3 hfit (by omega)
    · intro h0
      simp [h0]
    · intro m hm hle _
      refine ⟨h1, by omega, by omega, ?_⟩
      by_contra hc
      exact h3 (m - rs) (by omega) (by rw [show rs + (m - rs) = m by omega]; exact hm)
    · intro hno
      have := hno _ h1 (by omega)
      omega
    · intro h4 _
      subst h4
      omega
  · have hne : ∀ j, j < 4294967296 - rs → (rs + j) % a ≠ 0 := by
      intro j hj
      by_cases hjd : j < (a - rs % a) % a
      · exact h3 j hjd
      · omega
    refine ⟨0, ?_, ?_, ?_, ?_, ?_⟩
    · exact make_stride_aligned_loop_wrap a (4294967296 - rs) rs _ (by omega) (by omega) hne
        (by omega)
    · intro h0
      simp [h0] at hfit
      omega
    · intro m hm hle hlt
      exact absurd hm (by rw [show m = rs + (m - rs) by omega]; exact hne _ (by omega))
    · intro _
      rfl
    · intro h4 h3lt
      subst h4
      omega

/-- Witness of C19: a row of 6 bytes is aligned to 8. -/
theorem make_stride_aligned_spec_witness :
    (1 ≤ 4 ∧ 6 < 4294967296) ∧ make_stride_aligned 6 4 = some 8 := by
  obtain ⟨r, h1, _, _, _, h5⟩ := make_stride_aligned_spec 4 6 (by decide) (by decide)
  have : r = 8 := (h5 rfl (by decide)).1
  subst this
  exact ⟨by decide, h1⟩

/-- Claim C20.  For an image with 3 or 4 channels whose buffer has `width * height *
channels < 2^32` bytes and 32-bit `x0`, `y0`, `w`, `h` that pass the bounds check (the sums
taken modulo `2^32`): `fillRegion` succeeds, so no store falls outside the buffer; every
pixel `(x, y)` of the loop ranges has `x < width` and `y < height`, and each of its byte
indices `channels * (y * width + x) + c` is computed without wrap-around and is below the
buffer length; the buffer keeps its length and every byte that changes is at such an
index; when `x0 + w` or `y0 + h` wraps around, the image is unchanged. -/
theorem BitmapFile.fillRegion_safe (img : BitmapFile) (x0 y0 w h B G R A : Nat)
    (hch : img.bmpInfoHeader.biBitCount / 8 = 3 ∨ img.bmpInfoHeader.biBitCount / 8 = 4)
    (hlen : img.bmpData.length =
      img.bmpInfoHeader.biWidth * img.bmpInfoHeader.biHeight * (img.bmpInfoHeader.biBitCount / 8))
    (hsz : img.bmpInfoHeader.biWidth * img.bmpInfoHeader.biHeight
      * (img.bmpInfoHeader.biBitCount / 8) < 4294967296)
    (hx0 : x0 < 4294967296) (hy0 : y0 < 4294967296) (hw : w < 4294967296)
    (hh : h < 4294967296)
    (hcheck : ¬ (u32 (x0 + w) > img.bmpInfoHeader.biWidth ∨
      u32 (y0 + h) > img.bmpInfoHeader.biHeight)) :
    ∃ img2, img.fillRegion x0 y0 w h B G R A = .ok img2 ∧
      img2.bmpData.length = img.bmpData.length ∧
      (∀ x y c, x0 ≤ x → x < u32 (x0 + w) → y0 ≤ y → y < u32 (y0 + h) →
        c < img.bmpInfoHeader.biBitCount / 8 →
        x < img.bmpInfoHeader.biWidth ∧ y < img.bmpInfoHeader.biHeight ∧
        pixelIndex (img.bmpInfoHeader.biBitCount / 8) img.bmpInfoHeader.biWidth y x c
          = img.bmpInfoHeader.biBitCount / 8 * (y * img.bmpInfoHeader.biWidth + x) + c ∧
        img.bmpInfoHeader.biBitCount / 8 * (y * img.bmpInfoHeader.biWidth + x) + c
          < img.bmpData.length) ∧
      (∀ j, img2.bmpData[j]? ≠ img.bmpData[j]? →
        ∃ x y c, x0 ≤ x ∧ x < u32 (x0 + w) ∧ y0 ≤ y ∧ y < u32 (y0 + h) ∧
          x < img.bmpInfoHeader.biWidth ∧ y < img.bmpInfoHeader.biHeight ∧
          c < img.bmpInfoHeader.biBitCount / 8 ∧
          j = img.bmpInfoHeader.biBitCount / 8 * (y * img.bmpInfoHeader.biWidth + x) + c ∧
          j < img.bmpData.length) ∧
      ((4294967296 ≤ x0 + w ∨ 4294967296 ≤ y0 + h) → img2 = img) := by
  obtain ⟨img2, h1, h2, h3, h4⟩ := fillRegion_changes_inside img x0 y0 w h B G R A hch hlen hsz hx0
    hy0 hw hh hcheck
  exact ⟨img2, h1, h2, fun x y c _ hx _ hy hc =>
    fillRegion_indices _ _ _ _ x0 y0 w h hch hlen hsz hcheck x y c hx hy hc, h3, h4⟩

/-- Witness of C20: a 2 x 2 region at (1, 1) of the 5 x 5 image `img5x5`; the byte of
channel 2 of the pixel (2, 2) is at index 38 of the 75 bytes. -/
theorem BitmapFile.fillRegion_safe_witness :
    ¬ (u32 (1 + 2) > img5x5.bmpInfoHeader.biWidth ∨
      u32 (1 + 2) > img5x5.bmpInfoHeader.biHeight) ∧
    ∃ img2, img5x5.fillRegion 1 1 2 2 10 20 30 40 = .ok img2 ∧
      img2.bmpData.length = 75 ∧ pixelIndex 3 5 2 2 2 = 38 := by
  obtain ⟨img2, h1, h2, h3, _⟩ := BitmapFile.fillRegion_safe img5x5 1 1 2 2 10 20 30 40
    (by decide) (by decide) (by decide) (by decide) (by decide) (by decide) (by decide)
    (by decide)
  exact ⟨by decide, img2, h1, h2,
    (h3 2 2 2 (by decide) (by decide) (by decide) (by decide) (by decide)).2.2.1⟩

end BitmapLibrary
